import Mathlib

/-!
# Verification of the EoN stochastic-simulation core (`EoN/simulation.py`)

This file is a shallow embedding, in Lean 4, of the parts of
`src/EoN/simulation.py` that the specification's claims are about:

* the event queue `myQueue` and the `Event` objects of the event-driven
  engines (`fast_SIR`, `fast_nonMarkov_SIR`, `fast_SIS`);
* the `_ListDict_` indexed-set container used by the Gillespie engines;
* the event-driven SIR handlers `_find_trans_SIR_`, `_process_trans_SIR_`,
  `_process_rec_SIR_` and the driver `fast_nonMarkov_SIR` / `fast_SIR`;
* the event-driven SIS handlers and the driver `fast_SIS`;
* the Gillespie engines `Gillespie_SIR` and `Gillespie_SIS` with their
  helpers `_Gillespie_Initialize_`, `_Gillespie_Infect_`,
  `_Gillespie_Recover_SIR_`, `_Gillespie_Recover_SIS_`;
* the percolation estimator functions `directed_percolate_network`,
  `_out_component_` and `get_infected_nodes`.

Modelling conventions, used throughout:

* Node identifiers are natural numbers.  A graph is a list of nodes
  together with a neighbor function (the read-only graph contract of the
  spec).
* Times and rates are rationals; `float('Inf')` (the default of
  `pred_inf_time`, and the default `tmax`) is modelled with `WithTop ℚ`.
  The claims under study are order-theoretic, not about rounding, so
  rationals are a faithful carrier.
* Randomness is supplied by oracle streams indexed by a draw counter that
  is part of the simulation state.  `random.expovariate(lambd)` is
  modelled as `exps k / lambd`, where `exps k` is the k-th standard
  exponential draw: in CPython, `expovariate(lambd)` computes
  `-log(1-random())/lambd`, so a zero rate raises `ZeroDivisionError`
  (modelled as `Except.error zeroDivisionErrorMsg`) and a positive rate
  divides a nonnegative rate-independent draw by the rate.
  `random.random()` is the stream `unis` (valid streams have values in
  `[0,1)`), `random.randint(0,n-1)` and `random.choice` pick the index
  `ints k % n`, which ranges over exactly the indices CPython can return.
* Python `dict`s / `defaultdict`s are modelled as total functions updated
  with `Function.update` (the defaultdict default being the base
  function); Python lists as Lean lists, with `append` at the tail.
* Fallible operations (`dict.pop` on a missing key, `list.pop()` on an
  empty list, `random.choice` on an empty sequence, failing `assert`s,
  `expovariate(0)`) are modelled in `Except String`; the error string
  names the Python exception.  Where a mutation sequence can fail partway
  through, the embedding performs the state changes in the source's
  statement order so that the state produced before the raise is the
  faithful one.
* Python `while` loops are modelled with an explicit fuel parameter;
  running out of fuel is an `Except.error`, so any `Except.ok` result of
  a driver corresponds to an actual terminating run of the Python code.
-/

namespace EoN

/-- Node status, `'S'`/`'I'`/`'R'` strings in the source. -/
inductive Status where
  | S : Status
  | I : Status
  | R : Status
deriving DecidableEq, Repr

/-- Python `lst[-1]` on the trajectory lists (which are never empty when
accessed by the source); reads the last element, defaulting to 0. -/
def lastD (l : List ℤ) : ℤ := l.getLast?.getD 0

/-- Python `lst[-1]` for the rational-valued `times` list. -/
def lastT (l : List ℚ) : ℚ := l.getLast?.getD 0

/-- The error message of a Python `ZeroDivisionError`, raised by
`random.expovariate(0)`. -/
def zeroDivisionErrorMsg : String := "ZeroDivisionError: float division"

/-- The error message of a Python `KeyError`, raised by `dict.pop` on a
missing key. -/
def keyErrorMsg : String := "KeyError"

/-- The error message of a Python `IndexError` (raised by `heapq.heappop`
on an empty heap, by `list.pop()` on an empty list and by
`random.choice` on an empty sequence). -/
def indexErrorMsg : String := "IndexError"

/-- The error message of a failing Python `assert`. -/
def assertErrorMsg : String := "AssertionError"

/-- The message of the `EoNError` raised when both `initial_infecteds`
and `rho` are supplied.  Modelled from the spec: the class `EoNError`
itself is defined in the package's `__init__` (outside `src/`); the spec
says it is the configuration-error exception type, and we represent a
raised `EoNError` as `Except.error` carrying the message from the
`raise` statement in the source. -/
def eonBothErrorMsg : String := "cannot define both initial_infecteds and rho"

/-- Oracle random streams.  The fields model, in order, the standard
exponential draws behind `random.expovariate` (`expovariate lambd` at
draw counter `k` returns `exps k / lambd`), the uniform draws of
`random.random()`, and the index choices behind `random.randint` /
`random.choice` (used modulo the relevant size). -/
structure Rand where
  exps : ℕ → ℚ
  unis : ℕ → ℚ
  ints : ℕ → ℕ

/-- `random.expovariate(lambd)` at draw counter `k`:
`ZeroDivisionError` when the rate is zero, otherwise the k-th standard
exponential draw scaled by `1/lambd`. -/
def expovariate (rng : Rand) (lambd : ℚ) (k : ℕ) : Except String ℚ :=
  if lambd = 0 then Except.error zeroDivisionErrorMsg
  else Except.ok (rng.exps k / lambd)

/-!
## Graphs

The read-only graph contract consumed by the simulation core:
node enumeration, neighbor enumeration, order.
-/

/-- A finite graph: node list plus neighbor function.  Properties such as
symmetry of adjacency or absence of self-loops are stated as hypotheses
on the claims that need them. -/
structure FGraph where
  nodes : List ℕ
  nbrs : ℕ → List ℕ

/-- `G.order()`. -/
def FGraph.order (G : FGraph) : ℕ := G.nodes.length

/-- Well-formedness of a graph as the simulation code assumes it:
no repeated nodes, no repeated entries in a neighbor list, neighbor
lists only mention nodes, adjacency is symmetric.  (Absence of
self-loops is a separate hypothesis, `NoSelfLoops`, required only by
`Gillespie_SIS`.) -/
structure GraphOK (G : FGraph) : Prop where
  nodes_nodup : G.nodes.Nodup
  nbrs_nodup : ∀ v, (G.nbrs v).Nodup
  nbrs_mem : ∀ v w, w ∈ G.nbrs v → v ∈ G.nodes ∧ w ∈ G.nodes
  symm : ∀ v w, w ∈ G.nbrs v → v ∈ G.nbrs w

/-- No self-loops: required by `Gillespie_SIS` (the source warns that
self-edges break the algorithm). -/
def NoSelfLoops (G : FGraph) : Prop := ∀ v, v ∉ G.nbrs v

/-!
## `Event` and `myQueue`

A Python `Event` is `(time, function, args)`; it is sortable by time.
The handler-plus-arguments pair is modelled as a payload whose type is
engine-specific; the handler to run is determined by the payload
constructor, exactly as the stored function pointer determines it in the
source.  The heap `_Q_` of `myQueue` is modelled as a list; insertion
appends, and popping removes the first event of minimal time (`heapq`
pops an event of minimal time; its tie-break among equal times is
unspecified, and no claim depends on it).
-/

/-- An event: a time plus an engine-specific payload standing for the
`(function, args)` pair. -/
structure Event (α : Type) where
  time : ℚ
  payload : α
deriving DecidableEq, Repr

/-- The priority queue of events, with its `tmax` horizon. -/
structure myQueue (α : Type) where
  Q : List (Event α)
  tmax : WithTop ℚ
deriving DecidableEq, Repr

/-- `myQueue.add`: `if event.time < self.tmax: heappush(self._Q_, event)`. -/
def myQueue.add {α : Type} (q : myQueue α) (event : Event α) : myQueue α :=
  if (event.time : WithTop ℚ) < q.tmax then { q with Q := q.Q ++ [event] } else q

/-- Remove the first minimal-time event from a list of events. -/
def popMin {α : Type} : List (Event α) → Option (Event α × List (Event α))
  | [] => none
  | e :: rest =>
    match popMin rest with
    | none => some (e, [])
    | some (m, rest') => if m.time < e.time then some (m, e :: rest') else some (e, rest)

/-- `heapq.heappop` on the queue: `IndexError` when empty, otherwise the
minimal event and the remaining queue. -/
def myQueue.pop {α : Type} (q : myQueue α) : Except String (Event α × myQueue α) :=
  match popMin q.Q with
  | none => Except.error indexErrorMsg
  | some (e, rest) => Except.ok (e, { q with Q := rest })

/-!
## `_ListDict_`

The indexed set used by the Gillespie engines: a dense item array plus
an item-to-position mapping; removal swaps with the last slot and pops.
-/

/-- `_ListDict_`: `items` is the dense array, `item_to_position` the
(position) dictionary, modelled as a total function into `Option ℕ`
(`none` = key absent). -/
structure ListDict where
  item_to_position : ℕ → Option ℕ
  items : List ℕ

/-- The empty `_ListDict_` (its `__init__`). -/
def ListDict.empty : ListDict :=
  { item_to_position := fun _ => none, items := [] }

/-- `_ListDict_.add`: no-op when the item is already present, else append
and record the position. -/
def ListDict.add (d : ListDict) (item : ℕ) : ListDict :=
  match d.item_to_position item with
  | some _ => d
  | none =>
    { items := d.items ++ [item],
      item_to_position := Function.update d.item_to_position item (some d.items.length) }

/-- `_ListDict_.remove`.  The result pairs the outcome of the call with
the container state after the call, because the source mutates in
statement order: `item_to_position.pop(item)` runs first and raises
`KeyError` — before any mutation — when the item is absent;
`items.pop()` would raise `IndexError` after the dictionary entry was
already removed (unreachable for well-formed containers). -/
def ListDict.remove (d : ListDict) (item : ℕ) : Except String Unit × ListDict :=
  match d.item_to_position item with
  | none => (Except.error keyErrorMsg, d)
  | some position =>
    let d₁ : ListDict :=
      { d with item_to_position := Function.update d.item_to_position item none }
    match d₁.items.getLast? with
    | none => (Except.error indexErrorMsg, d₁)
    | some last_item =>
      let items₁ := d₁.items.dropLast
      if position ≠ items₁.length then
        (Except.ok (),
          { items := items₁.set position last_item,
            item_to_position :=
              Function.update d₁.item_to_position last_item (some position) })
      else
        (Except.ok (), { d₁ with items := items₁ })

/-- `_ListDict_.remove` as an `Except` action (the caller's view: either
the updated container, or the propagating exception). -/
def ListDict.removeE (d : ListDict) (item : ℕ) : Except String ListDict :=
  match d.remove item with
  | (Except.ok _, d') => Except.ok d'
  | (Except.error e, _) => Except.error e

/-- `_ListDict_.choose_random`: `random.choice(self.items)`, with the
index supplied by the random oracle; `IndexError` on an empty container. -/
def ListDict.choose_random (d : ListDict) (rng : Rand) (k : ℕ) : Except String ℕ :=
  match d.items.get? (rng.ints k % d.items.length) with
  | none => Except.error indexErrorMsg
  | some x => Except.ok x

/-- Well-formedness of a `_ListDict_`: the position dictionary is exactly
the index of each item in the dense array. -/
def ListDict.WF (d : ListDict) : Prop :=
  ∀ x i, d.item_to_position x = some i ↔ d.items.get? i = some x

/-!
## Percolation estimator

`directed_percolate_network(G, tau, gamma)` draws, for every node `u`, an
infectious duration `Exp(gamma)`, and for every directed pair `(u,v)`
with `v` a neighbor of `u`, a transmission delay `Exp(tau)`; the edge
`u → v` is added when the delay beats the duration.  For these functions
the random draws are independent of evaluation order, so the embedding
takes the realized durations and delays directly as oracle functions
(`dur u = duration drawn for u`, `del u v = delay drawn for the pair`),
avoiding a draw counter; every realization of the Python code is some
choice of these oracles and vice versa.
-/

/-- The directed percolation network `H`: node list with `duration`
attributes, edge list with `delay` attributes. -/
structure DiGraph where
  nodes : List (ℕ × ℚ)
  edges : List (ℕ × ℕ × ℚ)
deriving DecidableEq, Repr

/-- `directed_percolate_network(G, tau, gamma)` with the realized draws
supplied by `dur` (infectious durations, `Exp(gamma)`) and `del`
(transmission delays, `Exp(tau)`): `u → v` is an edge iff
`del u v < dur u`. -/
def directed_percolate_network (G : FGraph) (dur : ℕ → ℚ) (del : ℕ → ℕ → ℚ) : DiGraph :=
  { nodes := G.nodes.map (fun u => (u, dur u)),
    edges := G.nodes.flatMap (fun u =>
      (G.nbrs u).filterMap (fun v =>
        if del u v < dur u then some (u, v, del u v) else none)) }

/-- The out-neighbors of `u` in a directed graph. -/
def DiGraph.succs (H : DiGraph) (u : ℕ) : List ℕ :=
  H.edges.filterMap (fun e => if e.1 = u then some e.2.1 else none)

/-- One expansion step of reachability: the current node set together
with every out-neighbor of a member, with duplicates removed.  `succ` is
the out-neighbor enumeration of whichever graph is being traversed. -/
def stepReach (succ : ℕ → List ℕ) (s : List ℕ) : List ℕ :=
  (s ++ s.flatMap succ).dedup

/-- All nodes reachable from `source` (by a path of length ≥ 0, so
including `source` itself): `bound` expansion steps of `stepReach`,
where `bound` is at least the number of nodes of the graph. -/
def reachFrom (succ : ℕ → List ℕ) (bound : ℕ) (source : ℕ) : List ℕ :=
  Nat.iterate (stepReach succ) bound [source]

/-- `networkx.descendants(G, source)`: the set of nodes reachable from
`source`, always excluding `source` itself (networkx computes the
shortest-path-length keys minus `{source}`). -/
def descendants (succ : ℕ → List ℕ) (bound : ℕ) (source : ℕ) : List ℕ :=
  (reachFrom succ bound source).filter (fun v => v ≠ source)

/-- `_out_component_(G, source)` on the iterable branch (the branch taken
by `get_infected_nodes`, whose `initial_infecteds` is a list at the call
site): the union over the sources of `nx.descendants`, starting from the
empty set.  `succ`/`bound` describe whichever graph is passed as the
first argument. -/
def _out_component_ (succ : ℕ → List ℕ) (bound : ℕ) (source_nodes : List ℕ) : List ℕ :=
  (source_nodes.flatMap (fun node => descendants succ bound node)).dedup

/-- `get_infected_nodes(G, tau, gamma, initial_infecteds)` for a list of
initial infecteds: builds `H = directed_percolate_network(G, tau, gamma)`
and then returns `_out_component_(G, initial_infecteds)` — note that the
source passes `G`, not `H`, exactly as written on line 771 of
`simulation.py`. -/
def get_infected_nodes (G : FGraph) (dur : ℕ → ℚ) (del : ℕ → ℕ → ℚ)
    (initial_infecteds : List ℕ) : List ℕ :=
  let _H := directed_percolate_network G dur del
  _out_component_ G.nbrs G.order initial_infecteds

/-- The set the claim describes: all nodes reachable from the initial
infecteds, including the initial infecteds themselves, following
out-edges of the directed percolation network `H`. -/
def claimReachableSet (H : DiGraph) (initial_infecteds : List ℕ) : List ℕ :=
  (initial_infecteds.flatMap
    (fun u => reachFrom H.succs H.nodes.length u)).dedup

/-!
## Rate functions

`_get_rate_functions` with no weight attributes (the only configuration
exercised by the claims): constant rates.
-/

/-- `_get_rate_functions(G, tau, gamma)` without weight labels: the pair
`(trans_rate_fxn, rec_rate_fxn)` of constant functions. -/
def _get_rate_functions (tau gamma : ℚ) : (ℕ → ℕ → ℚ) × (ℕ → ℚ) :=
  (fun _ _ => tau, fun _ => gamma)

/-!
## Event-driven SIR engine

`fast_nonMarkov_SIR` with the default transmission handler
`_process_trans_SIR_` (which is what `fast_SIR` runs).  The engine state
bundles the closure-captured mutable objects of the source: the status /
recovery-time / predicted-infection-time dictionaries, the four
trajectory lists, the event queue and the draw counter.
-/

/-- Payload of an event of the event-driven SIR engine: the stored
handler-plus-arguments pair is either a `_process_trans_SIR_` call on a
target node or a `_process_rec_SIR_` call on a recovering node. -/
inductive SIRev where
  | trans : ℕ → SIRev
  | recov : ℕ → SIRev
deriving DecidableEq, Repr

/-- The mutable state of a `fast_nonMarkov_SIR` run. -/
structure FSIRState where
  status : ℕ → Status
  rec_time : ℕ → ℚ
  pred_inf_time : ℕ → WithTop ℚ
  times : List ℚ
  Ss : List ℤ
  Is : List ℤ
  Rs : List ℤ
  Q : myQueue SIRev
  draws : ℕ

/-- Draw `random.expovariate(lambd)` inside the SIR engine state,
advancing the draw counter. -/
def drawExpSIR (rng : Rand) (lambd : ℚ) (st : FSIRState) :
    Except String (ℚ × FSIRState) :=
  match expovariate rng lambd st.draws with
  | Except.error e => Except.error e
  | Except.ok x => Except.ok (x, { st with draws := st.draws + 1 })

/-- `_find_trans_SIR_(Q, t, tau, source, target, status, pred_inf_time,
source_rec_time, ...)`: when the target is susceptible, draw a
transmission delay and, if the resulting infection time beats both the
source's recovery time and the target's predicted infection time,
enqueue a transmission event and lower the prediction. -/
def _find_trans_SIR_ (rng : Rand) (tau : ℚ) (t : ℚ) (target : ℕ)
    (source_rec_time : ℚ) (st : FSIRState) : Except String FSIRState :=
  if st.status target = Status.S then
    match drawExpSIR rng tau st with
    | Except.error e => Except.error e
    | Except.ok (delay, st) =>
      let inf_time := t + delay
      if (inf_time : WithTop ℚ) <
          min (source_rec_time : WithTop ℚ) (st.pred_inf_time target) then
        let st := { st with Q := st.Q.add ⟨inf_time, SIRev.trans target⟩ }
        Except.ok { st with
          pred_inf_time := Function.update st.pred_inf_time target (inf_time : WithTop ℚ) }
      else Except.ok st
  else Except.ok st

/-- The `for v in G.neighbors(node)` loop of `_process_trans_SIR_`,
calling `_find_trans_SIR_` for each neighbor in order. -/
def findTransLoop (rng : Rand) (trans_rate_fxn : ℕ → ℕ → ℚ) (node : ℕ) (time : ℚ)
    (source_rec_time : ℚ) : List ℕ → FSIRState → Except String FSIRState
  | [], st => Except.ok st
  | v :: vs, st =>
    match _find_trans_SIR_ rng (trans_rate_fxn node v) time v source_rec_time st with
    | Except.error e => Except.error e
    | Except.ok st' => findTransLoop rng trans_rate_fxn node time source_rec_time vs st'

/-- `_process_trans_SIR_(time, G, node, ...)`: nothing happens unless the
node is susceptible; otherwise mark it infected, extend the trajectory,
draw and record its recovery time, enqueue the recovery event, and run
`_find_trans_SIR_` for every neighbor. -/
def _process_trans_SIR_ (rng : Rand) (G : FGraph) (trans_rate_fxn : ℕ → ℕ → ℚ)
    (rec_rate_fxn : ℕ → ℚ) (time : ℚ) (node : ℕ) (st : FSIRState) :
    Except String FSIRState :=
  if st.status node = Status.S then
    let st := { st with
      status := Function.update st.status node Status.I,
      times := st.times ++ [time],
      Ss := st.Ss ++ [lastD st.Ss - 1],
      Is := st.Is ++ [lastD st.Is + 1],
      Rs := st.Rs ++ [lastD st.Rs] }
    match drawExpSIR rng (rec_rate_fxn node) st with
    | Except.error e => Except.error e
    | Except.ok (d, st) =>
      let rt := time + d
      let st := { st with rec_time := Function.update st.rec_time node rt }
      let st := { st with Q := st.Q.add ⟨rt, SIRev.recov node⟩ }
      findTransLoop rng trans_rate_fxn node time rt (G.nbrs node) st
  else Except.ok st

/-- `_process_rec_SIR_(time, node, ...)`: extend the trajectory and mark
the node recovered. -/
def _process_rec_SIR_ (time : ℚ) (node : ℕ) (st : FSIRState) : FSIRState :=
  let st := { st with
    times := st.times ++ [time],
    Ss := st.Ss ++ [lastD st.Ss],
    Is := st.Is ++ [lastD st.Is - 1],
    Rs := st.Rs ++ [lastD st.Rs + 1] }
  { st with status := Function.update st.status node Status.R }

/-- A transmission handler as `fast_nonMarkov_SIR` receives it: called
with the event time, the target node and the (closure-captured) state. -/
def TransHandler : Type := ℚ → ℕ → FSIRState → Except String FSIRState

/-- `myQueue.pop_and_run` for the SIR engine: pop the minimal event
(`IndexError` on an empty queue, raised before any handler runs) and
dispatch on the stored handler. -/
def fastPopAndRun (h : TransHandler) (st : FSIRState) : Except String FSIRState :=
  match st.Q.pop with
  | Except.error e => Except.error e
  | Except.ok (event, Q') =>
    let st := { st with Q := Q' }
    match event.payload with
    | SIRev.trans target => h event.time target st
    | SIRev.recov node => Except.ok (_process_rec_SIR_ event.time node st)

/-- The initial engine state of `fast_nonMarkov_SIR` (the `Q is None`
branch): fresh dictionaries with their defaults, the seeded trajectory
`([0],[N],[0],[0])`, and one time-0 transmission event per initial
infected, whose predicted infection time is set to 0. -/
def fastSIRInit (G : FGraph) (initial_infecteds : List ℕ) (tmax : WithTop ℚ) :
    FSIRState :=
  let base : FSIRState :=
    { status := fun _ => Status.S,
      rec_time := fun _ => -1,
      pred_inf_time := fun _ => (⊤ : WithTop ℚ),
      times := [0], Ss := [(G.order : ℤ)], Is := [0], Rs := [0],
      Q := { Q := [], tmax := tmax }, draws := 0 }
  initial_infecteds.foldl (fun st u =>
    let st := { st with pred_inf_time := Function.update st.pred_inf_time u (0 : ℚ) }
    { st with Q := st.Q.add ⟨0, SIRev.trans u⟩ }) base

/-- The `while Q: Q.pop_and_run()` loop, with explicit fuel; exhausting
the fuel while events remain is an error, so an `ok` result is a
faithfully terminated run. -/
def fastSIRLoop (h : TransHandler) : ℕ → FSIRState → Except String FSIRState
  | 0, st => if st.Q.Q = [] then Except.ok st else Except.error "fuel exhausted"
  | fuel + 1, st =>
    if st.Q.Q = [] then Except.ok st
    else
      match fastPopAndRun h st with
      | Except.error e => Except.error e
      | Except.ok st' => fastSIRLoop h fuel st'

/-- The state of a `fast_nonMarkov_SIR` run at its `n`-th event boundary:
the initial state after initialization, then one `pop_and_run` per step
(stable once the queue is empty). -/
def fastSIRBoundary (h : TransHandler) (G : FGraph) (initial_infecteds : List ℕ)
    (tmax : WithTop ℚ) : ℕ → Except String FSIRState
  | 0 => Except.ok (fastSIRInit G initial_infecteds tmax)
  | n + 1 =>
    match fastSIRBoundary h G initial_infecteds tmax n with
    | Except.error e => Except.error e
    | Except.ok st => if st.Q.Q = [] then Except.ok st else fastPopAndRun h st

/-- `fast_nonMarkov_SIR(G, process_trans, args, initial_infecteds, rho,
tmax, ..., Q)`.  `initial_infecteds` is the iterable form (a single node
`u` in the source corresponds to `[u]` after its `G.has_node` dispatch);
`sample` is the oracle standing for `random.sample(G.nodes(), n)` on the
path where no initial infecteds are given.  Returns the trimmed
trajectory `(times, S, I, R)`. -/
def fast_nonMarkov_SIR (G : FGraph) (process_trans : TransHandler)
    (initial_infecteds : Option (List ℕ)) (rho : Option ℚ) (tmax : WithTop ℚ)
    (sample : ℕ → List ℕ) (Qpre : Option (List (Event SIRev))) (fuel : ℕ) :
    Except String (List ℚ × List ℤ × List ℤ × List ℤ) :=
  if rho.isSome ∧ initial_infecteds.isSome then Except.error eonBothErrorMsg
  else
    match Qpre with
    | some _ => Except.error "inputting Q is not currently tested"
    | none =>
      let initial : List ℕ :=
        match initial_infecteds with
        | some l => l
        | none =>
          sample (match rho with
            | none => 1
            | some r => (round ((G.order : ℚ) * r)).toNat)
      let st := fastSIRInit G initial tmax
      match fastSIRLoop process_trans fuel st with
      | Except.error e => Except.error e
      | Except.ok st =>
        Except.ok (st.times.drop initial.length, st.Ss.drop initial.length,
          st.Is.drop initial.length, st.Rs.drop initial.length)

/-- `fast_SIR(G, tau, gamma, ...)`: build the constant rate functions
and delegate to `fast_nonMarkov_SIR` with `_process_trans_SIR_`. -/
def fast_SIR (rng : Rand) (G : FGraph) (tau gamma : ℚ)
    (initial_infecteds : Option (List ℕ)) (rho : Option ℚ) (tmax : WithTop ℚ)
    (sample : ℕ → List ℕ) (fuel : ℕ) :
    Except String (List ℚ × List ℤ × List ℤ × List ℤ) :=
  let fxns := _get_rate_functions tau gamma
  fast_nonMarkov_SIR G (_process_trans_SIR_ rng G fxns.1 fxns.2)
    initial_infecteds rho tmax sample none fuel

/-!
## Event-driven SIS engine

`fast_SIS`, with `_process_trans_SIS_`, `_find_next_trans_SIS_` and
`_process_rec_SIS_`.  A transmission event carries its source;
the sentinel source `'initial_condition'` is modelled as `none`
(the dictionary entry `rec_time['initial_condition'] = 0` set by
`fast_SIS` is read by no code path reachable here, since
`_find_next_trans_SIS_` is only ever invoked with a node source,
so `rec_time` stays a map on nodes).
-/

/-- Payload of an event of the event-driven SIS engine. -/
inductive SISev where
  | trans : Option ℕ → ℕ → SISev
  | recov : ℕ → SISev
deriving DecidableEq, Repr

/-- The mutable state of a `fast_SIS` run. -/
structure FSISState where
  status : ℕ → Status
  rec_time : ℕ → ℚ
  infection_times : ℕ → List ℚ
  recovery_times : ℕ → List ℚ
  times : List ℚ
  Ss : List ℤ
  Is : List ℤ
  Q : myQueue SISev
  draws : ℕ

/-- Draw `random.expovariate(lambd)` inside the SIS engine state. -/
def drawExpSIS (rng : Rand) (lambd : ℚ) (st : FSISState) :
    Except String (ℚ × FSISState) :=
  match expovariate rng lambd st.draws with
  | Except.error e => Except.error e
  | Except.ok x => Except.ok (x, { st with draws := st.draws + 1 })

/-- `_find_next_trans_SIS_(Q, time, tau, source, target, status,
rec_time, ...)`: asserts the source is infected; when the target will be
susceptible again before the source recovers, draw the next transmission
attempt and enqueue it if it lands inside the source's infectious
interval. -/
def _find_next_trans_SIS_ (rng : Rand) (tau : ℚ) (time : ℚ) (source target : ℕ)
    (st : FSISState) : Except String FSISState :=
  if st.status source ≠ Status.I then Except.error assertErrorMsg
  else if st.rec_time target < st.rec_time source then
    match drawExpSIS rng tau st with
    | Except.error e => Except.error e
    | Except.ok (delay, st) =>
      let transmission_time := max time (st.rec_time target) + delay
      if transmission_time < st.rec_time source then
        Except.ok { st with Q := st.Q.add ⟨transmission_time, SISev.trans (some source) target⟩ }
      else Except.ok st
  else Except.ok st

/-- The `for v in G.neighbors(target)` loop of `_process_trans_SIS_`. -/
def findNextTransLoop (rng : Rand) (trans_rate_fxn : ℕ → ℕ → ℚ) (target : ℕ)
    (time : ℚ) : List ℕ → FSISState → Except String FSISState
  | [], st => Except.ok st
  | v :: vs, st =>
    match _find_next_trans_SIS_ rng (trans_rate_fxn target v) time target v st with
    | Except.error e => Except.error e
    | Except.ok st' => findNextTransLoop rng trans_rate_fxn target time vs st'

/-- `_process_trans_SIS_(time, G, source, target, ...)`: if the target is
susceptible, infect it (trajectory, recovery event, next-transmission
attempts to all neighbors, infection-time record); in either case, when
the source is a node (not `'initial_condition'`), schedule the source's
next transmission attempt to the target. -/
def _process_trans_SIS_ (rng : Rand) (G : FGraph) (trans_rate_fxn : ℕ → ℕ → ℚ)
    (rec_rate_fxn : ℕ → ℚ) (time : ℚ) (source : Option ℕ) (target : ℕ)
    (st : FSISState) : Except String FSISState :=
  let branch : Except String FSISState :=
    if st.status target = Status.S then
      let st := { st with
        status := Function.update st.status target Status.I,
        Is := st.Is ++ [lastD st.Is + 1],
        Ss := st.Ss ++ [lastD st.Ss - 1],
        times := st.times ++ [time] }
      match drawExpSIS rng (rec_rate_fxn target) st with
      | Except.error e => Except.error e
      | Except.ok (d, st) =>
        let rt := time + d
        let st := { st with rec_time := Function.update st.rec_time target rt }
        let st := { st with Q := st.Q.add ⟨rt, SISev.recov target⟩ }
        match findNextTransLoop rng trans_rate_fxn target time (G.nbrs target) st with
        | Except.error e => Except.error e
        | Except.ok st =>
          Except.ok { st with
            infection_times :=
              Function.update st.infection_times target
                (st.infection_times target ++ [time]) }
    else Except.ok st
  match branch with
  | Except.error e => Except.error e
  | Except.ok st =>
    match source with
    | none => Except.ok st
    | some s => _find_next_trans_SIS_ rng (trans_rate_fxn s target) time s target st

/-- `_process_rec_SIS_(time, node, ...)`: extend the trajectory and mark
the node susceptible again. -/
def _process_rec_SIS_ (time : ℚ) (node : ℕ) (st : FSISState) : FSISState :=
  let st := { st with
    times := st.times ++ [time],
    Ss := st.Ss ++ [lastD st.Ss + 1],
    Is := st.Is ++ [lastD st.Is - 1] }
  { st with status := Function.update st.status node Status.S }

/-- `pop_and_run` for the SIS engine. -/
def fastSISPopAndRun (rng : Rand) (G : FGraph) (trans_rate_fxn : ℕ → ℕ → ℚ)
    (rec_rate_fxn : ℕ → ℚ) (st : FSISState) : Except String FSISState :=
  match st.Q.pop with
  | Except.error e => Except.error e
  | Except.ok (event, Q') =>
    let st := { st with Q := Q' }
    match event.payload with
    | SISev.trans source target =>
      _process_trans_SIS_ rng G trans_rate_fxn rec_rate_fxn event.time source target st
    | SISev.recov node => Except.ok (_process_rec_SIS_ event.time node st)

/-- The `while Q` loop of `fast_SIS`, with fuel. -/
def fastSISLoop (rng : Rand) (G : FGraph) (trans_rate_fxn : ℕ → ℕ → ℚ)
    (rec_rate_fxn : ℕ → ℚ) : ℕ → FSISState → Except String FSISState
  | 0, st => if st.Q.Q = [] then Except.ok st else Except.error "fuel exhausted"
  | fuel + 1, st =>
    if st.Q.Q = [] then Except.ok st
    else
      match fastSISPopAndRun rng G trans_rate_fxn rec_rate_fxn st with
      | Except.error e => Except.error e
      | Except.ok st' => fastSISLoop rng G trans_rate_fxn rec_rate_fxn fuel st'

/-- The initial engine state of `fast_SIS`: seeded trajectory
`([0],[N],[0])` and one time-0 transmission event with source
`'initial_condition'` per initial infected. -/
def fastSISInit (G : FGraph) (initial_infecteds : List ℕ) (tmax : WithTop ℚ) :
    FSISState :=
  let base : FSISState :=
    { status := fun _ => Status.S,
      rec_time := fun _ => -1,
      infection_times := fun _ => [],
      recovery_times := fun _ => [],
      times := [0], Ss := [(G.order : ℤ)], Is := [0],
      Q := { Q := [], tmax := tmax }, draws := 0 }
  initial_infecteds.foldl (fun st u =>
    { st with Q := st.Q.add ⟨0, SISev.trans none u⟩ }) base

/-- `fast_SIS(G, tau, gamma, initial_infecteds, rho, tmax, ...)`:
validation, initial-condition resolution, event loop, trimming.
Returns `(times, S, I)`. -/
def fast_SIS (rng : Rand) (G : FGraph) (tau gamma : ℚ)
    (initial_infecteds : Option (List ℕ)) (rho : Option ℚ) (tmax : WithTop ℚ)
    (sample : ℕ → List ℕ) (fuel : ℕ) :
    Except String (List ℚ × List ℤ × List ℤ) :=
  if rho.isSome ∧ initial_infecteds.isSome then Except.error eonBothErrorMsg
  else
    let fxns := _get_rate_functions tau gamma
    let initial : List ℕ :=
      match initial_infecteds with
      | some l => l
      | none =>
        sample (match rho with
          | none => 1
          | some r => (round ((G.order : ℚ) * r)).toNat)
    let st := fastSISInit G initial tmax
    match fastSISLoop rng G fxns.1 fxns.2 fuel st with
    | Except.error e => Except.error e
    | Except.ok st =>
      Except.ok (st.times.drop initial.length, st.Ss.drop initial.length,
        st.Is.drop initial.length)

/-!
## Gillespie engine

`Gillespie_SIR` and `Gillespie_SIS` with `_Gillespie_Initialize_`
(embedded as `_Gillespie_Init_`), `_Gillespie_Infect_`,
`_Gillespie_Recover_SIR_` and `_Gillespie_Recover_SIS_`.

`infected_neighbor_count` is an integer-valued defaultdict (risk-group
keys are its values, so `risk_group` is indexed by `ℤ`).  The Python
sums and scans iterate `risk_group.keys()` — the defaultdict keys
touched so far, in dictionary order.  In every state the engine reaches,
a group outside `0 .. G.order()` is empty (a susceptible node has at
most `G.order()` infected neighbors), an empty group contributes `0` to
every sum, and the stratum scan only stops at a key with a nonempty
group whenever it stops at all; the embedding therefore enumerates the
keys as `0, 1, ..., G.order()`, which realizes the same sums and the
same reachable selections.
-/

/-- The mutable state shared by the Gillespie engines. -/
structure GState where
  times : List ℚ
  Ss : List ℤ
  Is : List ℤ
  Rs : List ℤ
  status : ℕ → Status
  infected : List ℕ
  infected_neighbor_count : ℕ → ℤ
  risk_group : ℤ → ListDict
  infection_times : ℕ → List ℚ
  recovery_times : ℕ → List ℚ
  draws : ℕ

/-- `sum(n*len(risk_group[n]) for n in risk_group.keys())`, with the keys
enumerated as `0 .. bound` (see the section comment). -/
def riskSum (bound : ℕ) (grp : ℤ → ListDict) : ℕ :=
  ((List.range (bound + 1)).map (fun k : ℕ => k * (grp (Int.ofNat k)).items.length)).sum

/-- The enumerated key list of `risk_group` (see the section comment). -/
def gKeys (G : FGraph) : List ℤ := (List.range (G.order + 1)).map (fun n => (n : ℤ))

/-- The inner neighbor loop of `_Gillespie_Initialize_`: for every
susceptible neighbor of the (infected) node being processed, bump its
infected-neighbor count and move it one risk stratum up. -/
def gInitNbrLoop : List ℕ → GState → Except String GState
  | [], st => Except.ok st
  | w :: ws, st =>
    if st.status w = Status.S then
      let c := st.infected_neighbor_count w + 1
      let st := { st with
        infected_neighbor_count := Function.update st.infected_neighbor_count w c }
      let removed : Except String GState :=
        if c > 1 then
          match (st.risk_group (c - 1)).removeE w with
          | Except.error e => Except.error e
          | Except.ok g =>
            Except.ok { st with risk_group := Function.update st.risk_group (c - 1) g }
        else Except.ok st
      match removed with
      | Except.error e => Except.error e
      | Except.ok st =>
        let st := { st with
          risk_group := Function.update st.risk_group c ((st.risk_group c).add w) }
        gInitNbrLoop ws st
    else gInitNbrLoop ws st

/-- The outer loop of `_Gillespie_Initialize_` over the initial
infecteds. -/
def gInitOuterLoop (G : FGraph) : List ℕ → GState → Except String GState
  | [], st => Except.ok st
  | u :: us, st =>
    match gInitNbrLoop (G.nbrs u) st with
    | Except.error e => Except.error e
    | Except.ok st' => gInitOuterLoop G us st'

/-- `_Gillespie_Initialize_(G, initial_infecteds, infection_times,
return_full_data, SIR)`: seed the trajectory, mark the initial infecteds,
and build the risk strata.  (The SIR flag only selects which lists the
Python function returns; the state is identical, and the `R` list exists
in both modes.) -/
def _Gillespie_Init_ (G : FGraph) (initial_infecteds : List ℕ)
    (return_full_data : Bool) : Except String GState :=
  let base : GState :=
    { times := [0],
      Ss := [(G.order : ℤ) - initial_infecteds.length],
      Is := [(initial_infecteds.length : ℤ)],
      Rs := [0],
      status := initial_infecteds.foldl
        (fun s node => Function.update s node Status.I) (fun _ => Status.S),
      infected := initial_infecteds,
      infected_neighbor_count := fun _ => 0,
      risk_group := fun _ => ListDict.empty,
      infection_times := fun _ => [],
      recovery_times := fun _ => [],
      draws := 0 }
  match gInitOuterLoop G initial_infecteds base with
  | Except.error e => Except.error e
  | Except.ok st =>
    Except.ok <|
      if return_full_data then
        { st with
          infection_times := initial_infecteds.foldl
            (fun f node => Function.update f node (f node ++ [(0 : ℚ)]))
            st.infection_times }
      else st

/-- The `for n in risk_group.keys(): r -= n*len(...); if r < 0: break`
scan of `_Gillespie_Infect_`; when the loop never breaks, `n` is left at
the last key iterated, exactly as in Python. -/
def pickStratum (grp : ℤ → ListDict) : ℚ → List ℤ → ℤ
  | _, [] => 0
  | r, k :: ks =>
    let r' := r - (k : ℚ) * ((grp k).items.length : ℚ)
    if r' < 0 then k
    else
      match ks with
      | [] => k
      | _ :: _ => pickStratum grp r' ks

/-- The neighbor loop of `_Gillespie_Infect_`: every susceptible
neighbor of the new infected moves one risk stratum up. -/
def gInfectNbrLoop : List ℕ → GState → Except String GState
  | [], st => Except.ok st
  | w :: ws, st =>
    if st.status w = Status.S then
      let removed : Except String GState :=
        if st.infected_neighbor_count w > 0 then
          match (st.risk_group (st.infected_neighbor_count w)).removeE w with
          | Except.error e => Except.error e
          | Except.ok g =>
            Except.ok { st with
              risk_group :=
                Function.update st.risk_group (st.infected_neighbor_count w) g }
        else Except.ok st
      match removed with
      | Except.error e => Except.error e
      | Except.ok st =>
        let c := st.infected_neighbor_count w + 1
        let st := { st with
          infected_neighbor_count := Function.update st.infected_neighbor_count w c }
        let st := { st with
          risk_group := Function.update st.risk_group c ((st.risk_group c).add w) }
        gInfectNbrLoop ws st
    else gInfectNbrLoop ws st

/-- `_Gillespie_Infect_(G, S, I, R, times, infected, current_time, ...)`:
choose the risk stratum with probability proportional to
`n*len(risk_group[n])`, sample a recipient uniformly from it
(`IndexError` when the selected group is empty), assert it is
susceptible, remove it from its stratum, infect it, extend the
trajectory (`R` only in SIR mode), and promote its susceptible
neighbors one stratum up. -/
def _Gillespie_Infect_ (rng : Rand) (G : FGraph) (current_time : ℚ)
    (SIR : Bool) (st : GState) : Except String GState :=
  let total := (riskSum G.order st.risk_group : ℚ)
  let r := rng.unis st.draws * total
  let st := { st with draws := st.draws + 1 }
  let n := pickStratum st.risk_group r (gKeys G)
  match (st.risk_group n).choose_random rng st.draws with
  | Except.error e => Except.error e
  | Except.ok recipient =>
    let st := { st with draws := st.draws + 1 }
    if st.status recipient ≠ Status.S then Except.error assertErrorMsg
    else
      match (st.risk_group n).removeE recipient with
      | Except.error e => Except.error e
      | Except.ok g =>
        let st := { st with risk_group := Function.update st.risk_group n g }
        let st := { st with infected := st.infected ++ [recipient] }
        let st := { st with
          infection_times := Function.update st.infection_times recipient
            (st.infection_times recipient ++ [current_time]) }
        let st := { st with status := Function.update st.status recipient Status.I }
        let st := { st with
          Ss := st.Ss ++ [lastD st.Ss - 1],
          Is := st.Is ++ [lastD st.Is + 1],
          times := st.times ++ [current_time] }
        let st := if SIR then { st with Rs := st.Rs ++ [lastD st.Rs] } else st
        gInfectNbrLoop (G.nbrs recipient) st

/-- The neighbor loop of `_Gillespie_Recover_SIR_`: every susceptible
neighbor of the recovered node moves one risk stratum down. -/
def gRecoverSIRNbrLoop : List ℕ → GState → Except String GState
  | [], st => Except.ok st
  | w :: ws, st =>
    if st.status w = Status.S then
      match (st.risk_group (st.infected_neighbor_count w)).removeE w with
      | Except.error e => Except.error e
      | Except.ok g =>
        let st := { st with
          risk_group :=
            Function.update st.risk_group (st.infected_neighbor_count w) g }
        let c := st.infected_neighbor_count w - 1
        let st := { st with
          infected_neighbor_count := Function.update st.infected_neighbor_count w c }
        let st :=
          if c > 0 then
            { st with
              risk_group := Function.update st.risk_group c ((st.risk_group c).add w) }
          else st
        gRecoverSIRNbrLoop ws st
    else gRecoverSIRNbrLoop ws st

/-- `_Gillespie_Recover_SIR_`: assert `I[-1] == len(infected)`, pick a
uniformly random infected node (`random.randint`, which needs a nonempty
range), swap-remove it from the infected list, mark it recovered, extend
the trajectory and demote its susceptible neighbors one stratum. -/
def _Gillespie_Recover_SIR_ (rng : Rand) (G : FGraph) (current_time : ℚ)
    (return_full_data : Bool) (st : GState) : Except String GState :=
  if lastD st.Is ≠ (st.infected.length : ℤ) then Except.error assertErrorMsg
  else
    let n := st.infected.length
    if n = 0 then Except.error "ValueError: empty range for randrange"
    else
      let index := rng.ints st.draws % n
      let st := { st with draws := st.draws + 1 }
      match st.infected.get? index, st.infected.getLast? with
      | some recovering_node, some last_node =>
        let st := { st with infected := (st.infected.set index last_node).dropLast }
        let st := { st with Is := st.Is ++ [lastD st.Is - 1] }
        let st := { st with status := Function.update st.status recovering_node Status.R }
        let st := { st with
          Ss := st.Ss ++ [lastD st.Ss],
          Rs := st.Rs ++ [lastD st.Rs + 1],
          times := st.times ++ [current_time] }
        match gRecoverSIRNbrLoop (G.nbrs recovering_node) st with
        | Except.error e => Except.error e
        | Except.ok st =>
          Except.ok <|
            if return_full_data then
              { st with
                recovery_times := Function.update st.recovery_times recovering_node
                  (st.recovery_times recovering_node ++ [current_time]) }
            else st
      | _, _ => Except.error indexErrorMsg

/-- The neighbor loop of `_Gillespie_Recover_SIS_`: skip self-loops;
infected neighbors rebuild the recovering node's own count, susceptible
neighbors move one risk stratum down. -/
def gRecoverSISNbrLoop (recovering_node : ℕ) : List ℕ → GState → Except String GState
  | [], st => Except.ok st
  | w :: ws, st =>
    if w = recovering_node then gRecoverSISNbrLoop recovering_node ws st
    else if st.status w = Status.I then
      let st := { st with
        infected_neighbor_count := Function.update st.infected_neighbor_count
          recovering_node (st.infected_neighbor_count recovering_node + 1) }
      gRecoverSISNbrLoop recovering_node ws st
    else
      match (st.risk_group (st.infected_neighbor_count w)).removeE w with
      | Except.error e => Except.error e
      | Except.ok g =>
        let st := { st with
          risk_group :=
            Function.update st.risk_group (st.infected_neighbor_count w) g }
        let c := st.infected_neighbor_count w - 1
        let st := { st with
          infected_neighbor_count := Function.update st.infected_neighbor_count w c }
        let st :=
          if c > 0 then
            { st with
              risk_group := Function.update st.risk_group c ((st.risk_group c).add w) }
          else st
        gRecoverSISNbrLoop recovering_node ws st

/-- `_Gillespie_Recover_SIS_`: like the SIR recovery but the node
returns to susceptible; its infected-neighbor count is rebuilt from its
(non-self) neighbors, and it re-enters a risk stratum if that count is
positive. -/
def _Gillespie_Recover_SIS_ (rng : Rand) (G : FGraph) (current_time : ℚ)
    (return_full_data : Bool) (st : GState) : Except String GState :=
  if lastD st.Is ≠ (st.infected.length : ℤ) then Except.error assertErrorMsg
  else
    let n := st.infected.length
    if n = 0 then Except.error "ValueError: empty range for randrange"
    else
      let index := rng.ints st.draws % n
      let st := { st with draws := st.draws + 1 }
      match st.infected.get? index, st.infected.getLast? with
      | some recovering_node, some last_node =>
        let st := { st with infected := (st.infected.set index last_node).dropLast }
        let st := { st with Is := st.Is ++ [lastD st.Is - 1] }
        let st := { st with status := Function.update st.status recovering_node Status.S }
        let st := { st with
          Ss := st.Ss ++ [lastD st.Ss + 1],
          times := st.times ++ [current_time] }
        let st := { st with
          infected_neighbor_count :=
            Function.update st.infected_neighbor_count recovering_node 0 }
        match gRecoverSISNbrLoop recovering_node (G.nbrs recovering_node) st with
        | Except.error e => Except.error e
        | Except.ok st =>
          let st :=
            if st.infected_neighbor_count recovering_node > 0 then
              { st with
                risk_group := Function.update st.risk_group
                  (st.infected_neighbor_count recovering_node)
                  ((st.risk_group (st.infected_neighbor_count recovering_node)).add
                    recovering_node) }
            else st
          Except.ok <|
            if return_full_data then
              { st with
                recovery_times := Function.update st.recovery_times recovering_node
                  (st.recovery_times recovering_node ++ [current_time]) }
            else st
      | _, _ => Except.error indexErrorMsg

/-- The loop-carried variables of a Gillespie main loop: the engine
state, the `total_rec_rate` and `total_rate` computed at the end of the
previous iteration (or before the loop), and `next_time` (which
`Gillespie_SIS` can set to `float('Inf')`). -/
structure GLoop where
  st : GState
  total_rec_rate : ℚ
  total_rate : ℚ
  next_time : WithTop ℚ

/-- The `while next_time < tmax and infected` guard. -/
def gGuard (tmax : WithTop ℚ) (L : GLoop) : Prop :=
  L.next_time < tmax ∧ L.st.infected ≠ []

instance (tmax : WithTop ℚ) (L : GLoop) : Decidable (gGuard tmax L) :=
  inferInstanceAs (Decidable (L.next_time < tmax ∧ L.st.infected ≠ []))

/-- One body execution of the Gillespie main loop (`SIR` selects the
recovery routine and the `R`-list bookkeeping, and whether a vanishing
total rate freezes `next_time` — SIR — or sets it to infinity — SIS).
Precondition of reaching the body: the guard held, so `next_time` is
finite. -/
def gBody (rng : Rand) (G : FGraph) (tau gamma : ℚ) (SIR : Bool)
    (return_full_data : Bool) (L : GLoop) : Except String GLoop :=
  match L.next_time with
  | ⊤ => Except.error "unreachable: next_time is infinite inside the loop"
  | (t : ℚ) =>
    let r := rng.unis L.st.draws * L.total_rate
    let st0 := { L.st with draws := L.st.draws + 1 }
    let branch : Except String (GState × ℚ) :=
      if r < L.total_rec_rate then
        match (if SIR then _Gillespie_Recover_SIR_ rng G t return_full_data st0
               else _Gillespie_Recover_SIS_ rng G t return_full_data st0) with
        | Except.error e => Except.error e
        | Except.ok st => Except.ok (st, gamma * (lastD st.Is : ℚ))
      else
        match _Gillespie_Infect_ rng G t SIR st0 with
        | Except.error e => Except.error e
        | Except.ok st => Except.ok (st, L.total_rec_rate)
    match branch with
    | Except.error e => Except.error e
    | Except.ok (st, total_rec_rate) =>
      let total_trans_rate := tau * (riskSum G.order st.risk_group : ℚ)
      let total_rate := total_rec_rate + total_trans_rate
      if 0 < total_rate then
        match expovariate rng total_rate st.draws with
        | Except.error e => Except.error e
        | Except.ok e =>
          Except.ok ⟨{ st with draws := st.draws + 1 }, total_rec_rate, total_rate,
            ((t + e : ℚ) : WithTop ℚ)⟩
      else
        Except.ok ⟨st, total_rec_rate, total_rate,
          if SIR then ((t : ℚ) : WithTop ℚ) else (⊤ : WithTop ℚ)⟩

/-- The pre-loop segment of a Gillespie driver after the initial
infecteds are fixed: initialization, the initial rates, and the first
`next_time` draw (`ZeroDivisionError` when the total rate is zero, e.g.
no initial infecteds with `tau = 0`). -/
def gSetup (rng : Rand) (G : FGraph) (tau gamma : ℚ)
    (initial_infecteds : List ℕ) (return_full_data : Bool) :
    Except String GLoop :=
  match _Gillespie_Init_ G initial_infecteds return_full_data with
  | Except.error e => Except.error e
  | Except.ok st =>
    let total_trans_rate := tau * (riskSum G.order st.risk_group : ℚ)
    let total_rec_rate := gamma * (st.infected.length : ℚ)
    let total_rate := total_rec_rate + total_trans_rate
    match expovariate rng total_rate st.draws with
    | Except.error e => Except.error e
    | Except.ok e =>
      Except.ok ⟨{ st with draws := st.draws + 1 }, total_rec_rate, total_rate,
        ((lastT st.times + e : ℚ) : WithTop ℚ)⟩

/-- The Gillespie main loop with fuel; fuel exhaustion with the guard
still true is an error, so an `ok` result left the loop through its
guard. -/
def gRun (rng : Rand) (G : FGraph) (tau gamma : ℚ) (SIR : Bool)
    (return_full_data : Bool) (tmax : WithTop ℚ) :
    ℕ → GLoop → Except String GLoop
  | 0, L => if gGuard tmax L then Except.error "fuel exhausted" else Except.ok L
  | fuel + 1, L =>
    if gGuard tmax L then
      match gBody rng G tau gamma SIR return_full_data L with
      | Except.error e => Except.error e
      | Except.ok L' => gRun rng G tau gamma SIR return_full_data tmax fuel L'
    else Except.ok L

/-- The state of a `Gillespie_SIS` run at its `n`-th iteration boundary:
after initialization (and the pre-loop rate/next-time computation) for
`n = 0`, then one loop iteration per step (stable once the guard
fails). -/
def gSISBoundary (rng : Rand) (G : FGraph) (tau gamma : ℚ)
    (initial_infecteds : List ℕ) (return_full_data : Bool) (tmax : WithTop ℚ) :
    ℕ → Except String GLoop
  | 0 => gSetup rng G tau gamma initial_infecteds return_full_data
  | n + 1 =>
    match gSISBoundary rng G tau gamma initial_infecteds return_full_data tmax n with
    | Except.error e => Except.error e
    | Except.ok L =>
      if gGuard tmax L then gBody rng G tau gamma false return_full_data L
      else Except.ok L

/-- `Gillespie_SIR(G, tau, gamma, initial_infecteds, rho, tmax, ...)`:
validation, initial-condition resolution, the main loop, and the
returned `(times, S, I, R)` trajectory. -/
def Gillespie_SIR (rng : Rand) (G : FGraph) (tau gamma : ℚ)
    (initial_infecteds : Option (List ℕ)) (rho : Option ℚ) (tmax : WithTop ℚ)
    (sample : ℕ → List ℕ) (return_full_data : Bool) (fuel : ℕ) :
    Except String (List ℚ × List ℤ × List ℤ × List ℤ) :=
  if rho.isSome ∧ initial_infecteds.isSome then Except.error eonBothErrorMsg
  else
    let initial : List ℕ :=
      match initial_infecteds with
      | some l => l
      | none =>
        sample (match rho with
          | none => 1
          | some r => (round ((G.order : ℚ) * r)).toNat)
    match gSetup rng G tau gamma initial return_full_data with
    | Except.error e => Except.error e
    | Except.ok L =>
      match gRun rng G tau gamma true return_full_data tmax fuel L with
      | Except.error e => Except.error e
      | Except.ok L => Except.ok (L.st.times, L.st.Ss, L.st.Is, L.st.Rs)

/-- `Gillespie_SIS(G, tau, gamma, initial_infecteds, rho, tmax, ...)`:
as `Gillespie_SIR` but with SIS recovery and a `(times, S, I)`
trajectory. -/
def Gillespie_SIS (rng : Rand) (G : FGraph) (tau gamma : ℚ)
    (initial_infecteds : Option (List ℕ)) (rho : Option ℚ) (tmax : WithTop ℚ)
    (sample : ℕ → List ℕ) (return_full_data : Bool) (fuel : ℕ) :
    Except String (List ℚ × List ℤ × List ℤ) :=
  if rho.isSome ∧ initial_infecteds.isSome then Except.error eonBothErrorMsg
  else
    let initial : List ℕ :=
      match initial_infecteds with
      | some l => l
      | none =>
        sample (match rho with
          | none => 1
          | some r => (round ((G.order : ℚ) * r)).toNat)
    match gSetup rng G tau gamma initial return_full_data with
    | Except.error e => Except.error e
    | Except.ok L =>
      match gRun rng G tau gamma false return_full_data tmax fuel L with
      | Except.error e => Except.error e
      | Except.ok L => Except.ok (L.st.times, L.st.Ss, L.st.Is)

/-!
## Concrete objects used by witnesses and counterexamples
-/

/-- The two-node path graph `0 — 1`. -/
def pathGraph2 : FGraph :=
  ⟨[0, 1], fun n => if n = 0 then [1] else if n = 1 then [0] else []⟩

/-- The one-node edgeless graph. -/
def singletonGraph : FGraph := ⟨[0], fun _ => []⟩

/-- A concrete valid random oracle: every standard exponential draw is
`1`, every uniform draw is `0`, every index draw is `0`. -/
def rngW : Rand := ⟨fun _ => 1, fun _ => 0, fun _ => 0⟩

/-- Extract the payload of an `ok` result, with a default for errors
(used by witnesses to name the concrete state a run produces). -/
def okOr {σ : Type} (d : σ) : Except String σ → σ
  | Except.ok a => a
  | Except.error _ => d

/-- A throwaway SIR engine state (default for `okOr`). -/
def dummyFSIR : FSIRState :=
  { status := fun _ => Status.S, rec_time := fun _ => -1,
    pred_inf_time := fun _ => (⊤ : WithTop ℚ),
    times := [], Ss := [], Is := [], Rs := [],
    Q := { Q := [], tmax := ⊤ }, draws := 0 }

/-!
## Queue lemmas
-/

/-- Membership after `myQueue.add`: an event of the new queue was
already stored or is the added one. -/
theorem myQueue.mem_add {α : Type} {q : myQueue α} {ev e : Event α}
    (h : e ∈ (q.add ev).Q) : e ∈ q.Q ∨ e = ev := by
  unfold myQueue.add at h
  by_cases hlt : (ev.time : WithTop ℚ) < q.tmax
  · rw [if_pos hlt] at h
    simpa using h
  · rw [if_neg hlt] at h
    exact Or.inl h

/-- `popMin` returns a sublist of the input (up to the removed event):
everything left was already there. -/
theorem popMin_subset {α : Type} :
    ∀ (l : List (Event α)) (e : Event α) (l' : List (Event α)),
      popMin l = some (e, l') → ∀ x ∈ l', x ∈ l := by
  intro l
  induction l with
  | nil => intro e l' h; simp [popMin] at h
  | cons a rest ih =>
    intro e l' h x hx
    unfold popMin at h
    cases hrec : popMin rest with
    | none =>
      rw [hrec] at h
      dsimp only at h
      injection h with h
      injection h with h1 h2
      subst h2
      simp at hx
    | some p =>
      obtain ⟨m, rest'⟩ := p
      rw [hrec] at h
      dsimp only at h
      by_cases hc : m.time < a.time
      · rw [if_pos hc] at h
        injection h with h
        injection h with h1 h2
        subst h2
        rcases List.mem_cons.mp hx with h1 | h1
        · exact h1 ▸ List.mem_cons_self a rest
        · exact List.mem_cons_of_mem a (ih m rest' hrec x h1)
      · rw [if_neg hc] at h
        injection h with h
        injection h with h1 h2
        subst h2
        exact List.mem_cons_of_mem a hx

/-- `myQueue.pop` success: the remaining queue's events were stored
before (and `tmax` is unchanged). -/
theorem myQueue.pop_subset {α : Type} {q q' : myQueue α} {e : Event α}
    (h : q.pop = Except.ok (e, q')) : (∀ x ∈ q'.Q, x ∈ q.Q) ∧ q'.tmax = q.tmax := by
  unfold myQueue.pop at h
  cases hp : popMin q.Q with
  | none => rw [hp] at h; cases h
  | some p =>
    obtain ⟨e0, rest⟩ := p
    rw [hp] at h
    dsimp only at h
    injection h with h
    injection h with h1 h2
    subst h2
    exact ⟨popMin_subset q.Q e0 rest hp, rfl⟩

/-!
## The C4 invariant: `pred_inf_time` bounds queued transmission times

`PredInvariant st` says: for every transmission event currently in the
queue, the target's predicted infection time is at most the event's
time.
-/

/-- Invariant 4 of the spec's data model, for the event-driven SIR
engine. -/
def PredInvariant (st : FSIRState) : Prop :=
  ∀ (t : ℚ) (v : ℕ), (⟨t, SIRev.trans v⟩ : Event SIRev) ∈ st.Q.Q →
    st.pred_inf_time v ≤ (t : WithTop ℚ)

/-- `_find_trans_SIR_` preserves the invariant: it either leaves queue
and predictions alone, or enqueues one transmission at the target's new
— strictly lowered — prediction. -/
theorem findTrans_pres {rng tau t target srt st st'}
    (hinv : PredInvariant st)
    (h : _find_trans_SIR_ rng tau t target srt st = Except.ok st') :
    PredInvariant st' := by
  unfold _find_trans_SIR_ drawExpSIR expovariate at h
  by_cases hS : st.status target = Status.S
  · rw [if_pos hS] at h
    by_cases h0 : tau = 0
    · rw [if_pos h0] at h
      cases h
    · rw [if_neg h0] at h
      dsimp only at h
      by_cases hlt : ((t + rng.exps st.draws / tau : ℚ) : WithTop ℚ) <
          min (srt : WithTop ℚ) (st.pred_inf_time target)
      · rw [if_pos hlt] at h
        injection h with h
        subst h
        intro t' v hmem
        dsimp only at hmem ⊢
        rcases myQueue.mem_add hmem with hold | hnew
        · by_cases hv : v = target
          · subst hv
            rw [Function.update_same]
            calc ((t + rng.exps st.draws / tau : ℚ) : WithTop ℚ)
                ≤ st.pred_inf_time v := le_of_lt (lt_of_lt_of_le hlt (min_le_right _ _))
              _ ≤ (t' : WithTop ℚ) := hinv t' v hold
          · rw [Function.update_noteq hv]
            exact hinv t' v hold
        · simp only [Event.mk.injEq, SIRev.trans.injEq] at hnew
          obtain ⟨ht, hv⟩ := hnew
          subst ht
          subst hv
          rw [Function.update_same]
      · rw [if_neg hlt] at h
        injection h with h
        subst h
        exact fun t' v hmem => hinv t' v hmem
  · rw [if_neg hS] at h
    injection h with h
    subst h
    exact hinv

/-- The neighbor loop of `_process_trans_SIR_` preserves the invariant. -/
theorem findTransLoop_pres {rng trF node time srt} :
    ∀ (l : List ℕ) {st st'}, PredInvariant st →
      findTransLoop rng trF node time srt l st = Except.ok st' →
      PredInvariant st' := by
  intro l
  induction l with
  | nil =>
    intro st st' hinv h
    cases h
    exact hinv
  | cons v vs ih =>
    intro st st' hinv h
    unfold findTransLoop at h
    cases hf : _find_trans_SIR_ rng (trF node v) time v srt st with
    | error e => rw [hf] at h; cases h
    | ok st1 =>
      rw [hf] at h
      exact ih (findTrans_pres hinv hf) h

/-- `_process_trans_SIR_` preserves the invariant. -/
theorem processTrans_pres {rng G trF recF time node st st'}
    (hinv : PredInvariant st)
    (h : _process_trans_SIR_ rng G trF recF time node st = Except.ok st') :
    PredInvariant st' := by
  unfold _process_trans_SIR_ drawExpSIR expovariate at h
  by_cases hS : st.status node = Status.S
  · rw [if_pos hS] at h
    dsimp only at h
    by_cases h0 : recF node = 0
    · rw [if_pos h0] at h
      dsimp only at h
      cases h
    · rw [if_neg h0] at h
      dsimp only at h
      refine findTransLoop_pres (G.nbrs node) ?_ h
      intro t' v hmem
      dsimp only at hmem ⊢
      rcases myQueue.mem_add hmem with hold | hnew
      · exact hinv t' v hold
      · simp only [Event.mk.injEq] at hnew
        exact absurd hnew.2 (by simp)
  · rw [if_neg hS] at h
    injection h with h
    subst h
    exact hinv

/-- `pop_and_run` with the default SIR transmission handler preserves
the invariant. -/
theorem fastPopAndRun_pres {rng G trF recF st st'}
    (hinv : PredInvariant st)
    (h : fastPopAndRun (_process_trans_SIR_ rng G trF recF) st = Except.ok st') :
    PredInvariant st' := by
  unfold fastPopAndRun at h
  cases hp : st.Q.pop with
  | error e => rw [hp] at h; cases h
  | ok p =>
    obtain ⟨event, Q'⟩ := p
    rw [hp] at h
    dsimp only at h
    have hsub := myQueue.pop_subset hp
    have hinv1 : PredInvariant { st with Q := Q' } := by
      intro t v hmem
      exact hinv t v (hsub.1 _ hmem)
    cases hev : event.payload with
    | trans target =>
      rw [hev] at h
      dsimp only at h
      exact processTrans_pres hinv1 h
    | recov node =>
      rw [hev] at h
      dsimp only at h
      injection h with h
      subst h
      intro t v hmem
      exact hinv1 t v hmem

/-- The invariant holds after initialization. -/
theorem fastSIRInit_pres (G : FGraph) (initial : List ℕ) (tmax : WithTop ℚ) :
    PredInvariant (fastSIRInit G initial tmax) := by
  unfold fastSIRInit
  suffices hgen : ∀ (l : List ℕ) (st : FSIRState),
      PredInvariant st → (∀ e ∈ st.Q.Q, e.time = 0) →
      PredInvariant (l.foldl (fun st u =>
        { (({ st with pred_inf_time :=
              Function.update st.pred_inf_time u ((0 : ℚ) : WithTop ℚ) }) : FSIRState) with
          Q := ({ st with pred_inf_time :=
              Function.update st.pred_inf_time u ((0 : ℚ) : WithTop ℚ) } : FSIRState).Q.add
            ⟨0, SIRev.trans u⟩ }) st) by
    refine hgen initial _ ?_ ?_
    · intro t v hmem; simp at hmem
    · intro e hmem; simp at hmem
  intro l
  induction l with
  | nil => intro st hinv _; exact hinv
  | cons u us ih =>
    intro st hinv htimes
    refine ih _ ?_ ?_
    · intro t v hmem
      simp only at hmem
      rcases myQueue.mem_add hmem with hold | hnew
      · have ht0 : t = 0 := by
          have := htimes _ hold
          simpa using this
        subst ht0
        by_cases hv : v = u
        · subst hv
          simp only [Function.update_same]
          exact le_refl _
        · simp only [Function.update_noteq hv]
          have := hinv 0 v hold
          simpa using this
      · cases hnew
        simp only [Function.update_same]
        exact le_refl _
    · intro e hmem
      simp only at hmem
      rcases myQueue.mem_add hmem with hold | hnew
      · exact htimes _ hold
      · cases hnew; rfl

/-- **C4**.  In the event-driven SIR engine (`fast_SIR`, i.e.
`fast_nonMarkov_SIR` with the default `_process_trans_SIR_` handler and
any rate functions), at every event boundary — after initialization and
after each `pop_and_run` — the predicted infection time of every node is
at most the time of every transmission event currently queued for it. -/
theorem C4_pred_inf_time_below_queued_transmissions :
    ∀ (rng : Rand) (G : FGraph) (trans_rate_fxn : ℕ → ℕ → ℚ)
      (rec_rate_fxn : ℕ → ℚ) (initial : List ℕ) (tmax : WithTop ℚ)
      (n : ℕ) (st : FSIRState),
      fastSIRBoundary (_process_trans_SIR_ rng G trans_rate_fxn rec_rate_fxn)
        G initial tmax n = Except.ok st →
      PredInvariant st := by
  intro rng G trF recF initial tmax n
  induction n with
  | zero =>
    intro st h
    cases h
    exact fastSIRInit_pres G initial tmax
  | succ n ih =>
    intro st h
    unfold fastSIRBoundary at h
    cases hb : fastSIRBoundary (_process_trans_SIR_ rng G trF recF) G initial tmax n with
    | error e => rw [hb] at h; cases h
    | ok st0 =>
      rw [hb] at h
      dsimp only at h
      by_cases hq : st0.Q.Q = []
      · rw [if_pos hq] at h
        injection h with h
        subst h
        exact ih st0 hb
      · rw [if_neg hq] at h
        exact fastPopAndRun_pres (ih st0 hb) h

/-- Witness for C4: the boundary after one event of a `fast_SIR` run on
the one-node graph is reached, and the invariant holds there. -/
theorem C4_pred_inf_time_below_queued_transmissions_witness :
    fastSIRBoundary (_process_trans_SIR_ rngW singletonGraph (fun _ _ => 1) (fun _ => 1))
        singletonGraph [0] ⊤ 1 =
      Except.ok (okOr dummyFSIR
        (fastSIRBoundary (_process_trans_SIR_ rngW singletonGraph (fun _ _ => 1) (fun _ => 1))
          singletonGraph [0] ⊤ 1)) ∧
    PredInvariant (okOr dummyFSIR
      (fastSIRBoundary (_process_trans_SIR_ rngW singletonGraph (fun _ _ => 1) (fun _ => 1))
        singletonGraph [0] ⊤ 1)) := by
  constructor
  · rfl
  · exact C4_pred_inf_time_below_queued_transmissions rngW singletonGraph
      (fun _ _ => 1) (fun _ => 1) [0] ⊤ 1 _ rfl

/-!
## Trajectory-list helpers
-/

/-- `l[i]` for trajectory lists (defaulting to 0 out of range). -/
def entry (l : List ℤ) (i : ℕ) : ℤ := (l.get? i).getD 0

theorem lastD_append (l : List ℤ) (x : ℤ) : lastD (l ++ [x]) = x := by
  simp [lastD]

theorem lastT_append (l : List ℚ) (x : ℚ) : lastT (l ++ [x]) = x := by
  simp [lastT]

theorem entry_append_lt (l : List ℤ) (x : ℤ) {i : ℕ} (h : i < l.length) :
    entry (l ++ [x]) i = entry l i := by
  unfold entry
  rw [List.get?_eq_getElem?, List.get?_eq_getElem?, List.getElem?_append_left h]

theorem entry_append_len (l : List ℤ) (x : ℤ) : entry (l ++ [x]) l.length = x := by
  unfold entry
  rw [List.get?_eq_getElem?]
  simp

theorem lastD_eq_entry {l : List ℤ} (h : l ≠ []) :
    lastD l = entry l (l.length - 1) := by
  unfold lastD entry
  rw [List.getLast?_eq_getElem?, List.get?_eq_getElem?]

theorem entry_drop (l : List ℤ) (k i : ℕ) :
    entry (l.drop k) i = entry l (k + i) := by
  unfold entry
  rw [List.get?_eq_getElem?, List.get?_eq_getElem?, List.getElem?_drop]

/-!
## Gillespie helper-loop frame lemmas

The four neighbor loops and the initialization loop of the Gillespie
engine only touch `infected_neighbor_count` and `risk_group`; every
other field of the state is unchanged by a successful run.
-/

/-- The fields of a `GState` not touched by the risk-bookkeeping
loops. -/
def sideFields (st : GState) :
    List ℚ × List ℤ × List ℤ × List ℤ × (ℕ → Status) × List ℕ ×
      (ℕ → List ℚ) × (ℕ → List ℚ) × ℕ :=
  (st.times, st.Ss, st.Is, st.Rs, st.status, st.infected,
    st.infection_times, st.recovery_times, st.draws)

theorem gInitNbrLoop_frame :
    ∀ (l : List ℕ) (st st' : GState), gInitNbrLoop l st = Except.ok st' →
      sideFields st' = sideFields st := by
  intro l
  induction l with
  | nil =>
    intro st st' h
    injection h with h
    subst h
    rfl
  | cons w ws ih =>
    intro st st' h
    unfold gInitNbrLoop at h
    by_cases hS : st.status w = Status.S
    · rw [if_pos hS] at h
      dsimp only at h
      by_cases hc : st.infected_neighbor_count w + 1 > 1
      · rw [if_pos hc] at h
        cases hrem : (ListDict.removeE
            (st.risk_group (st.infected_neighbor_count w + 1 - 1)) w) with
        | error e =>
          rw [hrem] at h
          dsimp only at h
          cases h
        | ok g =>
          rw [hrem] at h
          dsimp only at h
          exact (ih _ _ h).trans rfl
      · rw [if_neg hc] at h
        dsimp only at h
        exact (ih _ _ h).trans rfl
    · rw [if_neg hS] at h
      exact (ih _ _ h).trans rfl

theorem gInitOuterLoop_frame (G : FGraph) :
    ∀ (l : List ℕ) (st st' : GState), gInitOuterLoop G l st = Except.ok st' →
      sideFields st' = sideFields st := by
  intro l
  induction l with
  | nil =>
    intro st st' h
    injection h with h
    subst h
    rfl
  | cons u us ih =>
    intro st st' h
    unfold gInitOuterLoop at h
    cases hn : gInitNbrLoop (G.nbrs u) st with
    | error e => rw [hn] at h; cases h
    | ok st1 =>
      rw [hn] at h
      exact (ih _ _ h).trans (gInitNbrLoop_frame _ _ _ hn)

theorem gInfectNbrLoop_frame :
    ∀ (l : List ℕ) (st st' : GState), gInfectNbrLoop l st = Except.ok st' →
      sideFields st' = sideFields st := by
  intro l
  induction l with
  | nil =>
    intro st st' h
    injection h with h
    subst h
    rfl
  | cons w ws ih =>
    intro st st' h
    unfold gInfectNbrLoop at h
    by_cases hS : st.status w = Status.S
    · rw [if_pos hS] at h
      dsimp only at h
      by_cases hc : st.infected_neighbor_count w > 0
      · rw [if_pos hc] at h
        cases hrem : (ListDict.removeE
            (st.risk_group (st.infected_neighbor_count w)) w) with
        | error e =>
          rw [hrem] at h
          dsimp only at h
          cases h
        | ok g =>
          rw [hrem] at h
          dsimp only at h
          exact (ih _ _ h).trans rfl
      · rw [if_neg hc] at h
        dsimp only at h
        exact (ih _ _ h).trans rfl
    · rw [if_neg hS] at h
      exact (ih _ _ h).trans rfl

theorem gRecoverSIRNbrLoop_frame :
    ∀ (l : List ℕ) (st st' : GState), gRecoverSIRNbrLoop l st = Except.ok st' →
      sideFields st' = sideFields st := by
  intro l
  induction l with
  | nil =>
    intro st st' h
    injection h with h
    subst h
    rfl
  | cons w ws ih =>
    intro st st' h
    unfold gRecoverSIRNbrLoop at h
    by_cases hS : st.status w = Status.S
    · rw [if_pos hS] at h
      dsimp only at h
      cases hrem : (ListDict.removeE
          (st.risk_group (st.infected_neighbor_count w)) w) with
      | error e =>
        rw [hrem] at h
        dsimp only at h
        cases h
      | ok g =>
        rw [hrem] at h
        dsimp only at h
        by_cases hc : st.infected_neighbor_count w - 1 > 0
        · rw [if_pos hc] at h
          exact (ih _ _ h).trans rfl
        · rw [if_neg hc] at h
          exact (ih _ _ h).trans rfl
    · rw [if_neg hS] at h
      exact (ih _ _ h).trans rfl

theorem gRecoverSISNbrLoop_frame (x : ℕ) :
    ∀ (l : List ℕ) (st st' : GState), gRecoverSISNbrLoop x l st = Except.ok st' →
      sideFields st' = sideFields st := by
  intro l
  induction l with
  | nil =>
    intro st st' h
    injection h with h
    subst h
    rfl
  | cons w ws ih =>
    intro st st' h
    unfold gRecoverSISNbrLoop at h
    by_cases hx : w = x
    · rw [if_pos hx] at h
      exact (ih _ _ h).trans rfl
    · rw [if_neg hx] at h
      by_cases hI : st.status w = Status.I
      · rw [if_pos hI] at h
        exact (ih _ _ h).trans rfl
      · rw [if_neg hI] at h
        cases hrem : (ListDict.removeE
            (st.risk_group (st.infected_neighbor_count w)) w) with
        | error e =>
          rw [hrem] at h
          dsimp only at h
          cases h
        | ok g =>
          rw [hrem] at h
          dsimp only at h
          by_cases hc : st.infected_neighbor_count w - 1 > 0
          · rw [if_pos hc] at h
            exact (ih _ _ h).trans rfl
          · rw [if_neg hc] at h
            exact (ih _ _ h).trans rfl

/-!
## Gillespie shape lemmas

What one successful initialization / infection / recovery does to the
trajectory lists and the infected list.
-/

theorem initShape {G : FGraph} {init : List ℕ} {rfd : Bool} {st : GState}
    (h : _Gillespie_Init_ G init rfd = Except.ok st) :
    st.times = [0] ∧ st.Ss = [(G.order : ℤ) - init.length] ∧
    st.Is = [(init.length : ℤ)] ∧ st.Rs = [0] ∧ st.infected = init ∧
    st.draws = 0 := by
  unfold _Gillespie_Init_ at h
  dsimp only at h
  split at h
  · cases h
  · rename_i st1 ho
    injection h with h
    subst h
    have hframe := gInitOuterLoop_frame G init _ _ ho
    simp only [sideFields, Prod.mk.injEq] at hframe
    obtain ⟨ht, hS, hI, hR, _, hinfd, _, _, hd⟩ := hframe
    cases rfd
    · exact ⟨ht, hS, hI, hR, hinfd, hd⟩
    · exact ⟨ht, hS, hI, hR, hinfd, hd⟩

theorem infectShape {rng : Rand} {G : FGraph} {t : ℚ} {SIR : Bool} {st st' : GState}
    (h : _Gillespie_Infect_ rng G t SIR st = Except.ok st') :
    ∃ recipient,
      st'.times = st.times ++ [t] ∧ st'.Ss = st.Ss ++ [lastD st.Ss - 1] ∧
      st'.Is = st.Is ++ [lastD st.Is + 1] ∧
      st'.Rs = (if SIR then st.Rs ++ [lastD st.Rs] else st.Rs) ∧
      st'.infected = st.infected ++ [recipient] := by
  unfold _Gillespie_Infect_ at h
  dsimp only at h
  split at h
  · cases h
  · rename_i recipient hcr
    split at h
    · cases h
    · rename_i hS
      split at h
      · cases h
      · rename_i g hrem
        refine ⟨recipient, ?_⟩
        cases SIR
        · have hframe := gInfectNbrLoop_frame _ _ _ h
          simp only [sideFields, Prod.mk.injEq] at hframe
          obtain ⟨ht, hSs, hI, hR, _, hinfd, _, _, _⟩ := hframe
          exact ⟨ht, hSs, hI, hR, hinfd⟩
        · have hframe := gInfectNbrLoop_frame _ _ _ h
          simp only [sideFields, Prod.mk.injEq] at hframe
          obtain ⟨ht, hSs, hI, hR, _, hinfd, _, _, _⟩ := hframe
          exact ⟨ht, hSs, hI, hR, hinfd⟩

theorem recoverSIRShape {rng : Rand} {G : FGraph} {t : ℚ} {rfd : Bool} {st st' : GState}
    (h : _Gillespie_Recover_SIR_ rng G t rfd st = Except.ok st') :
    lastD st.Is = (st.infected.length : ℤ) ∧ st.infected.length ≠ 0 ∧
    st'.times = st.times ++ [t] ∧ st'.Ss = st.Ss ++ [lastD st.Ss] ∧
    st'.Is = st.Is ++ [lastD st.Is - 1] ∧ st'.Rs = st.Rs ++ [lastD st.Rs + 1] ∧
    st'.infected.length + 1 = st.infected.length := by
  unfold _Gillespie_Recover_SIR_ at h
  by_cases hassert : lastD st.Is ≠ (st.infected.length : ℤ)
  · rw [if_pos hassert] at h
    cases h
  · rw [if_neg hassert] at h
    by_cases hn : st.infected.length = 0
    · rw [if_pos hn] at h
      cases h
    · rw [if_neg hn] at h
      dsimp only at h
      split at h
      · rename_i recovering_node last_node hget hlast
        split at h
        · cases h
        · rename_i st2 hloop
          injection h with h
          subst h
          have hframe := gRecoverSIRNbrLoop_frame _ _ _ hloop
          simp only [sideFields, Prod.mk.injEq] at hframe
          obtain ⟨ht, hSs, hI, hR, _, hinfd, _, _, _⟩ := hframe
          have hlen : st2.infected.length + 1 = st.infected.length := by
            rw [hinfd]
            have hne : (st.infected.set (rng.ints st.draws % st.infected.length)
                last_node) ≠ [] := by
              intro hemp
              have := congrArg List.length hemp
              simp only [List.length_set, List.length_nil] at this
              exact hn this
            simp only [List.length_dropLast, List.length_set]
            omega
          refine ⟨not_not.mp hassert, hn, ?_, ?_, ?_, ?_, ?_⟩
          · cases rfd
            · exact ht
            · exact ht
          · cases rfd
            · exact hSs
            · exact hSs
          · cases rfd
            · exact hI
            · exact hI
          · cases rfd
            · exact hR
            · exact hR
          · cases rfd
            · exact hlen
            · exact hlen
      · cases h

theorem recoverSISShape {rng : Rand} {G : FGraph} {t : ℚ} {rfd : Bool} {st st' : GState}
    (h : _Gillespie_Recover_SIS_ rng G t rfd st = Except.ok st') :
    lastD st.Is = (st.infected.length : ℤ) ∧ st.infected.length ≠ 0 ∧
    st'.times = st.times ++ [t] ∧ st'.Ss = st.Ss ++ [lastD st.Ss + 1] ∧
    st'.Is = st.Is ++ [lastD st.Is - 1] ∧ st'.Rs = st.Rs ∧
    st'.infected.length + 1 = st.infected.length := by
  unfold _Gillespie_Recover_SIS_ at h
  by_cases hassert : lastD st.Is ≠ (st.infected.length : ℤ)
  · rw [if_pos hassert] at h
    cases h
  · rw [if_neg hassert] at h
    by_cases hn : st.infected.length = 0
    · rw [if_pos hn] at h
      cases h
    · rw [if_neg hn] at h
      dsimp only at h
      split at h
      · rename_i recovering_node last_node hget hlast
        split at h
        · cases h
        · rename_i st2 hloop
          injection h with h
          have hframe := gRecoverSISNbrLoop_frame _ _ _ _ hloop
          simp only [sideFields, Prod.mk.injEq] at hframe
          obtain ⟨ht, hSs, hI, hR, _, hinfd, _, _, _⟩ := hframe
          have hlen : st2.infected.length + 1 = st.infected.length := by
            rw [hinfd]
            simp only [List.length_dropLast, List.length_set]
            omega
          have hst' : st'.times = st2.times ∧ st'.Ss = st2.Ss ∧ st'.Is = st2.Is ∧
              st'.Rs = st2.Rs ∧ st'.infected = st2.infected := by
            rw [← h]
            by_cases hcnt : st2.infected_neighbor_count recovering_node > 0
            · rw [if_pos hcnt]
              cases rfd
              · exact ⟨rfl, rfl, rfl, rfl, rfl⟩
              · exact ⟨rfl, rfl, rfl, rfl, rfl⟩
            · rw [if_neg hcnt]
              cases rfd
              · exact ⟨rfl, rfl, rfl, rfl, rfl⟩
              · exact ⟨rfl, rfl, rfl, rfl, rfl⟩
          obtain ⟨ht', hSs', hI', hR', hinfd'⟩ := hst'
          refine ⟨not_not.mp hassert, hn, ?_, ?_, ?_, ?_, ?_⟩
          · rw [ht', ht]
          · rw [hSs', hSs]
          · rw [hI', hI]
          · rw [hR', hR]
          · rw [hinfd']
            exact hlen
      · cases h

theorem lastD_mem {l : List ℤ} (h : l ≠ []) : lastD l ∈ l := by
  rw [lastD_eq_entry h]
  unfold entry
  cases hg : l.get? (l.length - 1) with
  | none =>
    exfalso
    rw [List.get?_eq_getElem?, List.getElem?_eq_none_iff] at hg
    have : l.length ≠ 0 := fun h0 => h (List.length_eq_zero.mp h0)
    omega
  | some a =>
    simp only [Option.getD_some]
    exact List.get?_mem hg

/-!
## `tau = 0` behavior

With a zero transmission rate, `_find_trans_SIR_` on a susceptible
target calls `random.expovariate(0)`, which raises `ZeroDivisionError`.
The Gillespie engine never calls `expovariate` with the per-edge rate,
so it survives `tau = 0`: its total transmission rate is exactly `0`
and, with valid uniform draws and a positive `gamma`, every iteration
fires a recovery.
-/

theorem findTransLoop_zero_err {rng : Rand} {node : ℕ} {time srt : ℚ} :
    ∀ (l : List ℕ) (st : FSIRState), (∃ v ∈ l, st.status v = Status.S) →
      findTransLoop rng (fun _ _ => 0) node time srt l st =
        Except.error zeroDivisionErrorMsg := by
  intro l
  induction l with
  | nil =>
    intro st h
    simp at h
  | cons v vs ih =>
    intro st h
    unfold findTransLoop
    by_cases hv : st.status v = Status.S
    · have herr : _find_trans_SIR_ rng 0 time v srt st =
          Except.error zeroDivisionErrorMsg := by
        unfold _find_trans_SIR_ drawExpSIR expovariate
        rw [if_pos hv, if_pos rfl]
      rw [herr]
    · have hskip : _find_trans_SIR_ rng 0 time v srt st = Except.ok st := by
        unfold _find_trans_SIR_
        rw [if_neg hv]
      rw [hskip]
      obtain ⟨w, hw, hws⟩ := h
      rcases List.mem_cons.mp hw with rfl | hw'
      · exact absurd hws hv
      · exact ih st ⟨w, hw', hws⟩

theorem processTransSIR_zero_rate_err {rng : Rand} {G : FGraph} {recF : ℕ → ℚ}
    {time : ℚ} {node v : ℕ} {st : FSIRState}
    (hnode : st.status node = Status.S) (hv : v ∈ G.nbrs node) (hvne : v ≠ node)
    (hvS : st.status v = Status.S) :
    _process_trans_SIR_ rng G (fun _ _ => 0) recF time node st =
      Except.error zeroDivisionErrorMsg := by
  unfold _process_trans_SIR_ drawExpSIR expovariate
  rw [if_pos hnode]
  dsimp only
  by_cases h0 : recF node = 0
  · rw [if_pos h0]
  · rw [if_neg h0]
    dsimp only
    apply findTransLoop_zero_err
    refine ⟨v, hv, ?_⟩
    show Function.update st.status node Status.I v = Status.S
    rw [Function.update_noteq hvne]
    exact hvS

/-- The invariant carried through a `tau = 0` run of the
`Gillespie_SIR` main loop:  the total rate coincides with the recovery
rate, the rates track `I[-1] = len(infected)`, every recorded `S` count
is `N - |initial|`, `I[-1] + R[-1] = |initial|`, and the next event time
is finite. -/
def TauZeroInv (N len0 : ℕ) (gamma : ℚ) (L : GLoop) : Prop :=
  L.total_rate = L.total_rec_rate ∧
  L.total_rec_rate = gamma * (lastD L.st.Is : ℚ) ∧
  lastD L.st.Is = (L.st.infected.length : ℤ) ∧
  L.st.Ss ≠ [] ∧ (∀ s ∈ L.st.Ss, s = (N : ℤ) - (len0 : ℤ)) ∧
  lastD L.st.Is + lastD L.st.Rs = (len0 : ℤ) ∧
  L.next_time ≠ ⊤

theorem tauZero_setup {rng : Rand} {G : FGraph} {gamma : ℚ} {init : List ℕ}
    {rfd : Bool} {L : GLoop}
    (h : gSetup rng G 0 gamma init rfd = Except.ok L) :
    TauZeroInv G.order init.length gamma L := by
  unfold gSetup at h
  cases hi : _Gillespie_Init_ G init rfd with
  | error e => rw [hi] at h; cases h
  | ok st =>
    rw [hi] at h
    dsimp only at h
    obtain ⟨ht, hS, hI, hR, hinfd, hd⟩ := initShape hi
    unfold expovariate at h
    split at h
    · cases h
    · injection h with h
      subst h
      refine ⟨?_, ?_, ?_, ?_, ?_, ?_, ?_⟩
      · show gamma * (st.infected.length : ℚ) + 0 * (riskSum G.order st.risk_group : ℚ) =
          gamma * (st.infected.length : ℚ)
        rw [zero_mul, add_zero]
      · show gamma * (st.infected.length : ℚ) = gamma * (lastD st.Is : ℚ)
        rw [hI, hinfd]
        norm_num [lastD]
      · show lastD st.Is = (st.infected.length : ℤ)
        rw [hI, hinfd]
        simp [lastD]
      · show st.Ss ≠ []
        rw [hS]
        simp
      · intro s hs
        rw [hS] at hs
        simpa using hs
      · show lastD st.Is + lastD st.Rs = (init.length : ℤ)
        rw [hI, hR]
        simp [lastD]
      · simp

theorem tauZero_step {rng : Rand} {G : FGraph} {gamma : ℚ} {rfd : Bool}
    {N len0 : ℕ} {L L' : GLoop} (hg : 0 < gamma)
    (hu : ∀ k, 0 ≤ rng.unis k ∧ rng.unis k < 1)
    (hguard : gGuard (⊤ : WithTop ℚ) L) (hinv : TauZeroInv N len0 gamma L)
    (h : gBody rng G 0 gamma true rfd L = Except.ok L') :
    TauZeroInv N len0 gamma L' := by
  obtain ⟨hrate, hrec, hlen, hne, hconst, hsum, hfin⟩ := hinv
  unfold gBody at h
  cases hnt : L.next_time with
  | top => rw [hnt] at h; cases h
  | coe t =>
    rw [hnt] at h
    dsimp only at h
    have hlpos : 0 < L.st.infected.length := by
      rcases Nat.eq_zero_or_pos L.st.infected.length with h0 | h0
      · exact absurd (List.length_eq_zero.mp h0) hguard.2
      · exact h0
    have hTpos : 0 < L.total_rec_rate := by
      rw [hrec, hlen]
      have : (0 : ℚ) < ((L.st.infected.length : ℤ) : ℚ) := by
        exact_mod_cast hlpos
      exact mul_pos hg this
    have hr : rng.unis L.st.draws * L.total_rate < L.total_rec_rate := by
      rw [hrate]
      calc rng.unis L.st.draws * L.total_rec_rate
          < 1 * L.total_rec_rate :=
            mul_lt_mul_of_pos_right (hu L.st.draws).2 hTpos
        _ = L.total_rec_rate := one_mul _
    rw [if_pos hr] at h
    simp only [reduceIte] at h
    cases hrc : _Gillespie_Recover_SIR_ rng G t rfd
        { L.st with draws := L.st.draws + 1 } with
    | error e => rw [hrc] at h; cases h
    | ok st2 =>
      rw [hrc] at h
      dsimp only at h
      obtain ⟨hassert0, hn0, ht20, hS20, hI20, hR20, hlen20⟩ := recoverSIRShape hrc
      have hassert : lastD L.st.Is = (L.st.infected.length : ℤ) := hassert0
      have hS2 : st2.Ss = L.st.Ss ++ [lastD L.st.Ss] := hS20
      have hI2 : st2.Is = L.st.Is ++ [lastD L.st.Is - 1] := hI20
      have hR2 : st2.Rs = L.st.Rs ++ [lastD L.st.Rs + 1] := hR20
      have hlen2 : st2.infected.length + 1 = L.st.infected.length := hlen20
      have hlast2 : lastD st2.Is = lastD L.st.Is - 1 := by
        rw [hI2, lastD_append]
      have hlen2' : lastD st2.Is = (st2.infected.length : ℤ) := by
        rw [hlast2]
        omega
      have hSconst2 : ∀ s ∈ st2.Ss, s = (N : ℤ) - (len0 : ℤ) := by
        intro s hs
        rw [hS2] at hs
        rcases List.mem_append.mp hs with hs | hs
        · exact hconst s hs
        · rw [List.mem_singleton.mp hs]
          exact hconst _ (lastD_mem hne)
      have hSne2 : st2.Ss ≠ [] := by
        rw [hS2]
        simp
      have hsum2 : lastD st2.Is + lastD st2.Rs = (len0 : ℤ) := by
        rw [hlast2, hR2, lastD_append]
        omega
      by_cases hpos : (0 : ℚ) < gamma * (lastD st2.Is : ℚ) +
          0 * (riskSum G.order st2.risk_group : ℚ)
      · rw [if_pos hpos] at h
        unfold expovariate at h
        rw [if_neg (ne_of_gt hpos)] at h
        dsimp only at h
        injection h with h
        subst h
        refine ⟨?_, rfl, hlen2', hSne2, hSconst2, hsum2, by simp⟩
        show gamma * (lastD st2.Is : ℚ) + 0 * (riskSum G.order st2.risk_group : ℚ) =
          gamma * (lastD st2.Is : ℚ)
        rw [zero_mul, add_zero]
      · rw [if_neg hpos] at h
        injection h with h
        subst h
        refine ⟨?_, rfl, hlen2', hSne2, hSconst2, hsum2, by simp⟩
        show gamma * (lastD st2.Is : ℚ) + 0 * (riskSum G.order st2.risk_group : ℚ) =
          gamma * (lastD st2.Is : ℚ)
        rw [zero_mul, add_zero]

theorem tauZero_run {rng : Rand} {G : FGraph} {gamma : ℚ} {rfd : Bool}
    {N len0 : ℕ} (hg : 0 < gamma)
    (hu : ∀ k, 0 ≤ rng.unis k ∧ rng.unis k < 1) :
    ∀ (fuel : ℕ) (L L' : GLoop), TauZeroInv N len0 gamma L →
      gRun rng G 0 gamma true rfd ⊤ fuel L = Except.ok L' →
      TauZeroInv N len0 gamma L' ∧ ¬ gGuard (⊤ : WithTop ℚ) L' := by
  intro fuel
  induction fuel with
  | zero =>
    intro L L' hinv h
    unfold gRun at h
    by_cases hgd : gGuard (⊤ : WithTop ℚ) L
    · rw [if_pos hgd] at h; cases h
    · rw [if_neg hgd] at h
      injection h with h
      subst h
      exact ⟨hinv, hgd⟩
  | succ fuel ih =>
    intro L L' hinv h
    unfold gRun at h
    by_cases hgd : gGuard (⊤ : WithTop ℚ) L
    · rw [if_pos hgd] at h
      cases hb : gBody rng G 0 gamma true rfd L with
      | error e => rw [hb] at h; cases h
      | ok L1 =>
        rw [hb] at h
        exact ih L1 L' (tauZero_step hg hu hgd hinv hb) h
    · rw [if_neg hgd] at h
      injection h with h
      subst h
      exact ⟨hinv, hgd⟩

/-- **C2, counterexample.**  The claim asserts that `fast_SIR` with
`tau = 0` returns a trajectory whose final `R` is `|initial_infecteds|`.
On the path `0 — 1` with initial infected `0`, processing the initial
infection calls `random.expovariate(0)` for the susceptible neighbor
`1`, so the run raises `ZeroDivisionError` and no trajectory is
returned at all. -/
theorem C2_tau_zero_counterexample :
    fast_SIR rngW pathGraph2 0 1 (some [0]) none ⊤ (fun _ => []) 10 =
      Except.error zeroDivisionErrorMsg := by
  rfl

/-- **C2, amended.**  With `tau = 0`: (a) any trajectory returned by
`Gillespie_SIR` (initial infecteds given, default `tmax = ∞`, `gamma >
0`, uniform draws in `[0,1)`) has every `S` entry equal to
`N - |initial_infecteds|` — no transmission ever occurs — and final `R`
equal to `|initial_infecteds|`; but (b) `fast_SIR` raises
`ZeroDivisionError` (from `random.expovariate(0)`) as soon as it
processes a transmission whose target has a susceptible neighbor, so on
such graphs it returns no trajectory (the counterexample shows this on
the two-node path). -/
theorem C2_tau_zero_amended :
    (∀ (rng : Rand) (G : FGraph) (gamma : ℚ) (init : List ℕ)
        (sample : ℕ → List ℕ) (rfd : Bool) (fuel : ℕ)
        (ts : List ℚ) (Ss Is Rs : List ℤ),
      0 < gamma → (∀ k, 0 ≤ rng.unis k ∧ rng.unis k < 1) →
      Gillespie_SIR rng G 0 gamma (some init) none ⊤ sample rfd fuel =
        Except.ok (ts, Ss, Is, Rs) →
      (∀ s ∈ Ss, s = (G.order : ℤ) - (init.length : ℤ)) ∧
        lastD Rs = (init.length : ℤ)) ∧
    (∀ (rng : Rand) (G : FGraph) (recF : ℕ → ℚ) (time : ℚ) (node v : ℕ)
        (st : FSIRState),
      st.status node = Status.S → v ∈ G.nbrs node → v ≠ node →
      st.status v = Status.S →
      _process_trans_SIR_ rng G (fun _ _ => 0) recF time node st =
        Except.error zeroDivisionErrorMsg) := by
  constructor
  · intro rng G gamma init sample rfd fuel ts Ss Is Rs hg hu h
    unfold Gillespie_SIR at h
    rw [if_neg (by simp)] at h
    dsimp only at h
    cases hs : gSetup rng G 0 gamma init rfd with
    | error e => rw [hs] at h; cases h
    | ok L =>
      rw [hs] at h
      dsimp only at h
      cases hr : gRun rng G 0 gamma true rfd ⊤ fuel L with
      | error e => rw [hr] at h; cases h
      | ok L' =>
        rw [hr] at h
        injection h with h
        obtain ⟨hinv', hng⟩ := tauZero_run hg hu fuel L L' (tauZero_setup hs) hr
        obtain ⟨_, _, hlen', _, hconst', hsum', hfin'⟩ := hinv'
        have hinfemp : L'.st.infected = [] := by
          by_contra hcon
          exact hng ⟨lt_top_iff_ne_top.mpr hfin', hcon⟩
        have hI0 : lastD L'.st.Is = 0 := by
          rw [hlen', hinfemp]
          rfl
        have hprod : L'.st.Ss = Ss ∧ L'.st.Rs = Rs := by
          have h1 := congrArg (fun p => p.2.1) h
          have h2 := congrArg (fun p => p.2.2.2) h
          exact ⟨h1, h2⟩
        obtain ⟨hSs, hRs⟩ := hprod
        constructor
        · intro s hsmem
          rw [← hSs] at hsmem
          exact hconst' s hsmem
        · rw [← hRs]
          omega
  · intro rng G recF time node v st h1 h2 h3 h4
    exact processTransSIR_zero_rate_err h1 h2 h3 h4

/-- Witness for the amended C2: a concrete `Gillespie_SIR` run with
`tau = 0` on the one-node graph, whose hypotheses are discharged at
`gamma = 1` with the all-zero uniform stream, and a concrete all-susceptible
state on the path `0 — 1` for the `fast_SIR` failure half. -/
theorem C2_tau_zero_amended_witness :
    ((0 : ℚ) < 1 ∧
      Gillespie_SIR rngW singletonGraph 0 1 (some [0]) none ⊤ (fun _ => []) false 5 =
        Except.ok ([0, 1], [0, 0], [1, 0], [0, 1]) ∧
      (∀ s ∈ ([0, 0] : List ℤ), s = (singletonGraph.order : ℤ) - ((1 : ℕ) : ℤ)) ∧
      lastD [0, 1] = ((1 : ℕ) : ℤ)) ∧
    _process_trans_SIR_ rngW pathGraph2 (fun _ _ => 0) (fun _ => 1) 0 0
        { status := fun _ => Status.S, rec_time := fun _ => -1,
          pred_inf_time := fun _ => (⊤ : WithTop ℚ),
          times := [0], Ss := [2], Is := [0], Rs := [0],
          Q := { Q := [], tmax := ⊤ }, draws := 0 } =
      Except.error zeroDivisionErrorMsg := by
  constructor
  · refine ⟨by norm_num, by with_unfolding_all rfl, ?_⟩
    have := C2_tau_zero_amended.1 rngW singletonGraph 1 [0] (fun _ => []) false 5
      [0, 1] [0, 0] [1, 0] [0, 1] (by norm_num)
      (fun k => ⟨le_refl 0, show (0 : ℚ) < 1 by norm_num⟩)
      (by with_unfolding_all rfl)
    simpa using this
  · exact C2_tau_zero_amended.2 rngW pathGraph2 (fun _ => 1) 0 0 1 _ rfl
      (by decide) (by decide) rfl

/-!
## Conservation

`Cons3 N S I R` (SIR) and `Cons2 N S I` (SIS) say the trajectory lists
have equal lengths, are nonempty, and sum to `N` at every index.
-/

def Cons3 (N : ℕ) (S I R : List ℤ) : Prop :=
  S.length = I.length ∧ S.length = R.length ∧ S ≠ [] ∧
  ∀ i < S.length, entry S i + entry I i + entry R i = (N : ℤ)

def Cons2 (N : ℕ) (S I : List ℤ) : Prop :=
  S.length = I.length ∧ S ≠ [] ∧
  ∀ i < S.length, entry S i + entry I i = (N : ℤ)

theorem cons3_append {N : ℕ} {S I R : List ℤ} {a b c : ℤ}
    (h : Cons3 N S I R) (habc : a + b + c = (N : ℤ)) :
    Cons3 N (S ++ [a]) (I ++ [b]) (R ++ [c]) := by
  obtain ⟨hSI, hSR, hne, hsum⟩ := h
  refine ⟨by simp [hSI], by simp [hSR], by simp, ?_⟩
  intro i hi
  simp only [List.length_append, List.length_singleton] at hi
  by_cases hlt : i < S.length
  · rw [entry_append_lt _ _ hlt, entry_append_lt _ _ (hSI ▸ hlt),
      entry_append_lt _ _ (hSR ▸ hlt)]
    exact hsum i hlt
  · have hieq : i = S.length := by omega
    subst hieq
    have e2 : entry (I ++ [b]) S.length = b := by rw [hSI]; exact entry_append_len I b
    have e3 : entry (R ++ [c]) S.length = c := by rw [hSR]; exact entry_append_len R c
    rw [entry_append_len, e2, e3]
    exact habc

theorem cons3_last {N : ℕ} {S I R : List ℤ} (h : Cons3 N S I R) :
    lastD S + lastD I + lastD R = (N : ℤ) := by
  obtain ⟨hSI, hSR, hne, hsum⟩ := h
  have hlen : 0 < S.length := List.length_pos.mpr hne
  have hIne : I ≠ [] := by
    intro hI
    rw [hI] at hSI
    simp at hSI
    exact hne hSI
  have hRne : R ≠ [] := by
    intro hR
    rw [hR] at hSR
    simp at hSR
    exact hne hSR
  rw [lastD_eq_entry hne, lastD_eq_entry hIne, lastD_eq_entry hRne, ← hSI, ← hSR]
  exact hsum (S.length - 1) (by omega)

theorem cons3_drop {N : ℕ} {S I R : List ℤ} (k : ℕ) (h : Cons3 N S I R) :
    (S.drop k).length = (I.drop k).length ∧
    (S.drop k).length = (R.drop k).length ∧
    ∀ i < (S.drop k).length,
      entry (S.drop k) i + entry (I.drop k) i + entry (R.drop k) i = (N : ℤ) := by
  obtain ⟨hSI, hSR, hne, hsum⟩ := h
  refine ⟨by simp [hSI], by simp [hSR], ?_⟩
  intro i hi
  rw [entry_drop, entry_drop, entry_drop]
  apply hsum
  simp only [List.length_drop] at hi
  omega

theorem cons2_append {N : ℕ} {S I : List ℤ} {a b : ℤ}
    (h : Cons2 N S I) (hab : a + b = (N : ℤ)) :
    Cons2 N (S ++ [a]) (I ++ [b]) := by
  obtain ⟨hSI, hne, hsum⟩ := h
  refine ⟨by simp [hSI], by simp, ?_⟩
  intro i hi
  simp only [List.length_append, List.length_singleton] at hi
  by_cases hlt : i < S.length
  · rw [entry_append_lt _ _ hlt, entry_append_lt _ _ (hSI ▸ hlt)]
    exact hsum i hlt
  · have hieq : i = S.length := by omega
    subst hieq
    have e2 : entry (I ++ [b]) S.length = b := by rw [hSI]; exact entry_append_len I b
    rw [entry_append_len, e2]
    exact hab

theorem cons2_last {N : ℕ} {S I : List ℤ} (h : Cons2 N S I) :
    lastD S + lastD I = (N : ℤ) := by
  obtain ⟨hSI, hne, hsum⟩ := h
  have hlen : 0 < S.length := List.length_pos.mpr hne
  have hIne : I ≠ [] := by
    intro hI
    rw [hI] at hSI
    simp at hSI
    exact hne hSI
  rw [lastD_eq_entry hne, lastD_eq_entry hIne, ← hSI]
  exact hsum (S.length - 1) (by omega)

theorem cons2_drop {N : ℕ} {S I : List ℤ} (k : ℕ) (h : Cons2 N S I) :
    (S.drop k).length = (I.drop k).length ∧
    ∀ i < (S.drop k).length,
      entry (S.drop k) i + entry (I.drop k) i = (N : ℤ) := by
  obtain ⟨hSI, hne, hsum⟩ := h
  refine ⟨by simp [hSI], ?_⟩
  intro i hi
  rw [entry_drop, entry_drop]
  apply hsum
  simp only [List.length_drop] at hi
  omega

/-!
## Frame lemmas for the event-driven engines

`_find_trans_SIR_` and `_find_next_trans_SIS_` (and so the neighbor
loops around them) never touch the trajectory lists.
-/

theorem findTrans_lists {rng tau t target srt st st'}
    (h : _find_trans_SIR_ rng tau t target srt st = Except.ok st') :
    st'.times = st.times ∧ st'.Ss = st.Ss ∧ st'.Is = st.Is ∧ st'.Rs = st.Rs := by
  unfold _find_trans_SIR_ drawExpSIR expovariate at h
  by_cases hS : st.status target = Status.S
  · rw [if_pos hS] at h
    by_cases h0 : tau = 0
    · rw [if_pos h0] at h
      cases h
    · rw [if_neg h0] at h
      dsimp only at h
      split at h
      · injection h with h
        subst h
        exact ⟨rfl, rfl, rfl, rfl⟩
      · injection h with h
        subst h
        exact ⟨rfl, rfl, rfl, rfl⟩
  · rw [if_neg hS] at h
    injection h with h
    subst h
    exact ⟨rfl, rfl, rfl, rfl⟩

theorem findTransLoop_lists {rng trF node time srt} :
    ∀ (l : List ℕ) {st st'},
      findTransLoop rng trF node time srt l st = Except.ok st' →
      st'.times = st.times ∧ st'.Ss = st.Ss ∧ st'.Is = st.Is ∧ st'.Rs = st.Rs := by
  intro l
  induction l with
  | nil =>
    intro st st' h
    injection h with h
    subst h
    exact ⟨rfl, rfl, rfl, rfl⟩
  | cons v vs ih =>
    intro st st' h
    unfold findTransLoop at h
    cases hf : _find_trans_SIR_ rng (trF node v) time v srt st with
    | error e => rw [hf] at h; cases h
    | ok st1 =>
      rw [hf] at h
      obtain ⟨h1, h2, h3, h4⟩ := ih h
      obtain ⟨g1, g2, g3, g4⟩ := findTrans_lists hf
      exact ⟨h1.trans g1, h2.trans g2, h3.trans g3, h4.trans g4⟩

theorem findNext_lists {rng tau time source target st st'}
    (h : _find_next_trans_SIS_ rng tau time source target st = Except.ok st') :
    st'.times = st.times ∧ st'.Ss = st.Ss ∧ st'.Is = st.Is := by
  unfold _find_next_trans_SIS_ drawExpSIS expovariate at h
  split at h
  · cases h
  · split at h
    · by_cases h0 : tau = 0
      · rw [if_pos h0] at h
        cases h
      · rw [if_neg h0] at h
        dsimp only at h
        split at h
        · injection h with h
          subst h
          exact ⟨rfl, rfl, rfl⟩
        · injection h with h
          subst h
          exact ⟨rfl, rfl, rfl⟩
    · injection h with h
      subst h
      exact ⟨rfl, rfl, rfl⟩

theorem findNextLoop_lists {rng trF target time} :
    ∀ (l : List ℕ) {st st'},
      findNextTransLoop rng trF target time l st = Except.ok st' →
      st'.times = st.times ∧ st'.Ss = st.Ss ∧ st'.Is = st.Is := by
  intro l
  induction l with
  | nil =>
    intro st st' h
    injection h with h
    subst h
    exact ⟨rfl, rfl, rfl⟩
  | cons v vs ih =>
    intro st st' h
    unfold findNextTransLoop at h
    cases hf : _find_next_trans_SIS_ rng (trF target v) time target v st with
    | error e => rw [hf] at h; cases h
    | ok st1 =>
      rw [hf] at h
      obtain ⟨h1, h2, h3⟩ := ih h
      obtain ⟨g1, g2, g3⟩ := findNext_lists hf
      exact ⟨h1.trans g1, h2.trans g2, h3.trans g3⟩

/-!
## Conservation through the event-driven engines
-/

theorem processTransSIR_cons {rng G trF recF time node st st'} {N : ℕ}
    (hc : Cons3 N st.Ss st.Is st.Rs)
    (h : _process_trans_SIR_ rng G trF recF time node st = Except.ok st') :
    Cons3 N st'.Ss st'.Is st'.Rs := by
  unfold _process_trans_SIR_ drawExpSIR expovariate at h
  by_cases hS : st.status node = Status.S
  · rw [if_pos hS] at h
    dsimp only at h
    by_cases h0 : recF node = 0
    · rw [if_pos h0] at h
      cases h
    · rw [if_neg h0] at h
      dsimp only at h
      obtain ⟨_, h2, h3, h4⟩ := findTransLoop_lists (G.nbrs node) h
      have hsum := cons3_last hc
      have happ : Cons3 N (st.Ss ++ [lastD st.Ss - 1]) (st.Is ++ [lastD st.Is + 1])
          (st.Rs ++ [lastD st.Rs]) := cons3_append hc (by omega)
      rw [h2, h3, h4]
      exact happ
  · rw [if_neg hS] at h
    injection h with h
    subst h
    exact hc

theorem processRecSIR_cons {time node st} {N : ℕ}
    (hc : Cons3 N st.Ss st.Is st.Rs) :
    Cons3 N (_process_rec_SIR_ time node st).Ss (_process_rec_SIR_ time node st).Is
      (_process_rec_SIR_ time node st).Rs := by
  have hsum := cons3_last hc
  exact cons3_append hc (by omega)

theorem fastPopAndRun_consSIR {rng G trF recF st st'} {N : ℕ}
    (hc : Cons3 N st.Ss st.Is st.Rs)
    (h : fastPopAndRun (_process_trans_SIR_ rng G trF recF) st = Except.ok st') :
    Cons3 N st'.Ss st'.Is st'.Rs := by
  unfold fastPopAndRun at h
  cases hp : st.Q.pop with
  | error e => rw [hp] at h; cases h
  | ok p =>
    obtain ⟨event, Q'⟩ := p
    rw [hp] at h
    dsimp only at h
    cases hev : event.payload with
    | trans target =>
      rw [hev] at h
      dsimp only at h
      exact @processTransSIR_cons rng G trF recF event.time target
        { st with Q := Q' } st' N hc h
    | recov node =>
      rw [hev] at h
      dsimp only at h
      injection h with h
      subst h
      exact processRecSIR_cons hc

theorem fastSIRLoop_cons {rng G trF recF} {N : ℕ} :
    ∀ (fuel : ℕ) (st st' : FSIRState), Cons3 N st.Ss st.Is st.Rs →
      fastSIRLoop (_process_trans_SIR_ rng G trF recF) fuel st = Except.ok st' →
      Cons3 N st'.Ss st'.Is st'.Rs := by
  intro fuel
  induction fuel with
  | zero =>
    intro st st' hc h
    unfold fastSIRLoop at h
    split at h
    · injection h with h
      subst h
      exact hc
    · cases h
  | succ fuel ih =>
    intro st st' hc h
    unfold fastSIRLoop at h
    split at h
    · injection h with h
      subst h
      exact hc
    · cases hp : fastPopAndRun (_process_trans_SIR_ rng G trF recF) st with
      | error e => rw [hp] at h; cases h
      | ok st1 =>
        rw [hp] at h
        exact ih st1 st' (fastPopAndRun_consSIR hc hp) h

theorem fastSIRInit_lists (G : FGraph) (init : List ℕ) (tmax : WithTop ℚ) :
    (fastSIRInit G init tmax).Ss = [(G.order : ℤ)] ∧
    (fastSIRInit G init tmax).Is = [0] ∧ (fastSIRInit G init tmax).Rs = [0] := by
  unfold fastSIRInit
  suffices hgen : ∀ (l : List ℕ) (st : FSIRState),
      ((l.foldl (fun st u =>
        { (({ st with pred_inf_time :=
              Function.update st.pred_inf_time u ((0 : ℚ) : WithTop ℚ) }) : FSIRState) with
          Q := ({ st with pred_inf_time :=
              Function.update st.pred_inf_time u ((0 : ℚ) : WithTop ℚ) } : FSIRState).Q.add
            ⟨0, SIRev.trans u⟩ }) st).Ss = st.Ss ∧
       (l.foldl (fun st u =>
        { (({ st with pred_inf_time :=
              Function.update st.pred_inf_time u ((0 : ℚ) : WithTop ℚ) }) : FSIRState) with
          Q := ({ st with pred_inf_time :=
              Function.update st.pred_inf_time u ((0 : ℚ) : WithTop ℚ) } : FSIRState).Q.add
            ⟨0, SIRev.trans u⟩ }) st).Is = st.Is ∧
       (l.foldl (fun st u =>
        { (({ st with pred_inf_time :=
              Function.update st.pred_inf_time u ((0 : ℚ) : WithTop ℚ) }) : FSIRState) with
          Q := ({ st with pred_inf_time :=
              Function.update st.pred_inf_time u ((0 : ℚ) : WithTop ℚ) } : FSIRState).Q.add
            ⟨0, SIRev.trans u⟩ }) st).Rs = st.Rs) by
    exact hgen init _
  intro l
  induction l with
  | nil => intro st; exact ⟨rfl, rfl, rfl⟩
  | cons u us ih =>
    intro st
    exact ih _

theorem processRecSIS_cons {time node st} {N : ℕ}
    (hc : Cons2 N st.Ss st.Is) :
    Cons2 N (_process_rec_SIS_ time node st).Ss (_process_rec_SIS_ time node st).Is := by
  have hsum := cons2_last hc
  exact cons2_append hc (by omega)

theorem processTransSIS_cons {rng G trF recF time source target st st'} {N : ℕ}
    (hc : Cons2 N st.Ss st.Is)
    (h : _process_trans_SIS_ rng G trF recF time source target st = Except.ok st') :
    Cons2 N st'.Ss st'.Is := by
  unfold _process_trans_SIS_ drawExpSIS expovariate at h
  by_cases hS : st.status target = Status.S
  · rw [if_pos hS] at h
    dsimp only at h
    by_cases h0 : recF target = 0
    · rw [if_pos h0] at h
      dsimp only at h
      cases source with
      | none => cases h
      | some s => cases h
    · rw [if_neg h0] at h
      dsimp only at h
      split at h
      · cases source with
        | none => cases h
        | some s => cases h
      · rename_i st2 hloop
        split at hloop
        · cases hloop
        · rename_i st3 hl3
          injection hloop with hloop
          subst hloop
          have hc2 : Cons2 N st3.Ss st3.Is := by
            obtain ⟨_, g2, g3⟩ := findNextLoop_lists (G.nbrs target) hl3
            have hsum := cons2_last hc
            have happ : Cons2 N (st.Ss ++ [lastD st.Ss - 1])
                (st.Is ++ [lastD st.Is + 1]) := cons2_append hc (by omega)
            rw [g2, g3]
            exact happ
          cases source with
          | none =>
            injection h with h
            subst h
            exact hc2
          | some s =>
            obtain ⟨_, g2, g3⟩ := findNext_lists h
            rw [g2, g3]
            exact hc2
  · rw [if_neg hS] at h
    dsimp only at h
    cases source with
    | none =>
      injection h with h
      subst h
      exact hc
    | some s =>
      obtain ⟨_, g2, g3⟩ := findNext_lists h
      rw [g2, g3]
      exact hc

theorem fastSISPopAndRun_cons {rng G trF recF st st'} {N : ℕ}
    (hc : Cons2 N st.Ss st.Is)
    (h : fastSISPopAndRun rng G trF recF st = Except.ok st') :
    Cons2 N st'.Ss st'.Is := by
  unfold fastSISPopAndRun at h
  cases hp : st.Q.pop with
  | error e => rw [hp] at h; cases h
  | ok p =>
    obtain ⟨event, Q'⟩ := p
    rw [hp] at h
    dsimp only at h
    cases hev : event.payload with
    | trans source target =>
      rw [hev] at h
      dsimp only at h
      exact @processTransSIS_cons rng G trF recF event.time source target
        { st with Q := Q' } st' N hc h
    | recov node =>
      rw [hev] at h
      dsimp only at h
      injection h with h
      subst h
      exact processRecSIS_cons hc

theorem fastSISLoop_cons {rng G trF recF} {N : ℕ} :
    ∀ (fuel : ℕ) (st st' : FSISState), Cons2 N st.Ss st.Is →
      fastSISLoop rng G trF recF fuel st = Except.ok st' →
      Cons2 N st'.Ss st'.Is := by
  intro fuel
  induction fuel with
  | zero =>
    intro st st' hc h
    unfold fastSISLoop at h
    split at h
    · injection h with h
      subst h
      exact hc
    · cases h
  | succ fuel ih =>
    intro st st' hc h
    unfold fastSISLoop at h
    split at h
    · injection h with h
      subst h
      exact hc
    · cases hp : fastSISPopAndRun rng G trF recF st with
      | error e => rw [hp] at h; cases h
      | ok st1 =>
        rw [hp] at h
        exact ih st1 st' (fastSISPopAndRun_cons hc hp) h

theorem fastSISInit_lists (G : FGraph) (init : List ℕ) (tmax : WithTop ℚ) :
    (fastSISInit G init tmax).Ss = [(G.order : ℤ)] ∧
    (fastSISInit G init tmax).Is = [0] := by
  unfold fastSISInit
  suffices hgen : ∀ (l : List ℕ) (st : FSISState),
      ((l.foldl (fun st u =>
        { st with Q := st.Q.add ⟨0, SISev.trans none u⟩ }) st).Ss = st.Ss ∧
       (l.foldl (fun st u =>
        { st with Q := st.Q.add ⟨0, SISev.trans none u⟩ }) st).Is = st.Is) by
    exact hgen init _
  intro l
  induction l with
  | nil => intro st; exact ⟨rfl, rfl⟩
  | cons u us ih =>
    intro st
    exact ih _

theorem cons3_single {N : ℕ} {a b c : ℤ} (h : a + b + c = (N : ℤ)) :
    Cons3 N [a] [b] [c] := by
  refine ⟨rfl, rfl, by simp, ?_⟩
  intro i hi
  have hi0 : i = 0 := by simpa using hi
  subst hi0
  exact h

theorem cons2_single {N : ℕ} {a b : ℤ} (h : a + b = (N : ℤ)) :
    Cons2 N [a] [b] := by
  refine ⟨rfl, by simp, ?_⟩
  intro i hi
  have hi0 : i = 0 := by simpa using hi
  subst hi0
  exact h

/-!
## Conservation through the Gillespie engines
-/

theorem gSetup_cons3 {rng G tau gamma init rfd L}
    (h : gSetup rng G tau gamma init rfd = Except.ok L) :
    Cons3 G.order L.st.Ss L.st.Is L.st.Rs := by
  unfold gSetup at h
  cases hi : _Gillespie_Init_ G init rfd with
  | error e => rw [hi] at h; cases h
  | ok st =>
    rw [hi] at h
    dsimp only at h
    obtain ⟨_, hS, hI, hR, _, _⟩ := initShape hi
    unfold expovariate at h
    split at h
    · cases h
    · injection h with h
      subst h
      show Cons3 G.order st.Ss st.Is st.Rs
      rw [hS, hI, hR]
      exact cons3_single (by omega)

theorem gSetup_cons2 {rng G tau gamma init rfd L}
    (h : gSetup rng G tau gamma init rfd = Except.ok L) :
    Cons2 G.order L.st.Ss L.st.Is := by
  unfold gSetup at h
  cases hi : _Gillespie_Init_ G init rfd with
  | error e => rw [hi] at h; cases h
  | ok st =>
    rw [hi] at h
    dsimp only at h
    obtain ⟨_, hS, hI, _, _, _⟩ := initShape hi
    unfold expovariate at h
    split at h
    · cases h
    · injection h with h
      subst h
      show Cons2 G.order st.Ss st.Is
      rw [hS, hI]
      exact cons2_single (by omega)

theorem gBody_consSIR {rng G tau gamma rfd} {N : ℕ} {L L' : GLoop}
    (hc : Cons3 N L.st.Ss L.st.Is L.st.Rs)
    (h : gBody rng G tau gamma true rfd L = Except.ok L') :
    Cons3 N L'.st.Ss L'.st.Is L'.st.Rs := by
  unfold gBody at h
  cases hnt : L.next_time with
  | top => rw [hnt] at h; cases h
  | coe t =>
    rw [hnt] at h
    dsimp only at h
    by_cases hbr : rng.unis L.st.draws * L.total_rate < L.total_rec_rate
    · rw [if_pos hbr] at h
      simp only [reduceIte] at h
      cases hrc : _Gillespie_Recover_SIR_ rng G t rfd
          { L.st with draws := L.st.draws + 1 } with
      | error e => rw [hrc] at h; cases h
      | ok st2 =>
        rw [hrc] at h
        dsimp only at h
        obtain ⟨_, _, _, hS20, hI20, hR20, _⟩ := recoverSIRShape hrc
        have hS2 : st2.Ss = L.st.Ss ++ [lastD L.st.Ss] := hS20
        have hI2 : st2.Is = L.st.Is ++ [lastD L.st.Is - 1] := hI20
        have hR2 : st2.Rs = L.st.Rs ++ [lastD L.st.Rs + 1] := hR20
        have hsum := cons3_last hc
        have hc2 : Cons3 N st2.Ss st2.Is st2.Rs := by
          rw [hS2, hI2, hR2]
          exact cons3_append hc (by omega)
        by_cases hpos : (0 : ℚ) < gamma * (lastD st2.Is : ℚ) +
            tau * (riskSum G.order st2.risk_group : ℚ)
        · rw [if_pos hpos] at h
          unfold expovariate at h
          rw [if_neg (ne_of_gt hpos)] at h
          dsimp only at h
          injection h with h
          subst h
          exact hc2
        · rw [if_neg hpos] at h
          injection h with h
          subst h
          exact hc2
    · rw [if_neg hbr] at h
      cases hic : _Gillespie_Infect_ rng G t true
          { L.st with draws := L.st.draws + 1 } with
      | error e => rw [hic] at h; cases h
      | ok st2 =>
        rw [hic] at h
        dsimp only at h
        obtain ⟨recipient, _, hS20, hI20, hR20, _⟩ := infectShape hic
        have hS2 : st2.Ss = L.st.Ss ++ [lastD L.st.Ss - 1] := hS20
        have hI2 : st2.Is = L.st.Is ++ [lastD L.st.Is + 1] := hI20
        have hR2 : st2.Rs = L.st.Rs ++ [lastD L.st.Rs] := hR20
        have hsum := cons3_last hc
        have hc2 : Cons3 N st2.Ss st2.Is st2.Rs := by
          rw [hS2, hI2, hR2]
          exact cons3_append hc (by omega)
        by_cases hpos : (0 : ℚ) < L.total_rec_rate +
            tau * (riskSum G.order st2.risk_group : ℚ)
        · rw [if_pos hpos] at h
          unfold expovariate at h
          rw [if_neg (ne_of_gt hpos)] at h
          dsimp only at h
          injection h with h
          subst h
          exact hc2
        · rw [if_neg hpos] at h
          injection h with h
          subst h
          exact hc2

theorem gBody_consSIS {rng G tau gamma rfd} {N : ℕ} {L L' : GLoop}
    (hc : Cons2 N L.st.Ss L.st.Is)
    (h : gBody rng G tau gamma false rfd L = Except.ok L') :
    Cons2 N L'.st.Ss L'.st.Is := by
  unfold gBody at h
  cases hnt : L.next_time with
  | top => rw [hnt] at h; cases h
  | coe t =>
    rw [hnt] at h
    dsimp only at h
    by_cases hbr : rng.unis L.st.draws * L.total_rate < L.total_rec_rate
    · rw [if_pos hbr] at h
      rw [if_neg Bool.false_ne_true] at h
      cases hrc : _Gillespie_Recover_SIS_ rng G t rfd
          { L.st with draws := L.st.draws + 1 } with
      | error e => rw [hrc] at h; cases h
      | ok st2 =>
        rw [hrc] at h
        dsimp only at h
        obtain ⟨_, _, _, hS20, hI20, _, _⟩ := recoverSISShape hrc
        have hS2 : st2.Ss = L.st.Ss ++ [lastD L.st.Ss + 1] := hS20
        have hI2 : st2.Is = L.st.Is ++ [lastD L.st.Is - 1] := hI20
        have hsum := cons2_last hc
        have hc2 : Cons2 N st2.Ss st2.Is := by
          rw [hS2, hI2]
          exact cons2_append hc (by omega)
        by_cases hpos : (0 : ℚ) < gamma * (lastD st2.Is : ℚ) +
            tau * (riskSum G.order st2.risk_group : ℚ)
        · rw [if_pos hpos] at h
          unfold expovariate at h
          rw [if_neg (ne_of_gt hpos)] at h
          dsimp only at h
          injection h with h
          subst h
          exact hc2
        · rw [if_neg hpos] at h
          injection h with h
          subst h
          exact hc2
    · rw [if_neg hbr] at h
      cases hic : _Gillespie_Infect_ rng G t false
          { L.st with draws := L.st.draws + 1 } with
      | error e => rw [hic] at h; cases h
      | ok st2 =>
        rw [hic] at h
        dsimp only at h
        obtain ⟨recipient, _, hS20, hI20, _, _⟩ := infectShape hic
        have hS2 : st2.Ss = L.st.Ss ++ [lastD L.st.Ss - 1] := hS20
        have hI2 : st2.Is = L.st.Is ++ [lastD L.st.Is + 1] := hI20
        have hsum := cons2_last hc
        have hc2 : Cons2 N st2.Ss st2.Is := by
          rw [hS2, hI2]
          exact cons2_append hc (by omega)
        by_cases hpos : (0 : ℚ) < L.total_rec_rate +
            tau * (riskSum G.order st2.risk_group : ℚ)
        · rw [if_pos hpos] at h
          unfold expovariate at h
          rw [if_neg (ne_of_gt hpos)] at h
          dsimp only at h
          injection h with h
          subst h
          exact hc2
        · rw [if_neg hpos] at h
          injection h with h
          subst h
          exact hc2

theorem gRun_consSIR {rng G tau gamma rfd tmax} {N : ℕ} :
    ∀ (fuel : ℕ) (L L' : GLoop), Cons3 N L.st.Ss L.st.Is L.st.Rs →
      gRun rng G tau gamma true rfd tmax fuel L = Except.ok L' →
      Cons3 N L'.st.Ss L'.st.Is L'.st.Rs := by
  intro fuel
  induction fuel with
  | zero =>
    intro L L' hc h
    unfold gRun at h
    split at h
    · cases h
    · injection h with h
      subst h
      exact hc
  | succ fuel ih =>
    intro L L' hc h
    unfold gRun at h
    split at h
    · cases hb : gBody rng G tau gamma true rfd L with
      | error e => rw [hb] at h; cases h
      | ok L1 =>
        rw [hb] at h
        exact ih L1 L' (gBody_consSIR hc hb) h
    · injection h with h
      subst h
      exact hc

theorem gRun_consSIS {rng G tau gamma rfd tmax} {N : ℕ} :
    ∀ (fuel : ℕ) (L L' : GLoop), Cons2 N L.st.Ss L.st.Is →
      gRun rng G tau gamma false rfd tmax fuel L = Except.ok L' →
      Cons2 N L'.st.Ss L'.st.Is := by
  intro fuel
  induction fuel with
  | zero =>
    intro L L' hc h
    unfold gRun at h
    split at h
    · cases h
    · injection h with h
      subst h
      exact hc
  | succ fuel ih =>
    intro L L' hc h
    unfold gRun at h
    split at h
    · cases hb : gBody rng G tau gamma false rfd L with
      | error e => rw [hb] at h; cases h
      | ok L1 =>
        rw [hb] at h
        exact ih L1 L' (gBody_consSIS hc hb) h
    · injection h with h
      subst h
      exact hc

theorem fastSIR_run_cons {rng G trF recF} {initial : List ℕ} {tmax : WithTop ℚ}
    {fuel : ℕ} {ts : List ℚ} {Ss Is Rs : List ℤ}
    (h : (match fastSIRLoop (_process_trans_SIR_ rng G trF recF) fuel
          (fastSIRInit G initial tmax) with
        | Except.error e => Except.error e
        | Except.ok st =>
          Except.ok (st.times.drop initial.length, st.Ss.drop initial.length,
            st.Is.drop initial.length, st.Rs.drop initial.length)) =
        Except.ok (ts, Ss, Is, Rs)) :
    Ss.length = Is.length ∧ Ss.length = Rs.length ∧
      ∀ i < Ss.length, entry Ss i + entry Is i + entry Rs i = (G.order : ℤ) := by
  cases hl : fastSIRLoop (_process_trans_SIR_ rng G trF recF) fuel
      (fastSIRInit G initial tmax) with
  | error e => rw [hl] at h; cases h
  | ok stf =>
    rw [hl] at h
    dsimp only at h
    injection h with h
    have hinit : Cons3 G.order (fastSIRInit G initial tmax).Ss
        (fastSIRInit G initial tmax).Is (fastSIRInit G initial tmax).Rs := by
      obtain ⟨e1, e2, e3⟩ := fastSIRInit_lists G initial tmax
      rw [e1, e2, e3]
      exact cons3_single (by omega)
    have hfin := fastSIRLoop_cons fuel _ _ hinit hl
    have hdrop := cons3_drop initial.length hfin
    have hSs := congrArg (fun p : List ℚ × List ℤ × List ℤ × List ℤ => p.2.1) h
    have hIs := congrArg (fun p : List ℚ × List ℤ × List ℤ × List ℤ => p.2.2.1) h
    have hRs := congrArg (fun p : List ℚ × List ℤ × List ℤ × List ℤ => p.2.2.2) h
    dsimp only at hSs hIs hRs
    rw [← hSs, ← hIs, ← hRs]
    exact hdrop

theorem fastSIS_run_cons {rng G trF recF} {initial : List ℕ} {tmax : WithTop ℚ}
    {fuel : ℕ} {ts : List ℚ} {Ss Is : List ℤ}
    (h : (match fastSISLoop rng G trF recF fuel (fastSISInit G initial tmax) with
        | Except.error e => Except.error e
        | Except.ok st =>
          Except.ok (st.times.drop initial.length, st.Ss.drop initial.length,
            st.Is.drop initial.length)) = Except.ok (ts, Ss, Is)) :
    Ss.length = Is.length ∧
      ∀ i < Ss.length, entry Ss i + entry Is i = (G.order : ℤ) := by
  cases hl : fastSISLoop rng G trF recF fuel (fastSISInit G initial tmax) with
  | error e => rw [hl] at h; cases h
  | ok stf =>
    rw [hl] at h
    dsimp only at h
    injection h with h
    have hinit : Cons2 G.order (fastSISInit G initial tmax).Ss
        (fastSISInit G initial tmax).Is := by
      obtain ⟨e1, e2⟩ := fastSISInit_lists G initial tmax
      rw [e1, e2]
      exact cons2_single (by omega)
    have hfin := fastSISLoop_cons fuel _ _ hinit hl
    have hdrop := cons2_drop initial.length hfin
    have hSs := congrArg (fun p : List ℚ × List ℤ × List ℤ => p.2.1) h
    have hIs := congrArg (fun p : List ℚ × List ℤ × List ℤ => p.2.2) h
    dsimp only at hSs hIs
    rw [← hSs, ← hIs]
    exact hdrop

theorem gillespieSIR_run_cons {rng G tau gamma rfd} {initial : List ℕ}
    {tmax : WithTop ℚ} {fuel : ℕ} {ts : List ℚ} {Ss Is Rs : List ℤ}
    (h : (match gSetup rng G tau gamma initial rfd with
        | Except.error e => Except.error e
        | Except.ok L =>
          match gRun rng G tau gamma true rfd tmax fuel L with
          | Except.error e => Except.error e
          | Except.ok L => Except.ok (L.st.times, L.st.Ss, L.st.Is, L.st.Rs)) =
        Except.ok (ts, Ss, Is, Rs)) :
    Ss.length = Is.length ∧ Ss.length = Rs.length ∧
      ∀ i < Ss.length, entry Ss i + entry Is i + entry Rs i = (G.order : ℤ) := by
  cases hs : gSetup rng G tau gamma initial rfd with
  | error e => rw [hs] at h; cases h
  | ok L0 =>
    rw [hs] at h
    dsimp only at h
    cases hr : gRun rng G tau gamma true rfd tmax fuel L0 with
    | error e => rw [hr] at h; cases h
    | ok L1 =>
      rw [hr] at h
      dsimp only at h
      injection h with h
      have hfin := gRun_consSIR fuel L0 L1 (gSetup_cons3 hs) hr
      have hSs := congrArg (fun p : List ℚ × List ℤ × List ℤ × List ℤ => p.2.1) h
      have hIs := congrArg (fun p : List ℚ × List ℤ × List ℤ × List ℤ => p.2.2.1) h
      have hRs := congrArg (fun p : List ℚ × List ℤ × List ℤ × List ℤ => p.2.2.2) h
      dsimp only at hSs hIs hRs
      rw [← hSs, ← hIs, ← hRs]
      exact ⟨hfin.1, hfin.2.1, hfin.2.2.2⟩

theorem gillespieSIS_run_cons {rng G tau gamma rfd} {initial : List ℕ}
    {tmax : WithTop ℚ} {fuel : ℕ} {ts : List ℚ} {Ss Is : List ℤ}
    (h : (match gSetup rng G tau gamma initial rfd with
        | Except.error e => Except.error e
        | Except.ok L =>
          match gRun rng G tau gamma false rfd tmax fuel L with
          | Except.error e => Except.error e
          | Except.ok L => Except.ok (L.st.times, L.st.Ss, L.st.Is)) =
        Except.ok (ts, Ss, Is)) :
    Ss.length = Is.length ∧
      ∀ i < Ss.length, entry Ss i + entry Is i = (G.order : ℤ) := by
  cases hs : gSetup rng G tau gamma initial rfd with
  | error e => rw [hs] at h; cases h
  | ok L0 =>
    rw [hs] at h
    dsimp only at h
    cases hr : gRun rng G tau gamma false rfd tmax fuel L0 with
    | error e => rw [hr] at h; cases h
    | ok L1 =>
      rw [hr] at h
      dsimp only at h
      injection h with h
      have hfin := gRun_consSIS fuel L0 L1 (gSetup_cons2 hs) hr
      have hSs := congrArg (fun p : List ℚ × List ℤ × List ℤ => p.2.1) h
      have hIs := congrArg (fun p : List ℚ × List ℤ × List ℤ => p.2.2) h
      dsimp only at hSs hIs
      rw [← hSs, ← hIs]
      exact ⟨hfin.1, hfin.2.2⟩

/-!
## `_ListDict_` well-formedness (for the Gillespie SIS risk-group invariant)

The risk strata are `_ListDict_`s.  The following lemmas characterize
`add` and a successful `remove` on a well-formed container: the position
dictionary is exactly the index map of the dense array, so membership,
distinctness and the effect of the swap-remove can be read off.
-/

theorem get?_some_lt {l : List ℕ} {i : ℕ} {a : ℕ} (h : l.get? i = some a) :
    i < l.length := by
  by_contra hge
  rw [List.get?_eq_none.2 (Nat.le_of_not_lt hge)] at h
  cases h

theorem get?_set_self : ∀ (l : List ℕ) (i : ℕ) (b : ℕ), i < l.length →
    (l.set i b).get? i = some b
  | [], i, _, h => absurd h (Nat.not_lt_zero i)
  | _ :: _, 0, _, _ => rfl
  | _ :: l, i + 1, b, h => get?_set_self l i b (Nat.lt_of_succ_lt_succ h)

theorem get?_set_other : ∀ (l : List ℕ) (i j : ℕ) (b : ℕ), i ≠ j →
    (l.set i b).get? j = l.get? j
  | [], _, _, _, _ => rfl
  | _ :: _, 0, 0, _, h => absurd rfl h
  | _ :: _, 0, _ + 1, _, _ => rfl
  | _ :: _, _ + 1, 0, _, _ => rfl
  | _ :: l, i + 1, j + 1, b, h => get?_set_other l i j b (fun e => h (by rw [e]))

theorem get?_take_lt : ∀ (l : List ℕ) (n i : ℕ), i < n → (l.take n).get? i = l.get? i
  | [], _, _, _ => by rw [List.take_nil]
  | _ :: _, 0, i, h => absurd h (Nat.not_lt_zero i)
  | _ :: _, _ + 1, 0, _ => rfl
  | _ :: l, n + 1, i + 1, h => get?_take_lt l n i (Nat.lt_of_succ_lt_succ h)

/-- On a well-formed container, membership in the dense array is
exactly presence in the position dictionary. -/
theorem ListDict.WF.mem_iff {d : ListDict} (h : d.WF) {y : ℕ} :
    y ∈ d.items ↔ (d.item_to_position y).isSome := by
  constructor
  · intro hy
    obtain ⟨n, hn⟩ := List.mem_iff_get?.1 hy
    rw [(h y n).2 hn]
    rfl
  · intro hs
    cases hp : d.item_to_position y with
    | none => rw [hp] at hs; cases hs
    | some i => exact List.mem_iff_get?.2 ⟨i, (h y i).1 hp⟩

/-- A well-formed container stores distinct items. -/
theorem ListDict.WF.nodup {d : ListDict} (h : d.WF) : d.items.Nodup := by
  rw [List.nodup_iff_injective_get]
  intro a b hab
  have ha : d.items.get? a.1 = some (d.items.get a) := List.get?_eq_get a.2
  have hb : d.items.get? b.1 = some (d.items.get b) := List.get?_eq_get b.2
  have hpa := (h (d.items.get a) a.1).2 ha
  have hpb := (h (d.items.get b) b.1).2 hb
  rw [hab] at hpa
  rw [hpa] at hpb
  injection hpb with hh
  exact Fin.ext hh

/-- Two positions holding the same item of a well-formed container
coincide. -/
theorem ListDict.WF.pos_inj {d : ListDict} (h : d.WF) {y : ℕ} {i j : ℕ}
    (hi : d.items.get? i = some y) (hj : d.items.get? j = some y) : i = j := by
  have h1 := (h y i).2 hi
  have h2 := (h y j).2 hj
  rw [h1] at h2
  injection h2

theorem ListDict.add_WF {d : ListDict} (h : d.WF) (x : ℕ) : (d.add x).WF := by
  unfold ListDict.add
  cases hp : d.item_to_position x with
  | some p => exact h
  | none =>
    intro y i
    dsimp only
    rw [Function.update_apply]
    by_cases hyx : y = x
    · subst hyx
      rw [if_pos rfl]
      constructor
      · intro hsome
        injection hsome with hi
        subst hi
        exact List.get?_concat_length d.items y
      · intro hg
        rcases Nat.lt_trichotomy i d.items.length with hlt | heq | hgt
        · rw [List.get?_append hlt] at hg
          have hpy := (h y i).2 hg
          rw [hp] at hpy
          cases hpy
        · rw [heq]
        · have hnone : (d.items ++ [y]).get? i = none := by
            rw [List.get?_eq_none, List.length_append, List.length_singleton]
            omega
          rw [hnone] at hg
          cases hg
    · rw [if_neg hyx]
      constructor
      · intro hpy
        have hg := (h y i).1 hpy
        rw [List.get?_append (get?_some_lt hg)]
        exact hg
      · intro hg
        rcases Nat.lt_trichotomy i d.items.length with hlt | heq | hgt
        · rw [List.get?_append hlt] at hg
          exact (h y i).2 hg
        · rw [heq, List.get?_concat_length] at hg
          injection hg with hg
          exact absurd hg.symm hyx
        · have hnone : (d.items ++ [x]).get? i = none := by
            rw [List.get?_eq_none, List.length_append, List.length_singleton]
            omega
          rw [hnone] at hg
          cases hg

theorem ListDict.add_mem {d : ListDict} (h : d.WF) (x y : ℕ) :
    y ∈ (d.add x).items ↔ (y ∈ d.items ∨ y = x) := by
  unfold ListDict.add
  cases hp : d.item_to_position x with
  | some p =>
    dsimp only
    constructor
    · exact Or.inl
    · rintro (hy | rfl)
      · exact hy
      · exact h.mem_iff.2 (by rw [hp]; rfl)
  | none =>
    dsimp only
    rw [List.mem_append, List.mem_singleton]

/-- A successful `remove` on a well-formed container: the item was
present, it is gone afterwards, nothing else changes membership, and
well-formedness survives the swap-remove. -/
theorem ListDict.removeE_ok {d d' : ListDict} {x : ℕ} (h : d.WF)
    (hr : d.removeE x = Except.ok d') :
    d'.WF ∧ x ∈ d.items ∧ x ∉ d'.items ∧
      ∀ y, y ≠ x → (y ∈ d'.items ↔ y ∈ d.items) := by
  unfold ListDict.removeE ListDict.remove at hr
  cases hp : d.item_to_position x with
  | none => rw [hp] at hr; dsimp only at hr; cases hr
  | some p =>
    rw [hp] at hr
    dsimp only at hr
    have hxg : d.items.get? p = some x := (h x p).1 hp
    have hplt : p < d.items.length := get?_some_lt hxg
    cases hlast : d.items.getLast? with
    | none => rw [hlast] at hr; dsimp only at hr; cases hr
    | some last =>
      rw [hlast] at hr
      dsimp only at hr
      have hlg : d.items.get? (d.items.length - 1) = some last := by
        rw [← List.getLast?_eq_get?]
        exact hlast
      by_cases hpos : p ≠ d.items.dropLast.length
      · rw [if_pos hpos] at hr
        injection hr with hr
        subst hr
        have hpne : p ≠ d.items.length - 1 := by
          rw [List.length_dropLast] at hpos
          exact hpos
        have hplt1 : p < d.items.length - 1 := by omega
        have hlx : last ≠ x := by
          intro e
          rw [e] at hlg
          exact hpne (h.pos_inj hxg hlg)
        have factB : ((d.items.dropLast).set p last).get? p = some last := by
          apply get?_set_self
          rw [List.length_dropLast]
          exact hplt1
        have factA : ∀ j, j < d.items.length - 1 → j ≠ p →
            ((d.items.dropLast).set p last).get? j = d.items.get? j := by
          intro j hj hjp
          rw [get?_set_other _ _ _ _ (fun e => hjp e.symm), List.dropLast_eq_take]
          exact get?_take_lt _ _ _ hj
        have factC : ∀ j, d.items.length - 1 ≤ j →
            ((d.items.dropLast).set p last).get? j = none := by
          intro j hj
          rw [List.get?_eq_none, List.length_set, List.length_dropLast]
          exact hj
        have hwf : ListDict.WF
            { items := (d.items.dropLast).set p last,
              item_to_position :=
                Function.update (Function.update d.item_to_position x none)
                  last (some p) } := by
          intro y i
          dsimp only
          rw [Function.update_apply, Function.update_apply]
          by_cases hyl : y = last
          · subst hyl
            rw [if_pos rfl]
            constructor
            · intro e
              injection e with e
              rw [← e]
              exact factB
            · intro hg
              by_cases hip : i = p
              · rw [hip]
              · have hilt : i < d.items.length - 1 := by
                  by_contra hge
                  rw [factC i (Nat.le_of_not_lt hge)] at hg
                  cases hg
                rw [factA i hilt hip] at hg
                exact absurd (h.pos_inj hg hlg) (by omega)
          · rw [if_neg hyl]
            by_cases hyx : y = x
            · subst hyx
              rw [if_pos rfl]
              constructor
              · intro e; cases e
              · intro hg
                by_cases hip : i = p
                · rw [hip, factB] at hg
                  injection hg with hg
                  exact absurd hg hlx
                · have hilt : i < d.items.length - 1 := by
                    by_contra hge
                    rw [factC i (Nat.le_of_not_lt hge)] at hg
                    cases hg
                  rw [factA i hilt hip] at hg
                  exact absurd (h.pos_inj hg hxg) hip
            · rw [if_neg hyx]
              constructor
              · intro hpy
                have hg := (h y i).1 hpy
                have hip : i ≠ p := by
                  intro e
                  rw [e, hxg] at hg
                  injection hg with hg
                  exact hyx hg.symm
                have hine : i ≠ d.items.length - 1 := by
                  intro e
                  rw [e, hlg] at hg
                  injection hg with hg
                  exact hyl hg.symm
                have hilt : i < d.items.length - 1 := by
                  have := get?_some_lt ((h y i).1 hpy)
                  omega
                rw [factA i hilt hip]
                exact (h y i).1 hpy
              · intro hg
                by_cases hip : i = p
                · rw [hip, factB] at hg
                  injection hg with hg
                  exact absurd hg.symm hyl
                · have hilt : i < d.items.length - 1 := by
                    by_contra hge
                    rw [factC i (Nat.le_of_not_lt hge)] at hg
                    cases hg
                  rw [factA i hilt hip] at hg
                  exact (h y i).2 hg
        refine ⟨hwf, List.get?_mem hxg, ?_, ?_⟩
        · rw [hwf.mem_iff]
          dsimp only
          rw [Function.update_apply, Function.update_apply,
            if_neg (fun e => hlx e.symm), if_pos rfl]
          intro e; cases e
        · intro y hyx
          rw [hwf.mem_iff, h.mem_iff]
          dsimp only
          rw [Function.update_apply, Function.update_apply, if_neg hyx]
          by_cases hyl : y = last
          · rw [if_pos hyl]
            have : d.item_to_position y = some (d.items.length - 1) := by
              rw [hyl]
              exact (h last (d.items.length - 1)).2 hlg
            rw [this]
            exact Iff.rfl
          · rw [if_neg hyl]
      · rw [if_neg hpos] at hr
        injection hr with hr
        subst hr
        have hpeq : p = d.items.length - 1 := by
          rw [List.length_dropLast] at hpos
          omega
        have hwf : ListDict.WF
            { items := d.items.dropLast,
              item_to_position := Function.update d.item_to_position x none } := by
          intro y i
          dsimp only
          rw [Function.update_apply]
          by_cases hyx : y = x
          · subst hyx
            rw [if_pos rfl]
            constructor
            · intro e; cases e
            · intro hg
              have hilt : i < d.items.length - 1 := by
                have := get?_some_lt hg
                rw [List.length_dropLast] at this
                exact this
              rw [List.dropLast_eq_take, get?_take_lt _ _ _ hilt] at hg
              exact absurd (h.pos_inj hg hxg) (by omega)
          · rw [if_neg hyx]
            constructor
            · intro hpy
              have hg := (h y i).1 hpy
              have hine : i ≠ d.items.length - 1 := by
                intro e
                rw [e] at hg
                rw [hpeq] at hxg
                rw [hxg] at hg
                injection hg with hg
                exact hyx hg.symm
              have hilt : i < d.items.length - 1 := by
                have := get?_some_lt hg
                omega
              rw [List.dropLast_eq_take, get?_take_lt _ _ _ hilt]
              exact hg
            · intro hg
              have hilt : i < d.items.length - 1 := by
                have := get?_some_lt hg
                rw [List.length_dropLast] at this
                exact this
              rw [List.dropLast_eq_take, get?_take_lt _ _ _ hilt] at hg
              exact (h y i).2 hg
        refine ⟨hwf, List.get?_mem hxg, ?_, ?_⟩
        · rw [hwf.mem_iff]
          dsimp only
          rw [Function.update_apply, if_pos rfl]
          intro e; cases e
        · intro y hyx
          rw [hwf.mem_iff, h.mem_iff]
          dsimp only
          rw [Function.update_apply, if_neg hyx]

/-!
## Counting helpers and the Gillespie SIS risk-group invariant
-/

/-- Occurrence count of `v` in a list. -/
def occ (v : ℕ) (l : List ℕ) : ℕ := l.countP (fun u => decide (u = v))

theorem occ_cons (v a : ℕ) (l : List ℕ) :
    occ v (a :: l) = occ v l + (if a = v then 1 else 0) := by
  unfold occ
  rw [List.countP_cons]
  simp only [decide_eq_true_eq]

theorem occ_of_not_mem {v : ℕ} : ∀ {l : List ℕ}, v ∉ l → occ v l = 0
  | [], _ => rfl
  | a :: l, h => by
    rw [occ_cons, occ_of_not_mem (fun hm => h (List.mem_cons_of_mem a hm)),
      if_neg (fun e => h (by rw [← e]; exact List.mem_cons_self a l))]

theorem occ_of_nodup_mem {v : ℕ} : ∀ {l : List ℕ}, l.Nodup → v ∈ l → occ v l = 1
  | [], _, hm => absurd hm (List.not_mem_nil v)
  | a :: l, hnd, hm => by
    rcases List.mem_cons.1 hm with rfl | hm'
    · rw [occ_cons, if_pos rfl, occ_of_not_mem (List.nodup_cons.1 hnd).1]
    · have hne : a ≠ v := by
        rintro rfl
        exact (List.nodup_cons.1 hnd).1 hm'
      rw [occ_cons, if_neg hne, occ_of_nodup_mem (List.nodup_cons.1 hnd).2 hm']

/-- Infecting `v` raises the infected count along any list by the number
of occurrences of `v`. -/
theorem countP_update_to_I (f : ℕ → Status) (v : ℕ) (hv : f v ≠ Status.I) :
    ∀ l : List ℕ,
      l.countP (fun u => decide (Function.update f v Status.I u = Status.I)) =
        l.countP (fun u => decide (f u = Status.I)) + occ v l
  | [] => rfl
  | a :: l => by
    rw [List.countP_cons, List.countP_cons, occ_cons, countP_update_to_I f v hv l]
    by_cases hav : a = v
    · subst hav
      simp only [decide_eq_true_eq]
      rw [Function.update_same, if_pos rfl, if_pos trivial, if_neg hv]
      omega
    · simp only [decide_eq_true_eq]
      rw [Function.update_apply, if_neg hav, if_neg hav]
      omega

/-- Returning `v` to susceptible lowers the infected count along any
list by the number of occurrences of `v`. -/
theorem countP_update_to_S (f : ℕ → Status) (v : ℕ) (hv : f v = Status.I) :
    ∀ l : List ℕ,
      l.countP (fun u => decide (f u = Status.I)) =
        l.countP (fun u => decide (Function.update f v Status.S u = Status.I)) +
          occ v l
  | [] => rfl
  | a :: l => by
    rw [List.countP_cons, List.countP_cons, occ_cons, countP_update_to_S f v hv l]
    by_cases hav : a = v
    · subst hav
      simp only [decide_eq_true_eq]
      rw [Function.update_same, if_pos hv, if_neg (fun e => by cases e),
        if_pos trivial]
      omega
    · simp only [decide_eq_true_eq]
      rw [Function.update_apply, if_neg hav, if_neg hav]
      omega

theorem sum_map_add (l : List ℕ) (f g : ℕ → ℕ) :
    (l.map (fun k => f k + g k)).sum = (l.map f).sum + (l.map g).sum := by
  induction l with
  | nil => rfl
  | cons a l ih =>
    rw [List.map_cons, List.map_cons, List.map_cons, List.sum_cons, List.sum_cons,
      List.sum_cons, ih]
    omega

theorem sum_mul_ite (c : ℕ) : ∀ l : List ℕ, l.Nodup → c ∈ l →
    (l.map (fun k => k * (if c = k then 1 else 0))).sum = c
  | [], _, hm => absurd hm (List.not_mem_nil c)
  | a :: l, hnd, hm => by
    rw [List.map_cons, List.sum_cons]
    rcases List.mem_cons.1 hm with rfl | hm'
    · rw [if_pos rfl, Nat.mul_one]
      have hz : (l.map (fun k => k * (if c = k then 1 else 0))).sum = 0 := by
        apply List.sum_eq_zero
        intro x hx
        rcases List.mem_map.1 hx with ⟨k, hk, rfl⟩
        rw [if_neg, Nat.mul_zero]
        rintro rfl
        exact (List.nodup_cons.1 hnd).1 hk
      rw [hz]
      omega
    · have hne : c ≠ a := by
        rintro rfl
        exact (List.nodup_cons.1 hnd).1 hm'
      rw [if_neg hne, Nat.mul_zero, Nat.zero_add,
        sum_mul_ite c l (List.nodup_cons.1 hnd).2 hm']

theorem sum_range_mul_ite (B c : ℕ) (hc : c ≤ B) :
    ((List.range (B + 1)).map (fun k => k * (if c = k then 1 else 0))).sum = c :=
  sum_mul_ite c (List.range (B + 1)) (List.nodup_range _)
    (List.mem_range.2 (by omega))

/-- Exchanging the two summations: summing `k · #(susceptible nodes of
recorded count k)` over the keys equals summing the recorded counts over
the susceptible nodes. -/
theorem key_sum_swap (B : ℕ) (s : ℕ → Status) (inc : ℕ → ℤ) :
    ∀ l : List ℕ, (∀ w ∈ l, s w = Status.S → 0 ≤ inc w ∧ inc w ≤ (B : ℤ)) →
    ((List.range (B + 1)).map
        (fun k => k * l.countP
          (fun w => decide (s w = Status.S ∧ inc w = Int.ofNat k)))).sum =
      (l.map (fun w => if s w = Status.S then (inc w).toNat else 0)).sum
  | [], _ => by
    rw [List.map_nil, List.sum_nil]
    apply List.sum_eq_zero
    intro x hx
    rcases List.mem_map.1 hx with ⟨k, _, rfl⟩
    rw [List.countP_nil, Nat.mul_zero]
  | w :: l, h => by
    have ih := key_sum_swap B s inc l
      (fun u hu hs => h u (List.mem_cons_of_mem _ hu) hs)
    rw [List.map_cons, List.sum_cons, ← ih]
    have hmap : (List.range (B + 1)).map
        (fun k => k * (w :: l).countP
          (fun u => decide (s u = Status.S ∧ inc u = Int.ofNat k))) =
      (List.range (B + 1)).map
        (fun k => k * l.countP
            (fun u => decide (s u = Status.S ∧ inc u = Int.ofNat k)) +
          k * (if s w = Status.S ∧ inc w = Int.ofNat k then 1 else 0)) := by
      apply List.map_congr_left
      intro k _
      rw [List.countP_cons, Nat.mul_add]
      simp only [decide_eq_true_eq]
    rw [hmap, sum_map_add]
    by_cases hs : s w = Status.S
    · obtain ⟨h0, hB⟩ := h w (List.mem_cons_self _ _) hs
      have hc : (inc w).toNat ≤ B := by omega
      have hcast : inc w = Int.ofNat (inc w).toNat := (Int.toNat_of_nonneg h0).symm
      have hmap2 : (List.range (B + 1)).map
          (fun k => k * (if s w = Status.S ∧ inc w = Int.ofNat k then 1 else 0)) =
        (List.range (B + 1)).map
          (fun k => k * (if (inc w).toNat = k then 1 else 0)) := by
        apply List.map_congr_left
        intro k _
        congr 1
        by_cases hk : (inc w).toNat = k
        · rw [if_pos hk, if_pos ⟨hs, by rw [hcast, hk]⟩]
        · rw [if_neg hk, if_neg]
          rintro ⟨-, he⟩
          apply hk
          rw [hcast] at he
          exact Int.ofNat.inj he
      rw [hmap2, sum_range_mul_ite B _ hc, if_pos hs]
      omega
    · have hmap2 : (List.range (B + 1)).map
          (fun k => k * (if s w = Status.S ∧ inc w = Int.ofNat k then 1 else 0)) =
        (List.range (B + 1)).map (fun _ => 0) := by
        apply List.map_congr_left
        intro k _
        rw [if_neg (fun hh => hs hh.1), Nat.mul_zero]
      rw [hmap2, if_neg hs]
      have hz : ((List.range (B + 1)).map (fun _ : ℕ => (0 : ℕ))).sum = 0 := by
        apply List.sum_eq_zero
        intro x hx
        rcases List.mem_map.1 hx with ⟨k, _, rfl⟩
        rfl
      rw [hz]
      omega

/-- The number of infected neighbors of `w` under status map `s`. -/
def nbrICount (G : FGraph) (s : ℕ → Status) (w : ℕ) : ℕ :=
  (G.nbrs w).countP (fun u => decide (s u = Status.I))

/-- The number of adjacent (infected, susceptible) node pairs of the
graph: each susceptible node contributes its number of infected
neighbors.  (Claim-side definition, following the spec's words.) -/
def pairCount (G : FGraph) (s : ℕ → Status) : ℕ :=
  (G.nodes.map (fun w => if s w = Status.S then nbrICount G s w else 0)).sum

/-- The risk-group bookkeeping relation with an exclusion predicate `X`
(used mid-recovery, while the recovering node is not yet re-filed):
every stratum is well-formed, and stratum `k` holds exactly the
susceptible graph nodes outside `X` whose recorded infected-neighbor
count is `k ≥ 1`. -/
def GrpAt (G : FGraph) (s : ℕ → Status) (inc : ℕ → ℤ) (grp : ℤ → ListDict)
    (X : ℕ → Prop) : Prop :=
  (∀ k, (grp k).WF) ∧
    ∀ k y, y ∈ (grp k).items ↔
      (y ∈ G.nodes ∧ s y = Status.S ∧ inc y = k ∧ 1 ≤ k ∧ ¬ X y)

/-- The Gillespie risk-group invariant of a state: nonnegative recorded
counts and exact strata with no exclusion. -/
def GrpInv (G : FGraph) (st : GState) : Prop :=
  (∀ w, 0 ≤ st.infected_neighbor_count w) ∧
    GrpAt G st.status st.infected_neighbor_count st.risk_group (fun _ => False)

/-- As `GrpInv`, but with one node excluded from all strata (the
recovering node during `_Gillespie_Recover_SIS_`). -/
def GrpInvX (G : FGraph) (x : ℕ) (st : GState) : Prop :=
  (∀ w, 0 ≤ st.infected_neighbor_count w) ∧
    GrpAt G st.status st.infected_neighbor_count st.risk_group (fun y => y = x)

/-- The full Gillespie SIS loop invariant: exact strata, recorded counts
of susceptible nodes equal to their true infected-neighbor counts, and
an infected list of distinct, actually infected nodes. -/
def SISInv (G : FGraph) (st : GState) : Prop :=
  GrpInv G st ∧
    (∀ w ∈ G.nodes, st.status w = Status.S →
      st.infected_neighbor_count w = (nbrICount G st.status w : ℤ)) ∧
    (∀ w ∈ st.infected, st.status w = Status.I ∧ w ∈ G.nodes) ∧
    st.infected.Nodup

theorem length_eq_of_nodup_mem_iff {l₁ l₂ : List ℕ} (h₁ : l₁.Nodup)
    (h₂ : l₂.Nodup) (h : ∀ y, y ∈ l₁ ↔ y ∈ l₂) : l₁.length = l₂.length :=
  Nat.le_antisymm (h₁.subperm fun y hy => (h y).1 hy).length_le
    (h₂.subperm fun y hy => (h y).2 hy).length_le

/-- Under the SIS invariant, `sum(n*len(risk_group[n]))` over the keys
is exactly the number of adjacent (infected, susceptible) pairs. -/
theorem riskSum_eq_pairCount {G : FGraph} {st : GState} (hG : GraphOK G)
    (hinv : SISInv G st) :
    riskSum G.order st.risk_group = pairCount G st.status := by
  obtain ⟨⟨hnn, hwf, hmem⟩, hcnt, -, -⟩ := hinv
  unfold riskSum pairCount
  have hbound : ∀ w ∈ G.nodes, st.status w = Status.S →
      0 ≤ st.infected_neighbor_count w ∧
        st.infected_neighbor_count w ≤ (G.order : ℤ) := by
    intro w hw hs
    refine ⟨hnn w, ?_⟩
    rw [hcnt w hw hs]
    have h1 : nbrICount G st.status w ≤ (G.nbrs w).length :=
      List.countP_le_length _
    have h2 : (G.nbrs w).length ≤ G.order :=
      ((hG.nbrs_nodup w).subperm fun u hu => (hG.nbrs_mem w u hu).2).length_le
    exact_mod_cast Nat.le_trans h1 h2
  have hstep : (List.range (G.order + 1)).map
      (fun k => k * (st.risk_group (Int.ofNat k)).items.length) =
    (List.range (G.order + 1)).map
      (fun k => k * G.nodes.countP
        (fun w => decide (st.status w = Status.S ∧
          st.infected_neighbor_count w = Int.ofNat k))) := by
    apply List.map_congr_left
    intro k _
    cases Nat.eq_zero_or_pos k with
    | inl h0 => rw [h0, Nat.zero_mul, Nat.zero_mul]
    | inr hpos =>
      congr 1
      rw [List.countP_eq_length_filter]
      apply length_eq_of_nodup_mem_iff (hwf _).nodup (hG.nodes_nodup.filter _)
      intro y
      rw [hmem, List.mem_filter]
      simp only [decide_eq_true_eq]
      constructor
      · rintro ⟨h1, h2, h3, -, -⟩
        exact ⟨h1, h2, h3⟩
      · rintro ⟨h1, h2, h3⟩
        exact ⟨h1, h2, h3, by simp only [Int.ofNat_eq_coe]; omega, not_false⟩
  rw [hstep,
    key_sum_swap G.order st.status st.infected_neighbor_count G.nodes hbound]
  apply congrArg List.sum
  apply List.map_congr_left
  intro w hw
  by_cases hs : st.status w = Status.S
  · rw [if_pos hs, if_pos hs, hcnt w hw hs, Int.toNat_ofNat]
  · rw [if_neg hs, if_neg hs]

/-!
## Phase lemmas for the strata characterization

Each risk-bookkeeping block of the source decomposes into phases:
remove a node from its stratum (or observe it sits in none), update its
recorded count or status while it is excluded, and re-file it (or not).
-/

theorem GrpAt_congr {G : FGraph} {s : ℕ → Status} {inc : ℕ → ℤ}
    {grp : ℤ → ListDict} {X Y : ℕ → Prop} (h : GrpAt G s inc grp X)
    (hXY : ∀ y, X y ↔ Y y) : GrpAt G s inc grp Y := by
  obtain ⟨hwf, hmem⟩ := h
  refine ⟨hwf, fun k y => ?_⟩
  rw [hmem k y]
  constructor
  · rintro ⟨a1, a2, a3, a4, a5⟩
    exact ⟨a1, a2, a3, a4, fun hy => a5 ((hXY y).2 hy)⟩
  · rintro ⟨a1, a2, a3, a4, a5⟩
    exact ⟨a1, a2, a3, a4, fun hy => a5 ((hXY y).1 hy)⟩

/-- Successfully removing a node from a stratum excludes it from the
characterization; the stratum it sat in names its recorded count. -/
theorem GrpAt_remove {G : FGraph} {s : ℕ → Status} {inc : ℕ → ℤ}
    {grp : ℤ → ListDict} {X : ℕ → Prop} (h : GrpAt G s inc grp X)
    {k₀ : ℤ} {w : ℕ} {g : ListDict}
    (hrem : (grp k₀).removeE w = Except.ok g) :
    GrpAt G s inc (Function.update grp k₀ g) (fun y => X y ∨ y = w) ∧
      w ∈ G.nodes ∧ s w = Status.S ∧ inc w = k₀ ∧ 1 ≤ k₀ := by
  obtain ⟨hwf, hmem⟩ := h
  obtain ⟨hgwf, hwmem, hwout, hother⟩ := ListDict.removeE_ok (hwf k₀) hrem
  have hw := (hmem k₀ w).1 hwmem
  refine ⟨⟨?_, ?_⟩, hw.1, hw.2.1, hw.2.2.1, hw.2.2.2.1⟩
  · intro k
    rw [Function.update_apply]
    by_cases hk : k = k₀
    · rw [if_pos hk]; exact hgwf
    · rw [if_neg hk]; exact hwf k
  · intro k y
    rw [Function.update_apply]
    by_cases hyw : y = w
    · subst hyw
      constructor
      · intro hin
        by_cases hk : k = k₀
        · rw [if_pos hk] at hin
          exact absurd hin hwout
        · rw [if_neg hk] at hin
          exact absurd (((hmem k y).1 hin).2.2.1.symm.trans hw.2.2.1) hk
      · rintro ⟨-, -, -, -, hnx⟩
        exact absurd (Or.inr rfl) hnx
    · by_cases hk : k = k₀
      · subst hk
        rw [if_pos rfl, hother y hyw, hmem k y]
        constructor
        · rintro ⟨a1, a2, a3, a4, a5⟩
          exact ⟨a1, a2, a3, a4, fun hc => hc.elim a5 hyw⟩
        · rintro ⟨a1, a2, a3, a4, a5⟩
          exact ⟨a1, a2, a3, a4, fun hx => a5 (Or.inl hx)⟩
      · rw [if_neg hk, hmem k y]
        constructor
        · rintro ⟨a1, a2, a3, a4, a5⟩
          exact ⟨a1, a2, a3, a4, fun hc => hc.elim a5 hyw⟩
        · rintro ⟨a1, a2, a3, a4, a5⟩
          exact ⟨a1, a2, a3, a4, fun hx => a5 (Or.inl hx)⟩

/-- A node whose recorded count is below `1` sits in no stratum, so it
can be excluded freely. -/
theorem GrpAt_exclude {G : FGraph} {s : ℕ → Status} {inc : ℕ → ℤ}
    {grp : ℤ → ListDict} {X : ℕ → Prop} (h : GrpAt G s inc grp X) {w : ℕ}
    (hc : inc w < 1) :
    GrpAt G s inc grp (fun y => X y ∨ y = w) := by
  obtain ⟨hwf, hmem⟩ := h
  refine ⟨hwf, fun k y => ?_⟩
  rw [hmem k y]
  by_cases hyw : y = w
  · subst hyw
    constructor
    · rintro ⟨-, -, a3, a4, -⟩
      rw [a3] at hc
      exact absurd a4 (not_le.2 hc)
    · rintro ⟨-, -, -, -, a5⟩
      exact absurd (Or.inr rfl) a5
  · constructor
    · rintro ⟨a1, a2, a3, a4, a5⟩
      exact ⟨a1, a2, a3, a4, fun hc2 => hc2.elim a5 hyw⟩
    · rintro ⟨a1, a2, a3, a4, a5⟩
      exact ⟨a1, a2, a3, a4, fun hx => a5 (Or.inl hx)⟩

/-- A non-susceptible node sits in no stratum, so it can be excluded
freely. -/
theorem GrpAt_exclude_notS {G : FGraph} {s : ℕ → Status} {inc : ℕ → ℤ}
    {grp : ℤ → ListDict} {X : ℕ → Prop} (h : GrpAt G s inc grp X) {w : ℕ}
    (hs : s w ≠ Status.S) :
    GrpAt G s inc grp (fun y => X y ∨ y = w) := by
  obtain ⟨hwf, hmem⟩ := h
  refine ⟨hwf, fun k y => ?_⟩
  rw [hmem k y]
  by_cases hyw : y = w
  · subst hyw
    constructor
    · rintro ⟨-, a2, -, -, -⟩
      exact absurd a2 hs
    · rintro ⟨-, -, -, -, a5⟩
      exact absurd (Or.inr rfl) a5
  · constructor
    · rintro ⟨a1, a2, a3, a4, a5⟩
      exact ⟨a1, a2, a3, a4, fun hc2 => hc2.elim a5 hyw⟩
    · rintro ⟨a1, a2, a3, a4, a5⟩
      exact ⟨a1, a2, a3, a4, fun hx => a5 (Or.inl hx)⟩

/-- The characterization ignores the recorded count of an excluded
node. -/
theorem GrpAt_update_count {G : FGraph} {s : ℕ → Status} {inc : ℕ → ℤ}
    {grp : ℤ → ListDict} {X : ℕ → Prop} (h : GrpAt G s inc grp X)
    {w : ℕ} (hXw : X w) (c : ℤ) :
    GrpAt G s (Function.update inc w c) grp X := by
  obtain ⟨hwf, hmem⟩ := h
  refine ⟨hwf, fun k y => ?_⟩
  rw [hmem k y, Function.update_apply]
  by_cases hyw : y = w
  · subst hyw
    constructor
    · rintro ⟨-, -, -, -, a5⟩
      exact absurd hXw a5
    · rintro ⟨-, -, -, -, a5⟩
      exact absurd hXw a5
  · rw [if_neg hyw]

/-- The characterization ignores the status of an excluded node. -/
theorem GrpAt_update_status {G : FGraph} {s : ℕ → Status} {inc : ℕ → ℤ}
    {grp : ℤ → ListDict} {X : ℕ → Prop} (h : GrpAt G s inc grp X)
    {w : ℕ} (hXw : X w) (v : Status) :
    GrpAt G (Function.update s w v) inc grp X := by
  obtain ⟨hwf, hmem⟩ := h
  refine ⟨hwf, fun k y => ?_⟩
  rw [hmem k y, Function.update_apply]
  by_cases hyw : y = w
  · subst hyw
    constructor
    · rintro ⟨-, -, -, -, a5⟩
      exact absurd hXw a5
    · rintro ⟨-, -, -, -, a5⟩
      exact absurd hXw a5
  · rw [if_neg hyw]

/-- Re-filing an excluded susceptible node into the stratum of its
recorded count. -/
theorem GrpAt_add {G : FGraph} {s : ℕ → Status} {inc : ℕ → ℤ}
    {grp : ℤ → ListDict} {X : ℕ → Prop} {w : ℕ} {c : ℤ}
    (h : GrpAt G s inc grp (fun y => X y ∨ y = w))
    (hwn : w ∈ G.nodes) (hS : s w = Status.S) (hc : inc w = c) (h1 : 1 ≤ c)
    (hXw : ¬ X w) :
    GrpAt G s inc (Function.update grp c ((grp c).add w)) X := by
  obtain ⟨hwf, hmem⟩ := h
  refine ⟨?_, ?_⟩
  · intro k
    rw [Function.update_apply]
    by_cases hk : k = c
    · rw [if_pos hk]; exact ListDict.add_WF (hwf c) w
    · rw [if_neg hk]; exact hwf k
  · intro k y
    rw [Function.update_apply]
    by_cases hk : k = c
    · subst hk
      rw [if_pos rfl, ListDict.add_mem (hwf k) w y]
      by_cases hyw : y = w
      · subst hyw
        constructor
        · intro _
          exact ⟨hwn, hS, hc, h1, hXw⟩
        · intro _
          exact Or.inr rfl
      · rw [hmem k y]
        constructor
        · rintro (⟨a1, a2, a3, a4, a5⟩ | he)
          · exact ⟨a1, a2, a3, a4, fun hx => a5 (Or.inl hx)⟩
          · exact absurd he hyw
        · rintro ⟨a1, a2, a3, a4, a5⟩
          exact Or.inl ⟨a1, a2, a3, a4, fun hc2 => hc2.elim a5 hyw⟩
    · rw [if_neg hk]
      by_cases hyw : y = w
      · subst hyw
        rw [hmem k y]
        constructor
        · rintro ⟨-, -, a3, -, -⟩
          exact absurd (a3.symm.trans hc) hk
        · rintro ⟨-, -, a3, -, -⟩
          exact absurd (a3.symm.trans hc) hk
      · rw [hmem k y]
        constructor
        · rintro ⟨a1, a2, a3, a4, a5⟩
          exact ⟨a1, a2, a3, a4, fun hx => a5 (Or.inl hx)⟩
        · rintro ⟨a1, a2, a3, a4, a5⟩
          exact ⟨a1, a2, a3, a4, fun hc2 => hc2.elim a5 hyw⟩

/-- An excluded node whose recorded count is below `1` needs no
re-filing: the exclusion can simply be dropped. -/
theorem GrpAt_unexclude {G : FGraph} {s : ℕ → Status} {inc : ℕ → ℤ}
    {grp : ℤ → ListDict} {X : ℕ → Prop} {w : ℕ}
    (h : GrpAt G s inc grp (fun y => X y ∨ y = w)) (hc : inc w < 1) :
    GrpAt G s inc grp X := by
  obtain ⟨hwf, hmem⟩ := h
  refine ⟨hwf, fun k y => ?_⟩
  rw [hmem k y]
  by_cases hyw : y = w
  · subst hyw
    constructor
    · rintro ⟨-, -, -, -, a5⟩
      exact absurd (Or.inr rfl) a5
    · rintro ⟨-, -, a3, a4, -⟩
      rw [a3] at hc
      exact absurd a4 (not_le.2 hc)
  · constructor
    · rintro ⟨a1, a2, a3, a4, a5⟩
      exact ⟨a1, a2, a3, a4, fun hx => a5 (Or.inl hx)⟩
    · rintro ⟨a1, a2, a3, a4, a5⟩
      exact ⟨a1, a2, a3, a4, fun hc2 => hc2.elim a5 hyw⟩

/-- An excluded non-susceptible node needs no re-filing either. -/
theorem GrpAt_unexclude_notS {G : FGraph} {s : ℕ → Status} {inc : ℕ → ℤ}
    {grp : ℤ → ListDict} {X : ℕ → Prop} {w : ℕ}
    (h : GrpAt G s inc grp (fun y => X y ∨ y = w)) (hs : s w ≠ Status.S) :
    GrpAt G s inc grp X := by
  obtain ⟨hwf, hmem⟩ := h
  refine ⟨hwf, fun k y => ?_⟩
  rw [hmem k y]
  by_cases hyw : y = w
  · subst hyw
    constructor
    · rintro ⟨-, -, -, -, a5⟩
      exact absurd (Or.inr rfl) a5
    · rintro ⟨-, a2, -, -, -⟩
      exact absurd a2 hs
  · constructor
    · rintro ⟨a1, a2, a3, a4, a5⟩
      exact ⟨a1, a2, a3, a4, fun hx => a5 (Or.inl hx)⟩
    · rintro ⟨a1, a2, a3, a4, a5⟩
      exact ⟨a1, a2, a3, a4, fun hc2 => hc2.elim a5 hyw⟩

theorem nodup_get?_inj {l : List ℕ} (hnd : l.Nodup) {p q : ℕ} {y : ℕ}
    (hp : l.get? p = some y) (hq : l.get? q = some y) : p = q := by
  have hp' : p < l.length := get?_some_lt hp
  have hq' : q < l.length := get?_some_lt hq
  have e1 : l.get ⟨p, hp'⟩ = y := by
    have e := List.get?_eq_get hp'
    rw [e] at hp
    injection hp
  have e2 : l.get ⟨q, hq'⟩ = y := by
    have e := List.get?_eq_get hq'
    rw [e] at hq
    injection hq
  have e3 := (List.nodup_iff_injective_get.1 hnd) (e1.trans e2.symm)
  exact congrArg Fin.val e3

/-- The swap-remove `(l.set i b).dropLast` used on the `infected` list:
it stays duplicate-free, drops the removed element, and introduces no
new element. -/
theorem swapRemove_facts {l : List ℕ} {i : ℕ} {a b : ℕ} (hnd : l.Nodup)
    (ha : l.get? i = some a) (hb : l.getLast? = some b) :
    ((l.set i b).dropLast).Nodup ∧ a ∉ (l.set i b).dropLast ∧
      ∀ y ∈ (l.set i b).dropLast, y ∈ l := by
  have hlen : i < l.length := get?_some_lt ha
  have hbg : l.get? (l.length - 1) = some b := by
    rw [← List.getLast?_eq_get?]
    exact hb
  have hlt : (l.set i b).dropLast = (l.set i b).take (l.length - 1) := by
    rw [List.dropLast_eq_take, List.length_set]
  have hlennew : ((l.set i b).dropLast).length = l.length - 1 := by
    rw [List.length_dropLast, List.length_set]
  have gA : ∀ j, j < l.length - 1 → j ≠ i →
      ((l.set i b).dropLast).get? j = l.get? j := by
    intro j hj hji
    rw [hlt, get?_take_lt _ _ _ hj, get?_set_other _ _ _ _ (fun e => hji e.symm)]
  have gB : i < l.length - 1 → ((l.set i b).dropLast).get? i = some b := by
    intro hi
    rw [hlt, get?_take_lt _ _ _ hi]
    exact get?_set_self _ _ _ hlen
  have gC : ∀ j, l.length - 1 ≤ j → ((l.set i b).dropLast).get? j = none := by
    intro j hj
    rw [List.get?_eq_none, hlennew]
    exact hj
  have hsome : ∀ j y, ((l.set i b).dropLast).get? j = some y →
      j < l.length - 1 := by
    intro j y hj
    have h2 := get?_some_lt hj
    omega
  refine ⟨?_, ?_, ?_⟩
  · rw [List.nodup_iff_injective_get]
    intro p q hpq
    have hp := List.get?_eq_get p.2
    have hq := List.get?_eq_get q.2
    rw [hpq] at hp
    apply Fin.ext
    have hp' : p.1 < l.length - 1 := by
      have h2 := p.2
      omega
    have hq' : q.1 < l.length - 1 := by
      have h2 := q.2
      omega
    by_cases hpi : p.1 = i
    · by_cases hqi : q.1 = i
      · rw [hpi, hqi]
      · rw [gA q.1 hq' hqi] at hq
        have hbq : ((l.set i b).dropLast).get? p.1 = some b := by
          rw [hpi]
          exact gB (by omega)
        rw [hbq] at hp
        injection hp with hp
        rw [← hp] at hq
        have := nodup_get?_inj hnd hq hbg
        omega
    · by_cases hqi : q.1 = i
      · rw [gA p.1 hp' hpi] at hp
        have hbq : ((l.set i b).dropLast).get? q.1 = some b := by
          rw [hqi]
          exact gB (by omega)
        rw [hbq] at hq
        injection hq with hq
        rw [← hq] at hp
        have := nodup_get?_inj hnd hp hbg
        omega
      · rw [gA p.1 hp' hpi] at hp
        rw [gA q.1 hq' hqi] at hq
        exact nodup_get?_inj hnd hp hq
  · intro hmem
    obtain ⟨j, hj⟩ := List.mem_iff_get?.1 hmem
    have hj' := hsome j a hj
    by_cases hji : j = i
    · rw [hji, gB (by omega)] at hj
      injection hj with hj
      rw [hj] at hbg
      have := nodup_get?_inj hnd ha hbg
      omega
    · rw [gA j hj' hji] at hj
      exact hji (nodup_get?_inj hnd hj ha)
  · intro y hy
    obtain ⟨j, hj⟩ := List.mem_iff_get?.1 hy
    have hj' := hsome j y hj
    by_cases hji : j = i
    · rw [hji, gB (by omega)] at hj
      injection hj with hj
      rw [← hj]
      exact List.get?_mem hbg
    · rw [gA j hj' hji] at hj
      exact List.get?_mem hj

theorem bump_count_combine {cnt cnt' : ℕ → ℤ} {s : ℕ → Status} {w₀ : ℕ}
    {ws : List ℕ}
    (hstep : ∀ w, cnt' w = Function.update cnt w₀ (cnt w₀ + 1) w +
      (if s w = Status.S then (occ w ws : ℤ) else 0))
    (hS : s w₀ = Status.S) :
    ∀ w, cnt' w = cnt w +
      (if s w = Status.S then (occ w (w₀ :: ws) : ℤ) else 0) := by
  intro w
  rw [hstep w, Function.update_apply, occ_cons]
  by_cases hs : s w = Status.S
  · rw [if_pos hs, if_pos hs]
    by_cases hww : w = w₀
    · subst hww
      rw [if_pos rfl, if_pos rfl]
      push_cast
      ring
    · rw [if_neg hww, if_neg (fun e => hww e.symm)]
      push_cast
      ring
  · rw [if_neg hs, if_neg hs]
    have hww : w ≠ w₀ := fun e => hs (by rw [e]; exact hS)
    rw [if_neg hww]

theorem skip_count_combine {cnt cnt' : ℕ → ℤ} {s : ℕ → Status} {w₀ : ℕ}
    {ws : List ℕ}
    (hstep : ∀ w, cnt' w = cnt w +
      (if s w = Status.S then (occ w ws : ℤ) else 0))
    (hS : s w₀ ≠ Status.S) :
    ∀ w, cnt' w = cnt w +
      (if s w = Status.S then (occ w (w₀ :: ws) : ℤ) else 0) := by
  intro w
  rw [hstep w, occ_cons]
  by_cases hs : s w = Status.S
  · rw [if_pos hs, if_pos hs, if_neg (fun e => hS (by rw [e]; exact hs))]
    push_cast
    ring
  · rw [if_neg hs, if_neg hs]

theorem drop_count_combine {cnt cnt' : ℕ → ℤ} {s : ℕ → Status} {x w₀ : ℕ}
    {ws : List ℕ}
    (hstep : ∀ w, w ≠ x → cnt' w = Function.update cnt w₀ (cnt w₀ - 1) w -
      (if s w = Status.S then (occ w ws : ℤ) else 0))
    (hS : s w₀ = Status.S) :
    ∀ w, w ≠ x → cnt' w = cnt w -
      (if s w = Status.S then (occ w (w₀ :: ws) : ℤ) else 0) := by
  intro w hwx
  rw [hstep w hwx, Function.update_apply, occ_cons]
  by_cases hs : s w = Status.S
  · rw [if_pos hs, if_pos hs]
    by_cases hww : w = w₀
    · subst hww
      rw [if_pos rfl, if_pos rfl]
      push_cast
      ring
    · rw [if_neg hww, if_neg (fun e => hww e.symm)]
      push_cast
      ring
  · rw [if_neg hs, if_neg hs]
    have hww : w ≠ w₀ := fun e => hs (by rw [e]; exact hS)
    rw [if_neg hww]

theorem skip_drop_combine {cnt cnt' : ℕ → ℤ} {s : ℕ → Status} {x w₀ : ℕ}
    {ws : List ℕ}
    (hstep : ∀ w, w ≠ x → cnt' w = cnt w -
      (if s w = Status.S then (occ w ws : ℤ) else 0))
    (hS : s w₀ ≠ Status.S) :
    ∀ w, w ≠ x → cnt' w = cnt w -
      (if s w = Status.S then (occ w (w₀ :: ws) : ℤ) else 0) := by
  intro w hwx
  rw [hstep w hwx, occ_cons]
  by_cases hs : s w = Status.S
  · rw [if_pos hs, if_pos hs, if_neg (fun e => hS (by rw [e]; exact hs))]
    push_cast
    ring
  · rw [if_neg hs, if_neg hs]

/-- The inner loop of `_Gillespie_Initialize_` preserves the risk-group
invariant and raises the recorded count of every susceptible node by its
number of occurrences in the processed list. -/
theorem gInitNbrLoop_spec {G : FGraph} :
    ∀ (ws : List ℕ) (st st' : GState), (∀ u ∈ ws, u ∈ G.nodes) →
      GrpInv G st → gInitNbrLoop ws st = Except.ok st' →
      GrpInv G st' ∧
        ∀ w, st'.infected_neighbor_count w = st.infected_neighbor_count w +
          (if st.status w = Status.S then (occ w ws : ℤ) else 0) := by
  intro ws
  induction ws with
  | nil =>
    intro st st' _ hinv h
    injection h with h
    subst h
    refine ⟨hinv, fun w => ?_⟩
    by_cases hs : st.status w = Status.S
    · rw [if_pos hs]
      have h0 : occ w ([] : List ℕ) = 0 := rfl
      rw [h0]
      simp
    · rw [if_neg hs]
      simp
  | cons w₀ ws ih =>
    intro st st' hmem hinv h
    unfold gInitNbrLoop at h
    by_cases hS : st.status w₀ = Status.S
    · rw [if_pos hS] at h
      dsimp only at h
      obtain ⟨hnn, hat⟩ := hinv
      by_cases hc : st.infected_neighbor_count w₀ + 1 > 1
      · rw [if_pos hc] at h
        cases hrem : (ListDict.removeE
            (st.risk_group (st.infected_neighbor_count w₀ + 1 - 1)) w₀) with
        | error e =>
          rw [hrem] at h
          dsimp only at h
          cases h
        | ok g =>
          rw [hrem] at h
          dsimp only at h
          obtain ⟨hat1, hwn, -, -, -⟩ := GrpAt_remove hat hrem
          have hat2 := GrpAt_update_count hat1 (Or.inr rfl)
            (st.infected_neighbor_count w₀ + 1)
          have hat3 := GrpAt_add hat2 hwn hS
            (Function.update_same w₀ (st.infected_neighbor_count w₀ + 1)
              st.infected_neighbor_count)
            (by have := hnn w₀; omega) not_false
          have hinv1 : GrpInv G
              { st with
                infected_neighbor_count := Function.update
                  st.infected_neighbor_count w₀
                  (st.infected_neighbor_count w₀ + 1),
                risk_group := Function.update
                  (Function.update st.risk_group
                    (st.infected_neighbor_count w₀ + 1 - 1) g)
                  (st.infected_neighbor_count w₀ + 1)
                  ((Function.update st.risk_group
                      (st.infected_neighbor_count w₀ + 1 - 1) g
                    (st.infected_neighbor_count w₀ + 1)).add w₀) } := by
            refine ⟨?_, hat3⟩
            intro w
            dsimp only
            rw [Function.update_apply]
            by_cases hww : w = w₀
            · rw [if_pos hww]
              have := hnn w₀
              omega
            · rw [if_neg hww]
              exact hnn w
          obtain ⟨hinv', hform⟩ := ih _ _
            (fun u hu => hmem u (List.mem_cons_of_mem _ hu)) hinv1 h
          have hstep : ∀ w, st'.infected_neighbor_count w =
              Function.update st.infected_neighbor_count w₀
                (st.infected_neighbor_count w₀ + 1) w +
              (if st.status w = Status.S then (occ w ws : ℤ) else 0) := hform
          exact ⟨hinv', bump_count_combine hstep hS⟩
      · rw [if_neg hc] at h
        dsimp only at h
        have hc0 : st.infected_neighbor_count w₀ < 1 := by omega
        have hat1 := GrpAt_exclude hat hc0
        have hat2 := GrpAt_update_count hat1 (Or.inr rfl)
          (st.infected_neighbor_count w₀ + 1)
        have hat3 := GrpAt_add hat2 (hmem w₀ (List.mem_cons_self _ _)) hS
          (Function.update_same w₀ (st.infected_neighbor_count w₀ + 1)
            st.infected_neighbor_count)
          (by have := hnn w₀; omega) not_false
        have hinv1 : GrpInv G
            { st with
              infected_neighbor_count := Function.update
                st.infected_neighbor_count w₀
                (st.infected_neighbor_count w₀ + 1),
              risk_group := Function.update st.risk_group
                (st.infected_neighbor_count w₀ + 1)
                ((st.risk_group (st.infected_neighbor_count w₀ + 1)).add w₀) } := by
          refine ⟨?_, hat3⟩
          intro w
          dsimp only
          rw [Function.update_apply]
          by_cases hww : w = w₀
          · rw [if_pos hww]
            have := hnn w₀
            omega
          · rw [if_neg hww]
            exact hnn w
        obtain ⟨hinv', hform⟩ := ih _ _
          (fun u hu => hmem u (List.mem_cons_of_mem _ hu)) hinv1 h
        have hstep : ∀ w, st'.infected_neighbor_count w =
            Function.update st.infected_neighbor_count w₀
              (st.infected_neighbor_count w₀ + 1) w +
            (if st.status w = Status.S then (occ w ws : ℤ) else 0) := hform
        exact ⟨hinv', bump_count_combine hstep hS⟩
    · rw [if_neg hS] at h
      obtain ⟨hinv', hform⟩ := ih _ _
        (fun u hu => hmem u (List.mem_cons_of_mem _ hu)) hinv h
      exact ⟨hinv', skip_count_combine hform hS⟩

/-- The neighbor loop of `_Gillespie_Infect_` preserves the risk-group
invariant and raises the recorded count of every susceptible node by its
number of occurrences in the processed list. -/
theorem gInfectNbrLoop_spec {G : FGraph} :
    ∀ (ws : List ℕ) (st st' : GState), (∀ u ∈ ws, u ∈ G.nodes) →
      GrpInv G st → gInfectNbrLoop ws st = Except.ok st' →
      GrpInv G st' ∧
        ∀ w, st'.infected_neighbor_count w = st.infected_neighbor_count w +
          (if st.status w = Status.S then (occ w ws : ℤ) else 0) := by
  intro ws
  induction ws with
  | nil =>
    intro st st' _ hinv h
    injection h with h
    subst h
    refine ⟨hinv, fun w => ?_⟩
    by_cases hs : st.status w = Status.S
    · rw [if_pos hs]
      have h0 : occ w ([] : List ℕ) = 0 := rfl
      rw [h0]
      simp
    · rw [if_neg hs]
      simp
  | cons w₀ ws ih =>
    intro st st' hmem hinv h
    unfold gInfectNbrLoop at h
    by_cases hS : st.status w₀ = Status.S
    · rw [if_pos hS] at h
      dsimp only at h
      obtain ⟨hnn, hat⟩ := hinv
      by_cases hc : st.infected_neighbor_count w₀ > 0
      · rw [if_pos hc] at h
        cases hrem : (ListDict.removeE
            (st.risk_group (st.infected_neighbor_count w₀)) w₀) with
        | error e =>
          rw [hrem] at h
          dsimp only at h
          cases h
        | ok g =>
          rw [hrem] at h
          dsimp only at h
          obtain ⟨hat1, hwn, -, -, -⟩ := GrpAt_remove hat hrem
          have hat2 := GrpAt_update_count hat1 (Or.inr rfl)
            (st.infected_neighbor_count w₀ + 1)
          have hat3 := GrpAt_add hat2 hwn hS
            (Function.update_same w₀ (st.infected_neighbor_count w₀ + 1)
              st.infected_neighbor_count)
            (by have := hnn w₀; omega) not_false
          have hinv1 : GrpInv G
              { st with
                infected_neighbor_count := Function.update
                  st.infected_neighbor_count w₀
                  (st.infected_neighbor_count w₀ + 1),
                risk_group := Function.update
                  (Function.update st.risk_group
                    (st.infected_neighbor_count w₀) g)
                  (st.infected_neighbor_count w₀ + 1)
                  ((Function.update st.risk_group
                      (st.infected_neighbor_count w₀) g
                    (st.infected_neighbor_count w₀ + 1)).add w₀) } := by
            refine ⟨?_, hat3⟩
            intro w
            dsimp only
            rw [Function.update_apply]
            by_cases hww : w = w₀
            · rw [if_pos hww]
              have := hnn w₀
              omega
            · rw [if_neg hww]
              exact hnn w
          obtain ⟨hinv', hform⟩ := ih _ _
            (fun u hu => hmem u (List.mem_cons_of_mem _ hu)) hinv1 h
          have hstep : ∀ w, st'.infected_neighbor_count w =
              Function.update st.infected_neighbor_count w₀
                (st.infected_neighbor_count w₀ + 1) w +
              (if st.status w = Status.S then (occ w ws : ℤ) else 0) := hform
          exact ⟨hinv', bump_count_combine hstep hS⟩
      · rw [if_neg hc] at h
        dsimp only at h
        have hc0 : st.infected_neighbor_count w₀ < 1 := by omega
        have hat1 := GrpAt_exclude hat hc0
        have hat2 := GrpAt_update_count hat1 (Or.inr rfl)
          (st.infected_neighbor_count w₀ + 1)
        have hat3 := GrpAt_add hat2 (hmem w₀ (List.mem_cons_self _ _)) hS
          (Function.update_same w₀ (st.infected_neighbor_count w₀ + 1)
            st.infected_neighbor_count)
          (by have := hnn w₀; omega) not_false
        have hinv1 : GrpInv G
            { st with
              infected_neighbor_count := Function.update
                st.infected_neighbor_count w₀
                (st.infected_neighbor_count w₀ + 1),
              risk_group := Function.update st.risk_group
                (st.infected_neighbor_count w₀ + 1)
                ((st.risk_group (st.infected_neighbor_count w₀ + 1)).add w₀) } := by
          refine ⟨?_, hat3⟩
          intro w
          dsimp only
          rw [Function.update_apply]
          by_cases hww : w = w₀
          · rw [if_pos hww]
            have := hnn w₀
            omega
          · rw [if_neg hww]
            exact hnn w
        obtain ⟨hinv', hform⟩ := ih _ _
          (fun u hu => hmem u (List.mem_cons_of_mem _ hu)) hinv1 h
        have hstep : ∀ w, st'.infected_neighbor_count w =
            Function.update st.infected_neighbor_count w₀
              (st.infected_neighbor_count w₀ + 1) w +
            (if st.status w = Status.S then (occ w ws : ℤ) else 0) := hform
        exact ⟨hinv', bump_count_combine hstep hS⟩
    · rw [if_neg hS] at h
      obtain ⟨hinv', hform⟩ := ih _ _
        (fun u hu => hmem u (List.mem_cons_of_mem _ hu)) hinv h
      exact ⟨hinv', skip_count_combine hform hS⟩

/-- The neighbor loop of `_Gillespie_Recover_SIS_`: the recovering node
stays excluded, each susceptible node drops by its occurrences in the
processed list, and the recovering node's count gains one per infected
entry processed. -/
theorem gRecoverSISNbrLoop_spec {G : FGraph} (x : ℕ) :
    ∀ (ws : List ℕ) (st st' : GState), st.status x = Status.S →
      GrpInvX G x st → gRecoverSISNbrLoop x ws st = Except.ok st' →
      GrpInvX G x st' ∧
        (∀ w, w ≠ x → st'.infected_neighbor_count w =
          st.infected_neighbor_count w -
            (if st.status w = Status.S then (occ w ws : ℤ) else 0)) ∧
        st'.infected_neighbor_count x = st.infected_neighbor_count x +
          (ws.countP (fun u => decide (st.status u = Status.I)) : ℤ) := by
  intro ws
  induction ws with
  | nil =>
    intro st st' _ hinv h
    injection h with h
    subst h
    refine ⟨hinv, fun w _ => ?_, ?_⟩
    · by_cases hs : st.status w = Status.S
      · rw [if_pos hs]
        have h0 : occ w ([] : List ℕ) = 0 := rfl
        rw [h0]
        simp
      · rw [if_neg hs]
        simp
    · have h0 : ([] : List ℕ).countP
          (fun u => decide (st.status u = Status.I)) = 0 := rfl
      rw [h0]
      simp
  | cons w₀ ws ih =>
    intro st st' hx hinv h
    unfold gRecoverSISNbrLoop at h
    by_cases hw0x : w₀ = x
    · rw [if_pos hw0x] at h
      obtain ⟨hinv', hform, hformx⟩ := ih _ _ hx hinv h
      refine ⟨hinv', ?_, ?_⟩
      · intro w hwx
        rw [hform w hwx, occ_cons]
        by_cases hs : st.status w = Status.S
        · rw [if_pos hs, if_pos hs, if_neg (fun e => hwx (e.symm.trans hw0x))]
          push_cast
          ring
        · rw [if_neg hs, if_neg hs]
      · rw [hformx, List.countP_cons]
        simp only [decide_eq_true_eq]
        rw [if_neg (fun e => by rw [hw0x, hx] at e; cases e)]
        push_cast
        ring
    · rw [if_neg hw0x] at h
      by_cases hI : st.status w₀ = Status.I
      · rw [if_pos hI] at h
        dsimp only at h
        obtain ⟨hnn, hat⟩ := hinv
        have hinv1 : GrpInvX G x
            { st with
              infected_neighbor_count := Function.update
                st.infected_neighbor_count x
                (st.infected_neighbor_count x + 1) } := by
          refine ⟨?_, GrpAt_update_count hat rfl _⟩
          intro w
          dsimp only
          rw [Function.update_apply]
          by_cases hwx2 : w = x
          · rw [if_pos hwx2]
            have := hnn x
            omega
          · rw [if_neg hwx2]
            exact hnn w
        obtain ⟨hinv', hform, hformx⟩ := ih _ _ (by exact hx) hinv1 h
        refine ⟨hinv', ?_, ?_⟩
        · have hstep : ∀ w, w ≠ x → st'.infected_neighbor_count w =
              Function.update st.infected_neighbor_count x
                (st.infected_neighbor_count x + 1) w -
                (if st.status w = Status.S then (occ w ws : ℤ) else 0) := hform
          have hstep2 : ∀ w, w ≠ x → st'.infected_neighbor_count w =
              st.infected_neighbor_count w -
                (if st.status w = Status.S then (occ w ws : ℤ) else 0) := by
            intro w hwx
            rw [hstep w hwx, Function.update_apply, if_neg hwx]
          exact skip_drop_combine hstep2 (fun e => by rw [e] at hI; cases hI)
        · have hfx : st'.infected_neighbor_count x =
              Function.update st.infected_neighbor_count x
                (st.infected_neighbor_count x + 1) x +
                (ws.countP (fun u => decide (st.status u = Status.I)) : ℤ) := hformx
          rw [Function.update_same] at hfx
          rw [hfx, List.countP_cons]
          simp only [decide_eq_true_eq]
          rw [if_pos hI]
          push_cast
          ring
      · rw [if_neg hI] at h
        dsimp only at h
        obtain ⟨hnn, hat⟩ := hinv
        cases hrem : (ListDict.removeE
            (st.risk_group (st.infected_neighbor_count w₀)) w₀) with
        | error e =>
          rw [hrem] at h
          dsimp only at h
          cases h
        | ok g =>
          rw [hrem] at h
          dsimp only at h
          obtain ⟨hat1, hwn, hS0, -, hk1⟩ := GrpAt_remove hat hrem
          have hat2 := GrpAt_update_count hat1 (Or.inr rfl)
            (st.infected_neighbor_count w₀ - 1)
          by_cases hcpos : st.infected_neighbor_count w₀ - 1 > 0
          · rw [if_pos hcpos] at h
            have hat3 := GrpAt_add hat2 hwn hS0
              (Function.update_same w₀ (st.infected_neighbor_count w₀ - 1)
                st.infected_neighbor_count)
              (by omega) hw0x
            have hinv1 : GrpInvX G x
                { st with
                  infected_neighbor_count := Function.update
                    st.infected_neighbor_count w₀
                    (st.infected_neighbor_count w₀ - 1),
                  risk_group := Function.update
                    (Function.update st.risk_group
                      (st.infected_neighbor_count w₀) g)
                    (st.infected_neighbor_count w₀ - 1)
                    ((Function.update st.risk_group
                        (st.infected_neighbor_count w₀) g
                      (st.infected_neighbor_count w₀ - 1)).add w₀) } := by
              refine ⟨?_, hat3⟩
              intro w
              dsimp only
              rw [Function.update_apply]
              by_cases hww : w = w₀
              · rw [if_pos hww]
                omega
              · rw [if_neg hww]
                exact hnn w
            obtain ⟨hinv', hform, hformx⟩ := ih _ _ (by exact hx) hinv1 h
            refine ⟨hinv', ?_, ?_⟩
            · have hstep : ∀ w, w ≠ x → st'.infected_neighbor_count w =
                  Function.update st.infected_neighbor_count w₀
                    (st.infected_neighbor_count w₀ - 1) w -
                    (if st.status w = Status.S then (occ w ws : ℤ) else 0) := hform
              exact drop_count_combine hstep hS0
            · have hfx : st'.infected_neighbor_count x =
                  Function.update st.infected_neighbor_count w₀
                    (st.infected_neighbor_count w₀ - 1) x +
                    (ws.countP (fun u => decide (st.status u = Status.I)) : ℤ) :=
                hformx
              rw [Function.update_apply, if_neg (fun e => hw0x e.symm)] at hfx
              rw [hfx, List.countP_cons]
              simp only [decide_eq_true_eq]
              rw [if_neg hI]
              push_cast
              ring
          · rw [if_neg hcpos] at h
            have hat3 := GrpAt_unexclude hat2
              (by rw [Function.update_same]; omega)
            have hinv1 : GrpInvX G x
                { st with
                  infected_neighbor_count := Function.update
                    st.infected_neighbor_count w₀
                    (st.infected_neighbor_count w₀ - 1),
                  risk_group := Function.update st.risk_group
                    (st.infected_neighbor_count w₀) g } := by
              refine ⟨?_, hat3⟩
              intro w
              dsimp only
              rw [Function.update_apply]
              by_cases hww : w = w₀
              · rw [if_pos hww]
                omega
              · rw [if_neg hww]
                exact hnn w
            obtain ⟨hinv', hform, hformx⟩ := ih _ _ (by exact hx) hinv1 h
            refine ⟨hinv', ?_, ?_⟩
            · have hstep : ∀ w, w ≠ x → st'.infected_neighbor_count w =
                  Function.update st.infected_neighbor_count w₀
                    (st.infected_neighbor_count w₀ - 1) w -
                    (if st.status w = Status.S then (occ w ws : ℤ) else 0) := hform
              exact drop_count_combine hstep hS0
            · have hfx : st'.infected_neighbor_count x =
                  Function.update st.infected_neighbor_count w₀
                    (st.infected_neighbor_count w₀ - 1) x +
                    (ws.countP (fun u => decide (st.status u = Status.I)) : ℤ) :=
                hformx
              rw [Function.update_apply, if_neg (fun e => hw0x e.symm)] at hfx
              rw [hfx, List.countP_cons]
              simp only [decide_eq_true_eq]
              rw [if_neg hI]
              push_cast
              ring

theorem foldl_update_status (l : List ℕ) (f : ℕ → Status) (w : ℕ) :
    (l.foldl (fun s node => Function.update s node Status.I) f) w =
      if w ∈ l then Status.I else f w := by
  induction l generalizing f with
  | nil => simp
  | cons a l ih =>
    rw [List.foldl_cons, ih]
    by_cases hl : w ∈ l
    · rw [if_pos hl, if_pos (List.mem_cons_of_mem a hl)]
    · rw [if_neg hl, Function.update_apply]
      by_cases ha : w = a
      · rw [if_pos ha, if_pos (by rw [ha]; exact List.mem_cons_self a l)]
      · rw [if_neg ha, if_neg (fun hm => (List.mem_cons.1 hm).elim ha hl)]

theorem ListDict.empty_WF : ListDict.empty.WF := by
  intro x i
  simp [ListDict.empty]

theorem countP_mem_comm {l₁ l₂ : List ℕ} (h₁ : l₁.Nodup) (h₂ : l₂.Nodup) :
    l₁.countP (fun u => decide (u ∈ l₂)) =
      l₂.countP (fun u => decide (u ∈ l₁)) := by
  rw [List.countP_eq_length_filter, List.countP_eq_length_filter]
  apply length_eq_of_nodup_mem_iff (h₁.filter _) (h₂.filter _)
  intro y
  rw [List.mem_filter, List.mem_filter]
  simp only [decide_eq_true_eq]
  exact ⟨fun hp => ⟨hp.2, hp.1⟩, fun hp => ⟨hp.2, hp.1⟩⟩

/-- The outer loop of `_Gillespie_Initialize_` preserves the risk-group
invariant and raises each susceptible node's recorded count by the
number of processed initial infecteds adjacent to it. -/
theorem gInitOuterLoop_spec {G : FGraph} (hG : GraphOK G) :
    ∀ (us : List ℕ) (st st' : GState),
      GrpInv G st → gInitOuterLoop G us st = Except.ok st' →
      GrpInv G st' ∧
        ∀ w, st'.infected_neighbor_count w = st.infected_neighbor_count w +
          (if st.status w = Status.S then
            (us.countP (fun u => decide (w ∈ G.nbrs u)) : ℤ) else 0) := by
  intro us
  induction us with
  | nil =>
    intro st st' hinv h
    injection h with h
    subst h
    refine ⟨hinv, fun w => ?_⟩
    by_cases hs : st.status w = Status.S
    · rw [if_pos hs]
      have h0 : ([] : List ℕ).countP (fun u => decide (w ∈ G.nbrs u)) = 0 := rfl
      rw [h0]
      simp
    · rw [if_neg hs]
      simp
  | cons u us ih =>
    intro st st' hinv h
    unfold gInitOuterLoop at h
    cases hn : gInitNbrLoop (G.nbrs u) st with
    | error e => rw [hn] at h; cases h
    | ok st₁ =>
      rw [hn] at h
      dsimp only at h
      obtain ⟨hinv1, hform1⟩ := gInitNbrLoop_spec (G.nbrs u) st st₁
        (fun v hv => (hG.nbrs_mem u v hv).2) hinv hn
      obtain ⟨hinv', hform2⟩ := ih st₁ st' hinv1 h
      have hst : st₁.status = st.status :=
        congrArg (fun p => p.2.2.2.2.1) (gInitNbrLoop_frame _ _ _ hn)
      refine ⟨hinv', fun w => ?_⟩
      rw [hform2 w, hst, hform1 w, List.countP_cons]
      simp only [decide_eq_true_eq]
      by_cases hs : st.status w = Status.S
      · rw [if_pos hs, if_pos hs, if_pos hs]
        by_cases hm : w ∈ G.nbrs u
        · rw [occ_of_nodup_mem (hG.nbrs_nodup u) hm, if_pos hm]
          push_cast
          ring
        · rw [occ_of_not_mem hm, if_neg hm]
          push_cast
          ring
      · rw [if_neg hs, if_neg hs, if_neg hs]
        omega

/-- `_Gillespie_Initialize_` establishes the full SIS invariant when the
initial infecteds are distinct graph nodes. -/
theorem gillespieInit_SISInv {G : FGraph} (hG : GraphOK G) {init : List ℕ}
    {rfd : Bool} {st : GState}
    (hnd : init.Nodup) (hsub : ∀ u ∈ init, u ∈ G.nodes)
    (h : _Gillespie_Init_ G init rfd = Except.ok st) : SISInv G st := by
  unfold _Gillespie_Init_ at h
  dsimp only at h
  split at h
  · cases h
  · rename_i st₀ hol
    injection h with h
    subst h
    have hbase : GrpInv G
        { times := [0],
          Ss := [(G.order : ℤ) - init.length],
          Is := [(init.length : ℤ)],
          Rs := [0],
          status := init.foldl
            (fun s node => Function.update s node Status.I) (fun _ => Status.S),
          infected := init,
          infected_neighbor_count := fun _ => 0,
          risk_group := fun _ => ListDict.empty,
          infection_times := fun _ => [],
          recovery_times := fun _ => [],
          draws := 0 } := by
      refine ⟨fun w => le_refl 0, fun k => ListDict.empty_WF, fun k y => ?_⟩
      constructor
      · intro hy
        exact absurd hy (List.not_mem_nil y)
      · rintro ⟨-, -, a3, a4, -⟩
        have a3' : (0 : ℤ) = k := a3
        omega
    obtain ⟨hinv0, hform0⟩ := gInitOuterLoop_spec hG init _ st₀ hbase hol
    have hfr := gInitOuterLoop_frame G init _ st₀ hol
    have hstat : st₀.status = init.foldl
        (fun s node => Function.update s node Status.I) (fun _ => Status.S) :=
      congrArg (fun p => p.2.2.2.2.1) hfr
    have hinf : st₀.infected = init :=
      congrArg (fun p => p.2.2.2.2.2.1) hfr
    have hmain : SISInv G st₀ := by
      refine ⟨hinv0, ?_, ?_, ?_⟩
      · intro w hw hs
        have hsw : w ∉ init := by
          intro hmem2
          rw [hstat, foldl_update_status, if_pos hmem2] at hs
          cases hs
        have hform0w : st₀.infected_neighbor_count w =
            0 + (if (init.foldl (fun s node => Function.update s node Status.I)
                (fun _ => Status.S)) w = Status.S then
              (init.countP (fun u => decide (w ∈ G.nbrs u)) : ℤ) else 0) :=
          hform0 w
        rw [foldl_update_status, if_neg hsw, if_pos rfl] at hform0w
        have hcnt2 : nbrICount G st₀.status w =
            (G.nbrs w).countP (fun u => decide (u ∈ init)) := by
          unfold nbrICount
          apply List.countP_congr
          intro u hu
          simp only [decide_eq_true_eq]
          rw [hstat, foldl_update_status]
          constructor
          · intro he
            by_cases hui : u ∈ init
            · exact hui
            · rw [if_neg hui] at he
              cases he
          · intro hui
            rw [if_pos hui]
        have hswap : (G.nbrs w).countP (fun u => decide (u ∈ init)) =
            init.countP (fun u => decide (u ∈ G.nbrs w)) :=
          countP_mem_comm (hG.nbrs_nodup w) hnd
        have hsym : init.countP (fun u => decide (u ∈ G.nbrs w)) =
            init.countP (fun u => decide (w ∈ G.nbrs u)) := by
          apply List.countP_congr
          intro u hu
          simp only [decide_eq_true_eq]
          exact ⟨fun hh => hG.symm w u hh, fun hh => hG.symm u w hh⟩
        rw [hform0w, hcnt2, hswap, hsym]
        omega
      · intro w hw
        rw [hinf] at hw
        constructor
        · rw [hstat, foldl_update_status, if_pos hw]
        · exact hsub w hw
      · rw [hinf]
        exact hnd
    by_cases hb : rfd = true
    · rw [if_pos hb]
      exact hmain
    · rw [if_neg hb]
      exact hmain

/-- `gSetup` (initialization plus the first rate and next-time
computation) establishes the SIS invariant. -/
theorem gSetup_SISInv {rng : Rand} {G : FGraph} {tau gamma : ℚ}
    {init : List ℕ} {rfd : Bool} {L : GLoop} (hG : GraphOK G)
    (hnd : init.Nodup) (hsub : ∀ u ∈ init, u ∈ G.nodes)
    (h : gSetup rng G tau gamma init rfd = Except.ok L) : SISInv G L.st := by
  unfold gSetup at h
  split at h
  · cases h
  · rename_i st₀ hinit
    dsimp only at h
    split at h
    · cases h
    · rename_i e hexp
      injection h with h
      subst h
      have hm := gillespieInit_SISInv hG hnd hsub hinit
      exact hm

/-- The tail of `_Gillespie_Infect_` after the recipient is drawn,
asserted susceptible and removed from its stratum: the neighbor loop
restores the full SIS invariant. -/
theorem gillespieInfect_tail {G : FGraph} {st stM st' : GState}
    {recipient : ℕ} {nn : ℤ} {g : ListDict} (hG : GraphOK G)
    (hnn : ∀ w, 0 ≤ st.infected_neighbor_count w)
    (hat : GrpAt G st.status st.infected_neighbor_count st.risk_group
      (fun _ => False))
    (hcnt : ∀ w ∈ G.nodes, st.status w = Status.S →
      st.infected_neighbor_count w = (nbrICount G st.status w : ℤ))
    (hinf : ∀ w ∈ st.infected, st.status w = Status.I ∧ w ∈ G.nodes)
    (hnd : st.infected.Nodup)
    (hSrec : st.status recipient = Status.S)
    (hrem : (st.risk_group nn).removeE recipient = Except.ok g)
    (hstat : stM.status = Function.update st.status recipient Status.I)
    (hcnteq : stM.infected_neighbor_count = st.infected_neighbor_count)
    (hrisk : stM.risk_group = Function.update st.risk_group nn g)
    (hinfeq : stM.infected = st.infected ++ [recipient])
    (h : gInfectNbrLoop (G.nbrs recipient) stM = Except.ok st') :
    SISInv G st' := by
  obtain ⟨hat1, hwnR, -, -, -⟩ := GrpAt_remove hat hrem
  have hat2 := GrpAt_update_status hat1 (Or.inr rfl) Status.I
  have hat3 := GrpAt_unexclude_notS hat2
    (by rw [Function.update_same]; intro e; cases e)
  have hinvM : GrpInv G stM := by
    refine ⟨?_, ?_⟩
    · intro w
      rw [hcnteq]
      exact hnn w
    · rw [hstat, hcnteq, hrisk]
      exact hat3
  obtain ⟨hinv', hform⟩ := gInfectNbrLoop_spec (G.nbrs recipient) stM st'
    (fun v hv => (hG.nbrs_mem recipient v hv).2) hinvM h
  have hfr := gInfectNbrLoop_frame _ _ _ h
  have hstA : st'.status = stM.status := congrArg (fun p => p.2.2.2.2.1) hfr
  have hinA : st'.infected = stM.infected :=
    congrArg (fun p => p.2.2.2.2.2.1) hfr
  have hstat' : st'.status = Function.update st.status recipient Status.I := by
    rw [hstA, hstat]
  have hinf' : st'.infected = st.infected ++ [recipient] := by
    rw [hinA, hinfeq]
  refine ⟨hinv', ?_, ?_, ?_⟩
  · intro w hw hs
    have hwrec : w ≠ recipient := by
      intro e
      rw [hstat', e, Function.update_same] at hs
      cases hs
    rw [hstat', Function.update_apply, if_neg hwrec] at hs
    have hfw := hform w
    rw [hcnteq, hstat, Function.update_apply, if_neg hwrec, if_pos hs] at hfw
    have hnew : nbrICount G (Function.update st.status recipient Status.I) w =
        nbrICount G st.status w + occ recipient (G.nbrs w) :=
      countP_update_to_I st.status recipient
        (by rw [hSrec]; intro e; cases e) (G.nbrs w)
    have hocc : occ w (G.nbrs recipient) = occ recipient (G.nbrs w) := by
      by_cases hm : w ∈ G.nbrs recipient
      · rw [occ_of_nodup_mem (hG.nbrs_nodup recipient) hm,
          occ_of_nodup_mem (hG.nbrs_nodup w) (hG.symm recipient w hm)]
      · rw [occ_of_not_mem hm,
          occ_of_not_mem (fun hm2 => hm (hG.symm w recipient hm2))]
    rw [hstat', hnew, hfw, hcnt w hw hs, ← hocc]
    push_cast
    ring
  · intro w hw
    rw [hinf'] at hw
    rcases List.mem_append.1 hw with hm | hm
    · obtain ⟨hI, hN⟩ := hinf w hm
      have hwrec : w ≠ recipient := by
        intro e
        rw [e] at hI
        rw [hI] at hSrec
        cases hSrec
      rw [hstat', Function.update_apply, if_neg hwrec]
      exact ⟨hI, hN⟩
    · have he := List.mem_singleton.1 hm
      subst he
      rw [hstat', Function.update_same]
      exact ⟨rfl, hwnR⟩
  · rw [hinf', List.nodup_append]
    refine ⟨hnd, List.nodup_singleton recipient, ?_⟩
    intro a ha hb
    have he := List.mem_singleton.1 hb
    subst he
    have ha2 := (hinf a ha).1
    rw [ha2] at hSrec
    cases hSrec

/-- `_Gillespie_Infect_` preserves the SIS invariant (conditional on the
call returning). -/
theorem gillespieInfect_SISInv {rng : Rand} {G : FGraph} {t : ℚ} {SIR : Bool}
    {st st' : GState} (hG : GraphOK G) (hinv : SISInv G st)
    (h : _Gillespie_Infect_ rng G t SIR st = Except.ok st') : SISInv G st' := by
  obtain ⟨⟨hnn, hat⟩, hcnt, hinf, hnd⟩ := hinv
  unfold _Gillespie_Infect_ at h
  dsimp only at h
  split at h
  · cases h
  · rename_i recipient hchoose
    split at h
    · cases h
    · rename_i hSrec0
      have hSrec : st.status recipient = Status.S := not_not.1 hSrec0
      split at h
      · cases h
      · rename_i g hrem
        by_cases hb : SIR = true
        · rw [if_pos hb] at h
          exact gillespieInfect_tail hG hnn hat hcnt hinf hnd hSrec hrem
            (by rfl) (by rfl) (by rfl) (by rfl) h
        · rw [if_neg hb] at h
          exact gillespieInfect_tail hG hnn hat hcnt hinf hnd hSrec hrem
            (by rfl) (by rfl) (by rfl) (by rfl) h

/-- `_Gillespie_Recover_SIS_` preserves the SIS invariant (conditional on
the call returning). -/
theorem gillespieRecoverSIS_SISInv {rng : Rand} {G : FGraph} {t : ℚ}
    {rfd : Bool} {st st' : GState} (hG : GraphOK G) (hinv : SISInv G st)
    (h : _Gillespie_Recover_SIS_ rng G t rfd st = Except.ok st') :
    SISInv G st' := by
  obtain ⟨⟨hnn, hat⟩, hcnt, hinf, hnd⟩ := hinv
  unfold _Gillespie_Recover_SIS_ at h
  by_cases hassert : lastD st.Is ≠ (st.infected.length : ℤ)
  · rw [if_pos hassert] at h
    cases h
  · rw [if_neg hassert] at h
    by_cases hn : st.infected.length = 0
    · rw [if_pos hn] at h
      cases h
    · rw [if_neg hn] at h
      dsimp only at h
      split at h
      · rename_i recovering_node last_node hget hlast
        split at h
        · cases h
        · rename_i st₂ hloop
          injection h with h
          have hrecI := hinf recovering_node (List.get?_mem hget)
          obtain ⟨hnodup2, hnotin, hsub2⟩ := swapRemove_facts hnd hget hlast
          have hat1 := GrpAt_exclude_notS hat
            (by rw [hrecI.1]; intro e; cases e)
          have hat2 := GrpAt_update_status hat1 (Or.inr rfl) Status.S
          have hat3 := GrpAt_update_count hat2 (Or.inr rfl) 0
          have hat4 := GrpAt_congr hat3
            (fun y => ⟨fun hh => hh.elim False.elim id, Or.inr⟩)
          have hinvP : GrpInvX G recovering_node
              { st with
                infected := (st.infected.set
                  (rng.ints st.draws % st.infected.length) last_node).dropLast,
                Is := st.Is ++ [lastD st.Is - 1],
                status := Function.update st.status recovering_node Status.S,
                Ss := st.Ss ++ [lastD st.Ss + 1],
                times := st.times ++ [t],
                infected_neighbor_count := Function.update
                  st.infected_neighbor_count recovering_node 0,
                draws := st.draws + 1 } := by
            refine ⟨?_, hat4⟩
            intro w
            dsimp only
            rw [Function.update_apply]
            by_cases hwx : w = recovering_node
            · rw [if_pos hwx]
            · rw [if_neg hwx]
              exact hnn w
          obtain ⟨hinv2, hform2, hformx2⟩ :=
            gRecoverSISNbrLoop_spec recovering_node (G.nbrs recovering_node)
              _ st₂
              (by show Function.update st.status recovering_node Status.S
                    recovering_node = Status.S
                  rw [Function.update_same])
              (by exact hinvP) hloop
          have hfr := gRecoverSISNbrLoop_frame _ _ _ _ hloop
          have hstat2 : st₂.status =
              Function.update st.status recovering_node Status.S :=
            congrArg (fun p => p.2.2.2.2.1) hfr
          have hinf2 : st₂.infected = (st.infected.set
              (rng.ints st.draws % st.infected.length) last_node).dropLast :=
            congrArg (fun p => p.2.2.2.2.2.1) hfr
          obtain ⟨hinv2nn, hat2X⟩ := hinv2
          have hst' : st'.status = st₂.status ∧
              st'.infected_neighbor_count = st₂.infected_neighbor_count ∧
              st'.infected = st₂.infected ∧
              st'.risk_group =
                (if st₂.infected_neighbor_count recovering_node > 0
                  then Function.update st₂.risk_group
                    (st₂.infected_neighbor_count recovering_node)
                    ((st₂.risk_group
                        (st₂.infected_neighbor_count recovering_node)).add
                      recovering_node)
                  else st₂.risk_group) := by
            rw [← h]
            by_cases hcnt2 : st₂.infected_neighbor_count recovering_node > 0
            · rw [if_pos hcnt2, if_pos hcnt2]
              cases rfd
              · exact ⟨rfl, rfl, rfl, rfl⟩
              · exact ⟨rfl, rfl, rfl, rfl⟩
            · rw [if_neg hcnt2, if_neg hcnt2]
              cases rfd
              · exact ⟨rfl, rfl, rfl, rfl⟩
              · exact ⟨rfl, rfl, rfl, rfl⟩
          obtain ⟨hseq, hceq, hieq, hreq⟩ := hst'
          have hS2rec : st₂.status recovering_node = Status.S := by
            rw [hstat2, Function.update_same]
          refine ⟨⟨?_, ?_⟩, ?_, ?_, ?_⟩
          · intro w
            rw [hceq]
            exact hinv2nn w
          · rw [hseq, hceq, hreq]
            by_cases hcnt2 : st₂.infected_neighbor_count recovering_node > 0
            · rw [if_pos hcnt2]
              exact GrpAt_add
                (GrpAt_congr hat2X
                  (fun y => ⟨Or.inr, fun hh => hh.elim False.elim id⟩))
                hrecI.2 hS2rec rfl (by omega) not_false
            · rw [if_neg hcnt2]
              exact GrpAt_unexclude
                (GrpAt_congr hat2X
                  (fun y => ⟨Or.inr, fun hh => hh.elim False.elim id⟩))
                (by have := hinv2nn recovering_node; omega)
          · intro w hw hs
            by_cases hwrec : w = recovering_node
            · subst hwrec
              have hfx : st₂.infected_neighbor_count w =
                  Function.update st.infected_neighbor_count w 0 w +
                  ((G.nbrs w).countP
                    (fun u => decide ((Function.update st.status w
                      Status.S) u = Status.I)) : ℤ) := hformx2
              rw [Function.update_same] at hfx
              rw [hceq, hseq, hstat2]
              show st₂.infected_neighbor_count w =
                ((G.nbrs w).countP
                  (fun u => decide ((Function.update st.status w
                    Status.S) u = Status.I)) : ℤ)
              rw [hfx]
              omega
            · have hSw : st.status w = Status.S := by
                rw [hseq, hstat2, Function.update_apply, if_neg hwrec] at hs
                exact hs
              have hfw : st₂.infected_neighbor_count w =
                  Function.update st.infected_neighbor_count recovering_node 0 w -
                  (if (Function.update st.status recovering_node Status.S) w =
                      Status.S
                    then (occ w (G.nbrs recovering_node) : ℤ) else 0) :=
                hform2 w hwrec
              rw [Function.update_apply, Function.update_apply, if_neg hwrec,
                if_neg hwrec, if_pos hSw] at hfw
              have hold := hcnt w hw hSw
              have hnewc : nbrICount G st.status w =
                  nbrICount G (Function.update st.status recovering_node
                    Status.S) w + occ recovering_node (G.nbrs w) :=
                countP_update_to_S st.status recovering_node hrecI.1 (G.nbrs w)
              have hocc : occ w (G.nbrs recovering_node) =
                  occ recovering_node (G.nbrs w) := by
                by_cases hm : w ∈ G.nbrs recovering_node
                · rw [occ_of_nodup_mem (hG.nbrs_nodup recovering_node) hm,
                    occ_of_nodup_mem (hG.nbrs_nodup w)
                      (hG.symm recovering_node w hm)]
                · rw [occ_of_not_mem hm,
                    occ_of_not_mem
                      (fun hm2 => hm (hG.symm w recovering_node hm2))]
              rw [hceq, hseq, hstat2, hfw, hold]
              omega
          · intro w hw
            rw [hieq, hinf2] at hw
            have hmo := hsub2 w hw
            obtain ⟨hI, hN⟩ := hinf w hmo
            have hwrec : w ≠ recovering_node := by
              intro e
              rw [e] at hw
              exact hnotin hw
            rw [hseq, hstat2, Function.update_apply, if_neg hwrec]
            exact ⟨hI, hN⟩
          · rw [hieq, hinf2]
            exact hnodup2
      · cases h

/-- One SIS Gillespie loop body preserves the SIS invariant. -/
theorem gBody_SISInv {rng : Rand} {G : FGraph} {tau gamma : ℚ} {rfd : Bool}
    {L L' : GLoop} (hG : GraphOK G) (hinv : SISInv G L.st)
    (h : gBody rng G tau gamma false rfd L = Except.ok L') : SISInv G L'.st := by
  unfold gBody at h
  cases hnt : L.next_time with
  | top => rw [hnt] at h; cases h
  | coe t =>
    rw [hnt] at h
    dsimp only at h
    by_cases hbr : rng.unis L.st.draws * L.total_rate < L.total_rec_rate
    · rw [if_pos hbr] at h
      rw [if_neg Bool.false_ne_true] at h
      cases hrc : _Gillespie_Recover_SIS_ rng G t rfd
          { L.st with draws := L.st.draws + 1 } with
      | error e => rw [hrc] at h; cases h
      | ok st2 =>
        rw [hrc] at h
        dsimp only at h
        have hinv2 : SISInv G st2 :=
          gillespieRecoverSIS_SISInv hG (by exact hinv) hrc
        by_cases hpos : (0 : ℚ) < gamma * (lastD st2.Is : ℚ) +
            tau * (riskSum G.order st2.risk_group : ℚ)
        · rw [if_pos hpos] at h
          unfold expovariate at h
          rw [if_neg (ne_of_gt hpos)] at h
          dsimp only at h
          injection h with h
          subst h
          exact hinv2
        · rw [if_neg hpos] at h
          injection h with h
          subst h
          exact hinv2
    · rw [if_neg hbr] at h
      cases hic : _Gillespie_Infect_ rng G t false
          { L.st with draws := L.st.draws + 1 } with
      | error e => rw [hic] at h; cases h
      | ok st2 =>
        rw [hic] at h
        dsimp only at h
        have hinv2 : SISInv G st2 :=
          gillespieInfect_SISInv hG (by exact hinv) hic
        by_cases hpos : (0 : ℚ) < L.total_rec_rate +
            tau * (riskSum G.order st2.risk_group : ℚ)
        · rw [if_pos hpos] at h
          unfold expovariate at h
          rw [if_neg (ne_of_gt hpos)] at h
          dsimp only at h
          injection h with h
          subst h
          exact hinv2
        · rw [if_neg hpos] at h
          injection h with h
          subst h
          exact hinv2

/-- Every reachable iteration boundary of `Gillespie_SIS` satisfies the
SIS invariant. -/
theorem gSISBoundary_SISInv {rng : Rand} {G : FGraph} {tau gamma : ℚ}
    {init : List ℕ} {rfd : Bool} {tmax : WithTop ℚ} (hG : GraphOK G)
    (hnd : init.Nodup) (hsub : ∀ u ∈ init, u ∈ G.nodes) :
    ∀ (n : ℕ) (L : GLoop),
      gSISBoundary rng G tau gamma init rfd tmax n = Except.ok L →
      SISInv G L.st
  | 0, L, h => gSetup_SISInv hG hnd hsub h
  | n + 1, L, h => by
    unfold gSISBoundary at h
    split at h
    · cases h
    · rename_i L₀ hb
      split at h
      · exact gBody_SISInv hG
          (gSISBoundary_SISInv hG hnd hsub n L₀ hb) h
      · injection h with h
        subst h
        exact gSISBoundary_SISInv hG hnd hsub n L₀ hb

/-!
## Claims

Each claim of the specification audit is settled by exactly one theorem
below (with a witness where the theorem carries hypotheses).
-/

/-- **C1** (counterpart on the code).  On the path `0 — 1`, with realized
draws giving every node duration `1` and every directed pair delay `5`,
the percolation network `H` has no edges, so the set of nodes reachable
from the initial infected `0` in `H` (including `0` itself) is `{0}`.
The code instead returns `{1}`: `get_infected_nodes` passes the original
graph `G` — not `H` — to `_out_component_` (line 771), and
`_out_component_` takes a union of `nx.descendants`, which never
contains the source.  This contradicts the claim (and the source's own
docstrings: "finds all eventually infected nodes", "including source"),
so the claim is recorded as a code bug, with this theorem evaluating the
code and the claimed set at the failing input. -/
theorem C1_get_infected_nodes_bug :
    get_infected_nodes pathGraph2 (fun _ => 1) (fun _ _ => 5) [0] = [1] ∧
    claimReachableSet
      (directed_percolate_network pathGraph2 (fun _ => 1) (fun _ _ => 5)) [0] = [0] ∧
    get_infected_nodes pathGraph2 (fun _ => 1) (fun _ _ => 5) [0] ≠
      claimReachableSet
        (directed_percolate_network pathGraph2 (fun _ => 1) (fun _ _ => 5)) [0] := by
  refine ⟨rfl, rfl, by decide⟩

/-- **C6**.  Every entry point raises `EoNError` when both
`initial_infecteds` and `rho` are supplied; the check is the first
statement executed (in `fast_SIR` it is the first statement of the
`fast_nonMarkov_SIR` it delegates to, after only the pure construction
of the rate functions), so the error value is returned with no
simulation state built and no partial trajectory. -/
theorem C6_both_initial_and_rho_is_error :
    (∀ rng G tau gamma init rho tmax sample fuel,
      fast_SIR rng G tau gamma (some init) (some rho) tmax sample fuel =
        Except.error eonBothErrorMsg) ∧
    (∀ G h init rho tmax sample Qpre fuel,
      fast_nonMarkov_SIR G h (some init) (some rho) tmax sample Qpre fuel =
        Except.error eonBothErrorMsg) ∧
    (∀ rng G tau gamma init rho tmax sample fuel,
      fast_SIS rng G tau gamma (some init) (some rho) tmax sample fuel =
        Except.error eonBothErrorMsg) ∧
    (∀ rng G tau gamma init rho tmax sample rfd fuel,
      Gillespie_SIR rng G tau gamma (some init) (some rho) tmax sample rfd fuel =
        Except.error eonBothErrorMsg) ∧
    (∀ rng G tau gamma init rho tmax sample rfd fuel,
      Gillespie_SIS rng G tau gamma (some init) (some rho) tmax sample rfd fuel =
        Except.error eonBothErrorMsg) := by
  refine ⟨?_, ?_, ?_, ?_, ?_⟩ <;> intros <;>
    simp [fast_SIR, fast_nonMarkov_SIR, fast_SIS, Gillespie_SIR, Gillespie_SIS]

/-- **C7**.  `myQueue.add` is a no-op exactly when the event time is at
or beyond `tmax`, and otherwise inserts the event; consequently, if
every stored event is below `tmax`, this is still true after any `add`,
so no event at or beyond `tmax` is ever stored (the queue starts
empty). -/
theorem C7_myQueue_add_spec :
    ∀ {α : Type} (q : myQueue α) (event : Event α),
      (q.tmax ≤ (event.time : WithTop ℚ) → q.add event = q) ∧
      ((event.time : WithTop ℚ) < q.tmax →
        (q.add event).Q = q.Q ++ [event] ∧ (q.add event).tmax = q.tmax) ∧
      ((∀ e ∈ q.Q, (e.time : WithTop ℚ) < q.tmax) →
        ∀ e ∈ (q.add event).Q, (e.time : WithTop ℚ) < (q.add event).tmax) := by
  intro α q event
  refine ⟨fun hle => ?_, fun hlt => ?_, fun hall e he => ?_⟩
  · unfold myQueue.add
    rw [if_neg (not_lt.mpr hle)]
  · unfold myQueue.add
    rw [if_pos hlt]
    exact ⟨rfl, rfl⟩
  · unfold myQueue.add at he ⊢
    by_cases hlt : (event.time : WithTop ℚ) < q.tmax
    · rw [if_pos hlt] at he ⊢
      simp only [List.mem_append, List.mem_singleton] at he
      rcases he with h | h
      · exact hall e h
      · subst h; exact hlt
    · rw [if_neg hlt] at he ⊢
      exact hall e he

/-- Witness for C7: at `tmax = 5`, adding an event at time `7` is a
no-op and adding an event at time `3` appends it. -/
theorem C7_myQueue_add_spec_witness :
    ((({ Q := [], tmax := (5 : ℚ) } : myQueue SIRev).tmax ≤ ((7 : ℚ) : WithTop ℚ)) ∧
      ({ Q := [], tmax := (5 : ℚ) } : myQueue SIRev).add ⟨7, SIRev.trans 0⟩ =
        { Q := [], tmax := (5 : ℚ) }) ∧
    ((((3 : ℚ) : WithTop ℚ) < ({ Q := [], tmax := (5 : ℚ) } : myQueue SIRev).tmax) ∧
      (({ Q := [], tmax := (5 : ℚ) } : myQueue SIRev).add ⟨3, SIRev.trans 0⟩).Q =
        [⟨3, SIRev.trans 0⟩]) := by
  constructor
  · exact ⟨by decide, (C7_myQueue_add_spec _ _).1 (by decide)⟩
  · exact ⟨by decide, ((C7_myQueue_add_spec _ _).2.1 (by decide)).1⟩

/-- **C8**.  `_process_trans_SIR_` on a target whose status is not `'S'`
returns the state unchanged: trajectory lists, status, recovery and
predicted-infection times, queue and draw counter are all exactly as
before. -/
theorem C8_process_trans_SIR_stale_noop :
    ∀ rng G trans_rate_fxn rec_rate_fxn time node (st : FSIRState),
      st.status node ≠ Status.S →
      _process_trans_SIR_ rng G trans_rate_fxn rec_rate_fxn time node st =
        Except.ok st := by
  intro rng G trF recF time node st h
  unfold _process_trans_SIR_
  rw [if_neg h]

/-- Witness for C8: a state whose every node is infected is untouched by
a transmission event. -/
theorem C8_process_trans_SIR_stale_noop_witness :
    (({ status := fun _ => Status.I, rec_time := fun _ => -1,
        pred_inf_time := fun _ => (⊤ : WithTop ℚ),
        times := [0], Ss := [1], Is := [0], Rs := [0],
        Q := { Q := [], tmax := ⊤ }, draws := 0 } : FSIRState).status 0 ≠ Status.S) ∧
    _process_trans_SIR_ rngW singletonGraph (fun _ _ => 1) (fun _ => 1) 0 0
      { status := fun _ => Status.I, rec_time := fun _ => -1,
        pred_inf_time := fun _ => (⊤ : WithTop ℚ),
        times := [0], Ss := [1], Is := [0], Rs := [0],
        Q := { Q := [], tmax := ⊤ }, draws := 0 } =
      Except.ok
        { status := fun _ => Status.I, rec_time := fun _ => -1,
          pred_inf_time := fun _ => (⊤ : WithTop ℚ),
          times := [0], Ss := [1], Is := [0], Rs := [0],
          Q := { Q := [], tmax := ⊤ }, draws := 0 } :=
  ⟨by decide, C8_process_trans_SIR_stale_noop rngW singletonGraph _ _ 0 0 _ (by decide)⟩

/-- **C9**.  `_ListDict_.remove` on an absent item: the
`item_to_position.pop(item)` call raises `KeyError` as the first
statement of the method, so the call fails and the container — both the
items array and the position mapping — is exactly as before the call. -/
theorem C9_ListDict_remove_absent :
    ∀ (d : ListDict) (item : ℕ), d.item_to_position item = none →
      d.remove item = (Except.error keyErrorMsg, d) := by
  intro d item h
  unfold ListDict.remove
  rw [h]

/-- Witness for C9: removing from the empty container. -/
theorem C9_ListDict_remove_absent_witness :
    ListDict.empty.item_to_position 0 = none ∧
    ListDict.empty.remove 0 = (Except.error keyErrorMsg, ListDict.empty) :=
  ⟨rfl, C9_ListDict_remove_absent ListDict.empty 0 rfl⟩

/-- **C10**.  `pop_and_run` on an empty queue: `heapq.heappop` raises
`IndexError` as the first statement, before any event handler can be
looked up or invoked, so both engines' `pop_and_run` return the
`IndexError` and no handler runs (the queue, which was empty, was never
modified). -/
theorem C10_pop_and_run_empty_IndexError :
    (∀ {α : Type} (q : myQueue α), q.Q = [] →
      q.pop = Except.error indexErrorMsg) ∧
    (∀ (h : TransHandler) (st : FSIRState), st.Q.Q = [] →
      fastPopAndRun h st = Except.error indexErrorMsg) ∧
    (∀ rng G trans_rate_fxn rec_rate_fxn (st : FSISState), st.Q.Q = [] →
      fastSISPopAndRun rng G trans_rate_fxn rec_rate_fxn st =
        Except.error indexErrorMsg) := by
  have hpop : ∀ {α : Type} (q : myQueue α), q.Q = [] →
      q.pop = Except.error indexErrorMsg := by
    intro α q h
    unfold myQueue.pop
    rw [h]
    rfl
  refine ⟨hpop, fun h st hQ => ?_, fun rng G trF recF st hQ => ?_⟩
  · unfold fastPopAndRun
    rw [hpop st.Q hQ]
  · unfold fastSISPopAndRun
    rw [hpop st.Q hQ]

/-- Witness for C10: the empty queue. -/
theorem C10_pop_and_run_empty_IndexError_witness :
    (({ Q := [], tmax := ⊤ } : myQueue SIRev).Q = []) ∧
    ({ Q := [], tmax := ⊤ } : myQueue SIRev).pop = Except.error indexErrorMsg :=
  ⟨rfl, C10_pop_and_run_empty_IndexError.1 _ rfl⟩

/-- **C3**: conservation.  Whenever `fast_SIR` or `Gillespie_SIR` returns a
trajectory `(times, S, I, R)`, the three count lists have equal length and
`S[t] + I[t] + R[t] = N` (the order of `G`) at every index `t`; whenever
`fast_SIS` or `Gillespie_SIS` returns `(times, S, I)`, the two count lists
have equal length and `S[t] + I[t] = N` at every index `t`.  (No
hypothesis on the initial infecteds is needed: each handler moves exactly
one node between compartments, so the identity established at
initialization is preserved by every event.) -/
theorem C3_conservation :
    (∀ (rng : Rand) (G : FGraph) (tau gamma : ℚ) (init : Option (List ℕ))
        (rho : Option ℚ) (tmax : WithTop ℚ) (sample : ℕ → List ℕ) (fuel : ℕ)
        (ts : List ℚ) (Ss Is Rs : List ℤ),
      fast_SIR rng G tau gamma init rho tmax sample fuel =
          Except.ok (ts, Ss, Is, Rs) →
        Ss.length = Is.length ∧ Ss.length = Rs.length ∧
          ∀ i < Ss.length, entry Ss i + entry Is i + entry Rs i =
            (G.order : ℤ)) ∧
    (∀ (rng : Rand) (G : FGraph) (tau gamma : ℚ) (init : Option (List ℕ))
        (rho : Option ℚ) (tmax : WithTop ℚ) (sample : ℕ → List ℕ) (fuel : ℕ)
        (ts : List ℚ) (Ss Is : List ℤ),
      fast_SIS rng G tau gamma init rho tmax sample fuel =
          Except.ok (ts, Ss, Is) →
        Ss.length = Is.length ∧
          ∀ i < Ss.length, entry Ss i + entry Is i = (G.order : ℤ)) ∧
    (∀ (rng : Rand) (G : FGraph) (tau gamma : ℚ) (init : Option (List ℕ))
        (rho : Option ℚ) (tmax : WithTop ℚ) (sample : ℕ → List ℕ)
        (rfd : Bool) (fuel : ℕ) (ts : List ℚ) (Ss Is Rs : List ℤ),
      Gillespie_SIR rng G tau gamma init rho tmax sample rfd fuel =
          Except.ok (ts, Ss, Is, Rs) →
        Ss.length = Is.length ∧ Ss.length = Rs.length ∧
          ∀ i < Ss.length, entry Ss i + entry Is i + entry Rs i =
            (G.order : ℤ)) ∧
    (∀ (rng : Rand) (G : FGraph) (tau gamma : ℚ) (init : Option (List ℕ))
        (rho : Option ℚ) (tmax : WithTop ℚ) (sample : ℕ → List ℕ)
        (rfd : Bool) (fuel : ℕ) (ts : List ℚ) (Ss Is : List ℤ),
      Gillespie_SIS rng G tau gamma init rho tmax sample rfd fuel =
          Except.ok (ts, Ss, Is) →
        Ss.length = Is.length ∧
          ∀ i < Ss.length, entry Ss i + entry Is i = (G.order : ℤ)) := by
  refine ⟨?_, ?_, ?_, ?_⟩
  · intro rng G tau gamma init rho tmax sample fuel ts Ss Is Rs h
    unfold fast_SIR fast_nonMarkov_SIR at h
    split at h
    · cases h
    · dsimp only at h
      exact fastSIR_run_cons h
  · intro rng G tau gamma init rho tmax sample fuel ts Ss Is h
    unfold fast_SIS at h
    split at h
    · cases h
    · dsimp only at h
      exact fastSIS_run_cons h
  · intro rng G tau gamma init rho tmax sample rfd fuel ts Ss Is Rs h
    unfold Gillespie_SIR at h
    split at h
    · cases h
    · dsimp only at h
      exact gillespieSIR_run_cons h
  · intro rng G tau gamma init rho tmax sample rfd fuel ts Ss Is h
    unfold Gillespie_SIS at h
    split at h
    · cases h
    · dsimp only at h
      exact gillespieSIS_run_cons h

/-- Witness for C3: concrete terminated runs of all four drivers on the
one-node graph, with the conservation identity read off at every index. -/
theorem C3_conservation_witness :
    (fast_SIR rngW singletonGraph 1 1 (some [0]) none ⊤ (fun _ => []) 5 =
        Except.ok ([0, 1], [0, 0], [1, 0], [0, 1]) ∧
      ∀ i < ([0, 0] : List ℤ).length,
        entry [0, 0] i + entry [1, 0] i + entry [0, 1] i =
          (singletonGraph.order : ℤ)) ∧
    (fast_SIS rngW singletonGraph 1 1 (some [0]) none (100 : ℚ) (fun _ => []) 10 =
        Except.ok ([0, 1], [0, 1], [1, 0]) ∧
      ∀ i < ([0, 1] : List ℤ).length,
        entry [0, 1] i + entry [1, 0] i = (singletonGraph.order : ℤ)) ∧
    (Gillespie_SIR rngW singletonGraph 1 1 (some [0]) none ⊤ (fun _ => [])
          false 10 = Except.ok ([0, 1], [0, 0], [1, 0], [0, 1]) ∧
      ∀ i < ([0, 0] : List ℤ).length,
        entry [0, 0] i + entry [1, 0] i + entry [0, 1] i =
          (singletonGraph.order : ℤ)) ∧
    (Gillespie_SIS rngW singletonGraph 1 1 (some [0]) none (100 : ℚ)
          (fun _ => []) false 10 = Except.ok ([0, 1], [0, 1], [1, 0]) ∧
      ∀ i < ([0, 1] : List ℤ).length,
        entry [0, 1] i + entry [1, 0] i = (singletonGraph.order : ℤ)) := by
  refine ⟨⟨by with_unfolding_all rfl, ?_⟩, ⟨by with_unfolding_all rfl, ?_⟩,
    ⟨by with_unfolding_all rfl, ?_⟩, ⟨by with_unfolding_all rfl, ?_⟩⟩
  · exact (C3_conservation.1 rngW singletonGraph 1 1 (some [0]) none ⊤
      (fun _ => []) 5 _ _ _ _ (by with_unfolding_all rfl)).2.2
  · exact (C3_conservation.2.1 rngW singletonGraph 1 1 (some [0]) none
      (100 : ℚ) (fun _ => []) 10 _ _ _ (by with_unfolding_all rfl)).2
  · exact (C3_conservation.2.2.1 rngW singletonGraph 1 1 (some [0]) none ⊤
      (fun _ => []) false 10 _ _ _ _ (by with_unfolding_all rfl)).2.2
  · exact (C3_conservation.2.2.2 rngW singletonGraph 1 1 (some [0]) none
      (100 : ℚ) (fun _ => []) false 10 _ _ _ (by with_unfolding_all rfl)).2

/-- A throwaway Gillespie loop state (default for `okOr`). -/
def dummyGLoop : GLoop :=
  ⟨{ times := [], Ss := [], Is := [], Rs := [], status := fun _ => Status.S,
     infected := [], infected_neighbor_count := fun _ => 0,
     risk_group := fun _ => ListDict.empty, infection_times := fun _ => [],
     recovery_times := fun _ => [], draws := 0 }, 0, 0, ⊤⟩

theorem singletonGraph_ok : GraphOK singletonGraph :=
  ⟨List.nodup_singleton 0, fun _ => List.nodup_nil,
    fun _ w hw => absurd hw (List.not_mem_nil w),
    fun _ w hw => absurd hw (List.not_mem_nil w)⟩

theorem singletonGraph_noSelfLoops : NoSelfLoops singletonGraph :=
  fun v hv => absurd hv (List.not_mem_nil v)

/-- **C5**: in `Gillespie_SIS` on a graph with no self-loops and
distinct initial infecteds (all graph nodes), at every iteration
boundary of the main simulation loop — after initialization and after
each infection or recovery step — `sum_k k·|risk_group[k]|` equals the
number of adjacent (infected, susceptible) node pairs of the graph. -/
theorem C5_risk_group_sum_counts_IS_pairs
    (rng : Rand) (G : FGraph) (tau gamma : ℚ) (initial_infecteds : List ℕ)
    (return_full_data : Bool) (tmax : WithTop ℚ) (n : ℕ) (L : GLoop)
    (hG : GraphOK G) (hNS : NoSelfLoops G)
    (hnd : initial_infecteds.Nodup)
    (hsub : ∀ u ∈ initial_infecteds, u ∈ G.nodes)
    (h : gSISBoundary rng G tau gamma initial_infecteds return_full_data tmax
      n = Except.ok L) :
    riskSum G.order L.st.risk_group = pairCount G L.st.status :=
  riskSum_eq_pairCount hG (gSISBoundary_SISInv hG hnd hsub n L h)

/-- Witness for C5: the one-node graph, one initial infected, at the
boundary after one loop iteration (a recovery). -/
theorem C5_risk_group_sum_counts_IS_pairs_witness :
    (GraphOK singletonGraph ∧ NoSelfLoops singletonGraph ∧
      ([0] : List ℕ).Nodup ∧
      (∀ u ∈ ([0] : List ℕ), u ∈ singletonGraph.nodes) ∧
      gSISBoundary rngW singletonGraph 1 1 [0] false (100 : ℚ) 1 =
        Except.ok (okOr dummyGLoop
          (gSISBoundary rngW singletonGraph 1 1 [0] false (100 : ℚ) 1))) ∧
    riskSum singletonGraph.order
        (okOr dummyGLoop
          (gSISBoundary rngW singletonGraph 1 1 [0] false
            (100 : ℚ) 1)).st.risk_group =
      pairCount singletonGraph
        (okOr dummyGLoop
          (gSISBoundary rngW singletonGraph 1 1 [0] false
            (100 : ℚ) 1)).st.status := by
  refine ⟨⟨singletonGraph_ok, singletonGraph_noSelfLoops, by decide,
    by decide, by with_unfolding_all rfl⟩, ?_⟩
  exact C5_risk_group_sum_counts_IS_pairs rngW singletonGraph 1 1 [0] false
    (100 : ℚ) 1 _ singletonGraph_ok singletonGraph_noSelfLoops (by decide)
    (by decide) (by with_unfolding_all rfl)

end EoN
